import Mathlib

/-!
A verification development for the minesweeper game core (src/game.c, src/game.h
of the wesmar/minesweeper repository), shallowly embedded in Lean 4.

The grid is the C array `CHAR g_GameGrid[1600]`, addressed by `(y << 5) + x`;
we model it as a total function `Int → Nat` holding the byte values.  The
bit layout of a cell byte follows game.h: bit 7 (`MaskBomb` = 0x80) is the
mine bit, bit 6 (`MaskVisit` = 0x40) is the visited bit, bits 0–4
(`MaskData` = 0x1F) are the visual type.  Coordinates are `Int` as in the C
source (`INT`).  Counters are `Int` (C `INT`; their values in real play are
far from any overflow boundary).  The flood-fill ring buffer
`g_FloodQueueX/Y[1600]` is a pair of total functions `Nat → Int` plus the
`g_QueueSize` counter.

Loops with data-dependent exit conditions (the flood-fill ring-buffer loop,
the rejection-sampling mine-placement loop) are embedded with explicit fuel;
the C loops have no bound of their own, and the theorems below establish
that under the grid well-formedness conditions the provided fuel is never
exhausted.  The PRNG (`rand()` seeded from the clock) is abstracted as a
stream `Nat → Nat` of draw results, consumed left to right.

Display-only calls (`RefreshCell`, `PlayGameSound`, dialog functions) have
no effect on the modelled state and are dropped.
-/

namespace Minesweeper

/-- A grid coordinate, `(x, y)`. -/
abbrev Coord := Int × Int

/-- `#define cBlkMax (40*40)` — the grid array size. -/
def cBlkMax : Nat := 40 * 40

/-- `#define iStepMax cBlkMax` — the flood-fill ring buffer capacity. -/
def iStepMax : Nat := cBlkMax

/-- The array index of cell `(x, y)`: `(y << 5) + x` from game.h. -/
def cellIndex (x y : Int) : Int := y * 32 + x

/-- The fields of the `PREF` configuration record that the game core reads. -/
structure Pref where
  Width : Int
  Height : Int
  Mines : Int
  fMark : Bool
  wGameType : Int
  rgTime : Int → Int

/-- The mutable globals of game.c gathered into one session state. -/
structure GameState where
  gameConfig : Pref
  gridWidth : Int
  gridHeight : Int
  currentButton : Int
  totalMines : Int
  remainingMines : Int
  revealedCells : Int
  targetRevealed : Int
  elapsedSeconds : Int
  timerActive : Bool
  oldTimerStatus : Bool
  cursorX : Int
  cursorY : Int
  chordMode : Bool
  gameStatus : Nat
  grid : Int → Nat
  queueX : Nat → Int
  queueY : Nat → Int
  queueSize : Nat

/-- `CELL_DATA(x,y)` — the raw byte of cell `(x, y)`. -/
def cellData (s : GameState) (x y : Int) : Nat := s.grid (cellIndex x y)

/-- `GET_CELL_TYPE(x,y)` — the visual type, `CELL_DATA & MaskData` (0x1F). -/
def getCellType (s : GameState) (x y : Int) : Nat := cellData s x y &&& 31

/-- `HasMine(x,y)` — the bomb bit `0x80` test. -/
def hasMineB (s : GameState) (x y : Int) : Bool := cellData s x y &&& 128 != 0

/-- `IsCellVisited(x,y)` — the visited bit `0x40` test. -/
def visitedB (s : GameState) (x y : Int) : Bool := cellData s x y &&& 64 != 0

/-- `IsCellFlagged(x,y)` — visual type equals `iBlkBombUp` (14). -/
def flaggedB (s : GameState) (x y : Int) : Bool := getCellType s x y == 14

/-- `IsCellMarked(x,y)` — visual type equals `iBlkGuessUp` (13). -/
def markedB (s : GameState) (x y : Int) : Bool := getCellType s x y == 13

/-- `IsValidPosition(x,y)` — inside the playable `1..width × 1..height` area. -/
def IsValidPosition (s : GameState) (x y : Int) : Prop :=
  0 < x ∧ 0 < y ∧ x ≤ s.gridWidth ∧ y ≤ s.gridHeight

instance (s : GameState) (x y : Int) : Decidable (IsValidPosition s x y) := by
  unfold IsValidPosition; infer_instance

/-- Overwrite the raw byte of one cell (a direct `CELL_DATA(x,y) = v` store). -/
def writeCell (s : GameState) (x y : Int) (v : Nat) : GameState :=
  { s with grid := Function.update s.grid (cellIndex x y) v }

/-- `SetCellData(x,y,blk)` — update the visual type, preserving the
`MaskFlags` (0xE0) bits of the byte. -/
def setCellDataS (s : GameState) (x y : Int) (blk : Nat) : GameState :=
  writeCell s x y ((cellData s x y &&& 224) ||| blk)

/-- `PlaceMine(x,y)` — `CELL_DATA |= MaskBomb`. -/
def placeMineS (s : GameState) (x y : Int) : GameState :=
  writeCell s x y (cellData s x y ||| 128)

/-- `UpdateCellState` — `SetCellData` plus a repaint (display only). -/
def updateCellState (s : GameState) (x y : Int) (iBlk : Nat) : GameState :=
  setCellDataS s x y iBlk

/-- `UpdateMineCount(adj)` — `g_RemainingMines += adj` plus a repaint. -/
def updateMineCount (s : GameState) (adj : Int) : GameState :=
  { s with remainingMines := s.remainingMines + adj }

/-- `CheckVictoryCondition()` — the live macro
`(g_RevealedCells == g_TargetRevealed)`. -/
def checkVictoryB (s : GameState) : Bool := s.revealedCells == s.targetRevealed

/-- The 3×3 block around `(x, y)` (center included), in the row-major order
the `CountBombs`/`CountMarks` double loops visit it. -/
def box3 (x y : Int) : List Coord :=
  [(x-1, y-1), (x, y-1), (x+1, y-1),
   (x-1, y),   (x, y),   (x+1, y),
   (x-1, y+1), (x, y+1), (x+1, y+1)]

/-- The 8 neighbors of `(x, y)` in the exact order `FloodFillReveal`
visits them. -/
def neighborsOf (x y : Int) : List Coord :=
  [(x-1, y-1), (x, y-1), (x+1, y-1),
   (x-1, y),   (x+1, y),
   (x-1, y+1), (x, y+1), (x+1, y+1)]

/-- `CountAdjacentMines(x,y)` — the number of cells of the 3×3 block around
`(x, y)` (the center itself included, as in the C loop bounds) whose bomb
bit is set. -/
def countAdjacentMines (s : GameState) (xc yc : Int) : Nat :=
  (box3 xc yc).countP (fun c => hasMineB s c.1 c.2)

/-- `CountAdjacentFlags(x,y)` — flagged cells of the 3×3 block. -/
def countAdjacentFlags (s : GameState) (xc yc : Int) : Nat :=
  (box3 xc yc).countP (fun c => flaggedB s c.1 c.2)

/-- `RevealCellRecursive(x,y)` (STEP XY): no-op when the cell is visited,
a border sentinel (`data = iBlkMax = 16`) or flagged (`data = iBlkBombUp =
14`); otherwise count adjacent mines, store `MaskVisit | count` as the new
byte, bump `g_RevealedCells`, and when the count is zero append the
coordinate to the flood queue (ring-buffer increment on `g_QueueSize`). -/
def revealCellRecursive (s : GameState) (x y : Int) : GameState :=
  let blk := s.grid (cellIndex x y)
  if blk &&& 64 ≠ 0 ∨ blk &&& 31 = 16 ∨ blk &&& 31 = 14 then s
  else
    let cBombs := countAdjacentMines s x y
    let s1 := { s with
                revealedCells := s.revealedCells + 1,
                grid := Function.update s.grid (cellIndex x y) (64 ||| cBombs) }
    if cBombs ≠ 0 then s1
    else
      { s1 with
        queueX := Function.update s1.queueX s1.queueSize x,
        queueY := Function.update s1.queueY s1.queueSize y,
        queueSize := if s1.queueSize + 1 = iStepMax then 0 else s1.queueSize + 1 }

/-- One dequeue step of `FloodFillReveal`: reveal the 8 neighbors of the
dequeued cell in the order of the C source (`--y` row, same row, `++y`
row). -/
def revealNeighbors (s : GameState) (x y : Int) : GameState :=
  let s1 := revealCellRecursive s (x-1) (y-1)
  let s2 := revealCellRecursive s1 x (y-1)
  let s3 := revealCellRecursive s2 (x+1) (y-1)
  let s4 := revealCellRecursive s3 (x-1) y
  let s5 := revealCellRecursive s4 (x+1) y
  let s6 := revealCellRecursive s5 (x-1) (y+1)
  let s7 := revealCellRecursive s6 x (y+1)
  revealCellRecursive s7 (x+1) (y+1)

/-- The `while (iStepCur != g_QueueSize)` loop of `FloodFillReveal`, with
explicit fuel (the C loop is unbounded; the theorems below show the fuel
`iStepMax` is never exhausted on well-formed grids). -/
def floodLoop : Nat → GameState → Nat → GameState
  | 0, s, _ => s
  | fuel + 1, s, iStepCur =>
      if iStepCur = s.queueSize then s
      else
        let x := s.queueX iStepCur
        let y := s.queueY iStepCur
        let s' := revealNeighbors s x y
        floodLoop fuel s' (if iStepCur + 1 = iStepMax then 0 else iStepCur + 1)

/-- `FloodFillReveal(x,y)` (STEP BOX): set `g_QueueSize = 1`, reveal the
seed, then run the ring-buffer loop starting at `iStepCur = 1`. -/
def floodFillReveal (s : GameState) (x y : Int) : GameState :=
  let s0 := { s with queueSize := 1 }
  let s1 := revealCellRecursive s0 x y
  floodLoop iStepMax s1 1

/-- The playable cells of row `y`, left to right: `(1,y) … (w,y)`. -/
def rowCells (w : Int) (y : Int) : List Coord :=
  (List.range w.toNat).map (fun i => (Int.ofNat i + 1, y))

/-- The playable cells of rows `1 … n`, in the row-major order of the
`for (y = 1..h) for (x = 1..w)` loops of game.c. -/
def rowMajorCells (w : Int) : Nat → List Coord
  | 0 => []
  | n + 1 => rowMajorCells w n ++ rowCells w (n + 1)

/-- All playable cells in row-major scan order. -/
def scanOrder (s : GameState) : List Coord :=
  rowMajorCells s.gridWidth s.gridHeight.toNat

/-- The first-click relocation scan of `HandleCellClick`: the first cell in
row-major order without a mine, if any. -/
def findFirstNonMine (s : GameState) : Option Coord :=
  (scanOrder s).find? (fun c => !hasMineB s c.1 c.2)

/-- `RevealAllMines(iBlk)` (SHOW BOMBS): at game end, overlay every
unvisited cell — an unflagged mine gets visual `iBlk`, a flagged non-mine
gets `iBlkWrong` (11); everything else is untouched. -/
def revealAllMines (s : GameState) (iBlk : Nat) : GameState :=
  (scanOrder s).foldl
    (fun st c =>
      if visitedB st c.1 c.2 then st
      else if hasMineB st c.1 c.2 then
        (if flaggedB st c.1 c.2 then st else setCellDataS st c.1 c.2 iBlk)
      else if flaggedB st c.1 c.2 then setCellDataS st c.1 c.2 11
      else st)
    s

/-- `EndGame(fWinLose)`: stop the timer, set the win/lose button, overlay
the mines (`iBlkBombUp` = 14 on a win, `iBlkBombDn` = 10 on a loss), zero
the mine counter on a win, set the status to `fDemo` (16), and on a
record-beating win store the new best time. -/
def endGame (s : GameState) (fWinLose : Bool) : GameState :=
  let s1 := { s with timerActive := false,
                     currentButton := if fWinLose then 3 else 2 }
  let s2 := revealAllMines s1 (if fWinLose then 14 else 10)
  let s3 := if fWinLose ∧ s2.remainingMines ≠ 0 then
              updateMineCount s2 (-s2.remainingMines) else s2
  let s4 := { s3 with gameStatus := 16 }
  if fWinLose ∧ s4.gameConfig.wGameType ≠ 3 ∧
      s4.elapsedSeconds < s4.gameConfig.rgTime s4.gameConfig.wGameType then
    { s4 with gameConfig := { s4.gameConfig with
        rgTime := Function.update s4.gameConfig.rgTime
                    s4.gameConfig.wGameType s4.elapsedSeconds } }
  else s4

/-- `HandleCellClick(x,y)` (STEP SQUARE): a mine on the very first reveal
is relocated to the first non-mine cell in row-major scan order and the
click proceeds as a safe flood fill; a mine otherwise detonates and loses;
a safe cell flood fills and then the victory condition is checked. -/
def handleCellClick (s : GameState) (x y : Int) : GameState :=
  if hasMineB s x y then
    if s.revealedCells = 0 then
      match findFirstNonMine s with
      | some c => floodFillReveal (placeMineS (writeCell s x y 15) c.1 c.2) x y
      | none => s
    else
      endGame (updateCellState s x y (64 ||| 12)) false
  else
    let s' := floodFillReveal s x y
    if checkVictoryB s' then endGame s' true else s'

/-- `PressCellVisual` (PUSH BOX): question mark 13 → pressed 9, hidden
blank 15 → pressed blank 0. -/
def pressCellVisual (s : GameState) (x y : Int) : GameState :=
  let iBlk := getCellType s x y
  let iBlk := if iBlk = 13 then 9 else if iBlk = 15 then 0 else iBlk
  setCellDataS s x y iBlk

/-- `ReleaseCellVisual` (POP BOX UP): pressed 9 → question mark 13,
pressed blank 0 → hidden blank 15. -/
def releaseCellVisual (s : GameState) (x y : Int) : GameState :=
  let iBlk := getCellType s x y
  let iBlk := if iBlk = 9 then 13 else if iBlk = 0 then 15 else iBlk
  setCellDataS s x y iBlk

/-- `fValidStep(x,y)` — neither visited nor flagged. -/
def fValidStepB (s : GameState) (x y : Int) : Bool :=
  !(visitedB s x y || flaggedB s x y)

/-- The inclusive integer range `a … b` as a list (empty when `a > b`),
for the clamped `for` loops of `UpdateCursorPosition`. -/
def intRangeIncl (a b : Int) : List Int :=
  (List.range (b + 1 - a).toNat).map (fun k => a + (k : Int))

/-- `UpdateCursorPosition(xNew,yNew)` (TRACK MOUSE): move the tracked
cursor, releasing the pressed visuals around the old position and pressing
those around the new one (a 3×3 block in chord mode, a single cell
otherwise).  Repaint calls are display-only and dropped. -/
def updateCursorPosition (s : GameState) (xNew yNew : Int) : GameState :=
  if xNew = s.cursorX ∧ yNew = s.cursorY then s
  else
    let xOld := s.cursorX
    let yOld := s.cursorY
    let s := { s with cursorX := xNew, cursorY := yNew }
    if s.chordMode then
      let fValidNew := IsValidPosition s xNew yNew
      let fValidOld := IsValidPosition s xOld yOld
      let yOldMin := max (yOld - 1) 1
      let yOldMax := min (yOld + 1) s.gridHeight
      let yCurMin := max (s.cursorY - 1) 1
      let yCurMax := min (s.cursorY + 1) s.gridHeight
      let xOldMin := max (xOld - 1) 1
      let xOldMax := min (xOld + 1) s.gridWidth
      let xCurMin := max (s.cursorX - 1) 1
      let xCurMax := min (s.cursorX + 1) s.gridWidth
      let s := if fValidOld then
          (intRangeIncl yOldMin yOldMax).foldl (fun st yy =>
            (intRangeIncl xOldMin xOldMax).foldl (fun st2 xx =>
              if ¬ visitedB st2 xx yy then releaseCellVisual st2 xx yy else st2) st) s
        else s
      let s := if fValidNew then
          (intRangeIncl yCurMin yCurMax).foldl (fun st yy =>
            (intRangeIncl xCurMin xCurMax).foldl (fun st2 xx =>
              if ¬ visitedB st2 xx yy then pressCellVisual st2 xx yy else st2) st) s
        else s
      s
    else
      let s := if IsValidPosition s xOld yOld ∧ ¬ visitedB s xOld yOld then
          releaseCellVisual s xOld yOld else s
      if IsValidPosition s xNew yNew ∧ fValidStepB s xNew yNew then
        pressCellVisual s s.cursorX s.cursorY
      else s

/-- The chord precondition failure of `RevealAdjacentCells`: center not
visited, or flagged, or not a number 1–8, or number ≠ adjacent flags. -/
def chordPrecondFail (s : GameState) (xc yc : Int) : Prop :=
  visitedB s xc yc = false ∨ flaggedB s xc yc = true ∨
  getCellType s xc yc < 1 ∨ 8 < getCellType s xc yc ∨
  getCellType s xc yc ≠ countAdjacentFlags s xc yc

instance (s : GameState) (xc yc : Int) : Decidable (chordPrecondFail s xc yc) := by
  unfold chordPrecondFail; infer_instance

/-- `RevealAdjacentCells(x,y)` (STEP BLOCK, chording): if the precondition
fails, pop the pressed blocks back up (`UpdateCursorPosition(-2,-2)`);
otherwise walk the 3×3 block — an unflagged mine is marked exploded
(`MaskVisit | iBlkExplode`) and sets the game-over flag, anything else is
flood-filled — then end as a loss if anything detonated, else check
victory. -/
def revealAdjacentCells (s : GameState) (xc yc : Int) : GameState :=
  if chordPrecondFail s xc yc then updateCursorPosition s (-2) (-2)
  else
    let p := (box3 xc yc).foldl
      (fun (a : GameState × Bool) c =>
        if !(flaggedB a.1 c.1 c.2) && hasMineB a.1 c.1 c.2 then
          (updateCellState a.1 c.1 c.2 (64 ||| 12), true)
        else
          (floodFillReveal a.1 c.1 c.2, a.2))
      (s, false)
    if p.2 then endGame p.1 false
    else if checkVictoryB p.1 then endGame p.1 true
    else p.1

/-- `ResetGameGrid` (CLEAR FIELD): every array byte becomes `iBlkBlankUp`
(15), then the border ring is stamped with the sentinel `iBlkMax` (16). -/
def resetGameGrid (s : GameState) : GameState :=
  let s := { s with grid := fun i => if 0 ≤ i ∧ i < (cBlkMax : Int) then 15 else s.grid i }
  let s := (List.range (s.gridWidth + 2).toNat).foldl
    (fun st i => writeCell (writeCell st (Int.ofNat i) 0 16) (Int.ofNat i) (st.gridHeight + 1) 16) s
  (List.range (s.gridHeight + 2).toNat).foldl
    (fun st i => writeCell (writeCell st 0 (Int.ofNat i) 16) (st.gridWidth + 1) (Int.ofNat i) 16) s

/-- The mine-placement loop of `InitializeGameBoard`: draw a random cell
(an x draw then a y draw from the stream, `rand() % limit + 1` as in
`GenerateRandomNumber`), redraw while it is already mined, place a mine,
and repeat until `count` mines are placed.  Fuel bounds the number of
draws; `none` means the fuel ran out. -/
def mineLoop (rng : Nat → Nat) : Nat → GameState → Nat → Int → Option GameState
  | 0, _, _, _ => none
  | fuel + 1, s, k, count =>
      let x := (rng k % s.gridWidth.toNat : Nat) + (1 : Int)
      let y := (rng (k + 1) % s.gridHeight.toNat : Nat) + (1 : Int)
      if hasMineB s x y then mineLoop rng fuel s (k + 2) count
      else
        let s' := placeMineS s x y
        if count - 1 = 0 then some s' else mineLoop rng fuel s' (k + 2) (count - 1)

/-- The opening assignments of `InitializeGameBoard`: stop the timer and
adopt the configured dimensions. -/
def initDims (s : GameState) : GameState :=
  { s with timerActive := false,
           gridWidth := s.gameConfig.Width,
           gridHeight := s.gameConfig.Height }

/-- The state of `InitializeGameBoard` at the top of its mine-placement
loop: dimensions adopted, grid reset, happy button, `g_TotalMines`
loaded with the configured mine count. -/
def initBoardPre (s : GameState) : GameState :=
  { resetGameGrid (initDims s) with
      currentButton := 0,
      totalMines := (initDims s).gameConfig.Mines }

/-- `InitializeGameBoard` (START GAME): adopt the configured dimensions,
clear the grid, place `Mines` mines by rejection sampling, then reset all
session counters and enter the playing status. -/
def initializeGameBoard (s : GameState) (rng : Nat → Nat) (fuel : Nat) :
    Option GameState :=
  match mineLoop rng fuel (initBoardPre s) 0 (initBoardPre s).totalMines with
  | none => none
  | some s' => some
      { s' with
        elapsedSeconds := 0,
        remainingMines := s'.gameConfig.Mines,
        totalMines := s'.gameConfig.Mines,
        revealedCells := 0,
        targetRevealed := s'.gridWidth * s'.gridHeight - s'.gameConfig.Mines,
        gameStatus := 1 }

/-- `ToggleCellMarker(x,y)` (MAKE GUESS): cycle hidden → flagged →
(questioned →) hidden on an unvisited playable cell, adjusting the mine
counter on flag transitions, then run the victory check if the cell is now
flagged. -/
def toggleCellMarker (s : GameState) (x y : Int) : GameState :=
  if IsValidPosition s x y then
    if visitedB s x y then s
    else
      let pick : Nat × GameState :=
        if flaggedB s x y then
          ((if s.gameConfig.fMark then 13 else 15), updateMineCount s 1)
        else if markedB s x y then (15, s)
        else (14, updateMineCount s (-1))
      let s2 := updateCellState pick.2 x y pick.1
      if flaggedB s2 x y ∧ checkVictoryB s2 then endGame s2 true else s2
  else s

/-- `UpdateGameTimer` (DO TIMER): one tick — increment the elapsed time
only while the timer is active and below the 999 cap. -/
def updateGameTimer (s : GameState) : GameState :=
  if s.timerActive ∧ s.elapsedSeconds < 999 then
    { s with elapsedSeconds := s.elapsedSeconds + 1 }
  else s

/-- `fStatusPlay` — bit 0 of the status word. -/
def fStatusPlayP (s : GameState) : Prop := s.gameStatus &&& 1 ≠ 0

instance (s : GameState) : Decidable (fStatusPlayP s) := by
  unfold fStatusPlayP; infer_instance

/-- `fStatusPause` — bit 1 of the status word. -/
def fStatusPauseP (s : GameState) : Prop := s.gameStatus &&& 2 ≠ 0

instance (s : GameState) : Decidable (fStatusPauseP s) := by
  unfold fStatusPauseP; infer_instance

/-- `SuspendGameState` (PAUSE GAME): remember the timer status (unless
already paused), stop the timer while playing, set the pause bit. -/
def suspendGameState (s : GameState) : GameState :=
  let s := if ¬ fStatusPauseP s then { s with oldTimerStatus := s.timerActive } else s
  let s := if fStatusPlayP s then { s with timerActive := false } else s
  { s with gameStatus := s.gameStatus ||| 2 }

/-- `RestoreGameState` (RESUME GAME): restore the remembered timer status
while playing, clear the pause bit. -/
def restoreGameState (s : GameState) : GameState :=
  let s := if fStatusPlayP s then { s with timerActive := s.oldTimerStatus } else s
  { s with gameStatus := s.gameStatus &&& 253 }

/-- `HandleLeftButtonRelease` (DO BUTTON 1 UP): on a valid cursor cell,
start the timer on the session's very first action, then either chord or —
if the cell is neither visited nor flagged — run the single-cell click. -/
def handleLeftButtonRelease (s : GameState) : GameState :=
  if IsValidPosition s s.cursorX s.cursorY then
    let s := if s.revealedCells = 0 ∧ s.elapsedSeconds = 0 then
        { s with elapsedSeconds := s.elapsedSeconds + 1, timerActive := true }
      else s
    let s := if ¬ fStatusPlayP s then { s with cursorX := -2, cursorY := -2 } else s
    if s.chordMode then revealAdjacentCells s s.cursorX s.cursorY
    else if fValidStepB s s.cursorX s.cursorY then
      handleCellClick s s.cursorX s.cursorY
    else s
  else s

/-! ### Byte-level helper lemmas -/

theorem and_or_right (x y z : Nat) : (x ||| y) &&& z = (x &&& z) ||| (y &&& z) := by
  apply Nat.eq_of_testBit_eq
  intro i
  simp [Nat.testBit_land, Nat.testBit_lor, Bool.and_or_distrib_right]

theorem revealByte_data {c : Nat} (hc : c ≤ 9) : (64 ||| c) &&& 31 = c := by
  revert c; decide

theorem revealByte_vis {c : Nat} (hc : c ≤ 9) : (64 ||| c) &&& 64 = 64 := by
  revert c; decide

theorem revealByte_mine {c : Nat} (hc : c ≤ 9) : (64 ||| c) &&& 128 = 0 := by
  revert c; decide

theorem setByte_mine (b blk : Nat) (h : blk &&& 128 = 0) :
    ((b &&& 224) ||| blk) &&& 128 = b &&& 128 := by
  rw [and_or_right, h, Nat.or_zero, Nat.and_assoc,
    (by decide : (224 &&& 128 : Nat) = 128)]

theorem setByte_vis (b blk : Nat) :
    ((b &&& 224) ||| blk) &&& 64 = (b &&& 64) ||| (blk &&& 64) := by
  rw [and_or_right, Nat.and_assoc, (by decide : (224 &&& 64 : Nat) = 64)]

theorem setByte_data (b blk : Nat) :
    ((b &&& 224) ||| blk) &&& 31 = blk &&& 31 := by
  rw [and_or_right, Nat.and_assoc, (by decide : (224 &&& 31 : Nat) = 0),
    Nat.and_zero, Nat.zero_or]

theorem setByte_self (b : Nat) (hb : b < 256) : (b &&& 224) ||| (b &&& 31) = b := by
  rw [← Nat.and_or_distrib_left, (by decide : (224 ||| 31 : Nat) = 255)]
  apply Nat.eq_of_testBit_eq
  intro i
  rw [Nat.testBit_land]
  rcases Nat.lt_or_ge i 8 with hi | hi
  · have h255 : ∀ j, j < 8 → Nat.testBit 255 j = true := by decide
    rw [h255 i hi, Bool.and_true]
  · have h2 : (256 : Nat) ≤ 2 ^ i := by
      calc (256 : Nat) = 2 ^ 8 := by norm_num
        _ ≤ 2 ^ i := Nat.pow_le_pow_right (by norm_num) hi
    have h1 : b.testBit i = false :=
      Nat.testBit_eq_false_of_lt (lt_of_lt_of_le hb h2)
    simp [h1]

theorem orByte_mine (b : Nat) : (b ||| 128) &&& 128 = 128 := by
  rw [and_or_right, (by decide : (128 &&& 128 : Nat) = 128)]
  have h7 := Nat.and_two_pow b 7
  norm_num at h7
  rw [h7]
  cases b.testBit 7 <;> simp

theorem orByte_data (b : Nat) : (b ||| 128) &&& 31 = b &&& 31 := by
  rw [and_or_right, (by decide : (128 &&& 31 : Nat) = 0), Nat.or_zero]

theorem orByte_vis (b : Nat) : (b ||| 128) &&& 64 = b &&& 64 := by
  rw [and_or_right, (by decide : (128 &&& 64 : Nat) = 0), Nat.or_zero]

theorem cnt_le_nine (s : GameState) (x y : Int) : countAdjacentMines s x y ≤ 9 :=
  List.countP_le_length _

/-! ### Spec-side sets and predicates -/

/-- The playable cell in position `c`, as a coordinate predicate. -/
def playableC (s : GameState) (c : Coord) : Prop := IsValidPosition s c.1 c.2

instance (s : GameState) (c : Coord) : Decidable (playableC s c) := by
  unfold playableC; infer_instance

/-- The padded board `0 … width+1 × 0 … height+1` — the only cells a flood
pass can touch. -/
def inBox (s : GameState) (c : Coord) : Prop :=
  0 ≤ c.1 ∧ c.1 ≤ s.gridWidth + 1 ∧ 0 ≤ c.2 ∧ c.2 ≤ s.gridHeight + 1

instance (s : GameState) (c : Coord) : Decidable (inBox s c) := by
  unfold inBox; infer_instance

/-- The playable cells as a finite set. -/
def playFinset (s : GameState) : Finset Coord :=
  Finset.Icc 1 s.gridWidth ×ˢ Finset.Icc 1 s.gridHeight

/-- The cells visited in `s` but not yet in `s0` — the cells newly revealed
since `s0`. -/
def newlyVisited (s0 s : GameState) : Finset Coord :=
  (playFinset s0).filter
    (fun c => visitedB s c.1 c.2 = true ∧ visitedB s0 c.1 c.2 = false)

/-- The newly revealed cells with zero adjacency count (relative to the
mine layout of `s0`) — exactly the cells a flood pass enqueues. -/
def newZero (s0 s : GameState) : Finset Coord :=
  (newlyVisited s0 s).filter (fun c => countAdjacentMines s0 c.1 c.2 = 0)

/-- Grid well-formedness: valid dimensions, the border ring holds the
sentinel byte 16, playable cells have a visual type other than 16 and a
byte value below 256. -/
def WFGrid (s : GameState) : Prop :=
  9 ≤ s.gridWidth ∧ s.gridWidth ≤ 30 ∧ 9 ≤ s.gridHeight ∧ s.gridHeight ≤ 24 ∧
  (∀ x ∈ Finset.Icc (0 : Int) (s.gridWidth + 1),
   ∀ y ∈ Finset.Icc (0 : Int) (s.gridHeight + 1),
     ((x = 0 ∨ x = s.gridWidth + 1 ∨ y = 0 ∨ y = s.gridHeight + 1) →
        s.grid (cellIndex x y) = 16) ∧
     ((0 < x ∧ x ≤ s.gridWidth ∧ 0 < y ∧ y ≤ s.gridHeight) →
        s.grid (cellIndex x y) &&& 31 ≠ 16 ∧ s.grid (cellIndex x y) < 256))

instance (s : GameState) : Decidable (WFGrid s) := by
  unfold WFGrid; infer_instance

/-- The connected reveal region of a flood pass seeded at `(x0, y0)`: the
seed, plus everything reachable by stepping from a revealed zero-adjacency
cell to any playable neighbor.  (Cells entered through the final step that
are not themselves zero-adjacency form the claim's "numbered border".) -/
inductive InRegion (s0 : GameState) (x0 y0 : Int) : Int → Int → Prop where
  | seed : InRegion s0 x0 y0 x0 y0
  | step {a b c d : Int} :
      InRegion s0 x0 y0 a b →
      IsValidPosition s0 a b →
      countAdjacentMines s0 a b = 0 →
      (c, d) ∈ neighborsOf a b →
      IsValidPosition s0 c d →
      InRegion s0 x0 y0 c d

theorem InRegion.playable {s0 : GameState} {x0 y0 c d : Int}
    (hseed : IsValidPosition s0 x0 y0) (h : InRegion s0 x0 y0 c d) :
    IsValidPosition s0 c d := by
  cases h with
  | seed => exact hseed
  | step _ _ _ _ hp => exact hp

/-! ### Basic coordinate geometry -/

theorem cellIndex_inj {x1 y1 x2 y2 : Int}
    (hx1 : 0 ≤ x1) (hx1' : x1 < 32) (hx2 : 0 ≤ x2) (hx2' : x2 < 32)
    (h : cellIndex x1 y1 = cellIndex x2 y2) : x1 = x2 ∧ y1 = y2 := by
  unfold cellIndex at h
  constructor <;> omega

theorem neighborsOf_sub_box3 {a b : Int} {c : Coord}
    (h : c ∈ neighborsOf a b) : c ∈ box3 a b := by
  simp only [neighborsOf, box3, List.mem_cons, List.mem_singleton] at h ⊢
  tauto

theorem mem_box3_bounds {a b : Int} {c : Coord} (h : c ∈ box3 a b) :
    a - 1 ≤ c.1 ∧ c.1 ≤ a + 1 ∧ b - 1 ≤ c.2 ∧ c.2 ≤ b + 1 := by
  simp only [box3, List.mem_cons, List.not_mem_nil, or_false] at h
  rcases h with h | h | h | h | h | h | h | h | h <;> subst h <;> dsimp only <;> omega

theorem box3_inBox {s : GameState} {a b : Int} (hab : IsValidPosition s a b)
    {c : Coord} (h : c ∈ box3 a b) : inBox s c := by
  obtain ⟨h1, h2, h3, h4⟩ := mem_box3_bounds h
  obtain ⟨g1, g2, g3, g4⟩ := hab
  exact ⟨by omega, by omega, by omega, by omega⟩

theorem countP_box3_zero {s : GameState} {a b : Int}
    (h : countAdjacentMines s a b = 0) {c : Coord} (hc : c ∈ box3 a b) :
    hasMineB s c.1 c.2 = false := by
  unfold countAdjacentMines at h
  rw [List.countP_eq_zero] at h
  simpa using h c hc

theorem mem_playFinset {s : GameState} {c : Coord} :
    c ∈ playFinset s ↔ IsValidPosition s c.1 c.2 := by
  unfold playFinset IsValidPosition
  rw [Finset.mem_product, Finset.mem_Icc, Finset.mem_Icc]
  omega

theorem playFinset_card_le (s : GameState)
    (hw : s.gridWidth ≤ 30) (hh : s.gridHeight ≤ 24) :
    (playFinset s).card ≤ 720 := by
  unfold playFinset
  rw [Finset.card_product, Int.card_Icc, Int.card_Icc]
  have h1 : (s.gridWidth + 1 - 1).toNat ≤ 30 := by omega
  have h2 : (s.gridHeight + 1 - 1).toNat ≤ 24 := by omega
  calc (s.gridWidth + 1 - 1).toNat * (s.gridHeight + 1 - 1).toNat
      ≤ 30 * 24 := Nat.mul_le_mul h1 h2
    _ = 720 := by norm_num

/-! ### Case analysis of `RevealCellRecursive` -/

/-- The skip condition of `RevealCellRecursive`: visited, border sentinel,
or flagged. -/
def skipCell (s : GameState) (x y : Int) : Prop :=
  s.grid (cellIndex x y) &&& 64 ≠ 0 ∨ s.grid (cellIndex x y) &&& 31 = 16 ∨
  s.grid (cellIndex x y) &&& 31 = 14

instance (s : GameState) (x y : Int) : Decidable (skipCell s x y) := by
  unfold skipCell; infer_instance

theorem reveal_skip {s : GameState} {x y : Int} (h : skipCell s x y) :
    revealCellRecursive s x y = s := by
  unfold skipCell at h
  simp only [revealCellRecursive]
  rw [if_pos h]

theorem reveal_write {s : GameState} {x y : Int} (h : ¬ skipCell s x y)
    (hz : countAdjacentMines s x y ≠ 0) :
    revealCellRecursive s x y =
      { s with revealedCells := s.revealedCells + 1,
               grid := Function.update s.grid (cellIndex x y)
                         (64 ||| countAdjacentMines s x y) } := by
  unfold skipCell at h
  simp only [revealCellRecursive]
  rw [if_neg h, if_pos hz]

theorem reveal_write_zero {s : GameState} {x y : Int} (h : ¬ skipCell s x y)
    (hz : countAdjacentMines s x y = 0) :
    revealCellRecursive s x y =
      { s with revealedCells := s.revealedCells + 1,
               grid := Function.update s.grid (cellIndex x y)
                         (64 ||| countAdjacentMines s x y),
               queueX := Function.update s.queueX s.queueSize x,
               queueY := Function.update s.queueY s.queueSize y,
               queueSize := if s.queueSize + 1 = iStepMax then 0
                            else s.queueSize + 1 } := by
  unfold skipCell at h
  simp only [revealCellRecursive]
  rw [if_neg h, if_neg (by rw [hz]; exact fun hc => hc rfl)]

/-- Everything a reveal pass leaves alone: all fields other than the grid,
the queue and the revealed-cell counter. -/
def SameShell (s t : GameState) : Prop :=
  t.gameConfig = s.gameConfig ∧ t.gridWidth = s.gridWidth ∧
  t.gridHeight = s.gridHeight ∧ t.currentButton = s.currentButton ∧
  t.totalMines = s.totalMines ∧ t.remainingMines = s.remainingMines ∧
  t.targetRevealed = s.targetRevealed ∧ t.elapsedSeconds = s.elapsedSeconds ∧
  t.timerActive = s.timerActive ∧ t.oldTimerStatus = s.oldTimerStatus ∧
  t.cursorX = s.cursorX ∧ t.cursorY = s.cursorY ∧ t.chordMode = s.chordMode ∧
  t.gameStatus = s.gameStatus

theorem sameShell_refl (s : GameState) : SameShell s s := by
  unfold SameShell; tauto

theorem sameShell_trans {s t u : GameState}
    (h1 : SameShell s t) (h2 : SameShell t u) : SameShell s u := by
  unfold SameShell at *
  obtain ⟨a1, a2, a3, a4, a5, a6, a7, a8, a9, a10, a11, a12, a13, a14⟩ := h1
  obtain ⟨b1, b2, b3, b4, b5, b6, b7, b8, b9, b10, b11, b12, b13, b14⟩ := h2
  refine ⟨?_, ?_, ?_, ?_, ?_, ?_, ?_, ?_, ?_, ?_, ?_, ?_, ?_, ?_⟩ <;>
    simp_all

/-- The byte-level facts every single reveal call guarantees, composable
over whole passes: the shell is untouched, visited bytes are frozen, and a
byte's flaggedness (`data = 14`) never changes. -/
def RevealLike (s t : GameState) : Prop :=
  SameShell s t ∧
  (∀ i : Int, s.grid i &&& 64 ≠ 0 → t.grid i = s.grid i) ∧
  (∀ i : Int, (t.grid i &&& 31 = 14 ↔ s.grid i &&& 31 = 14))

theorem revealLike_refl (s : GameState) : RevealLike s s :=
  ⟨sameShell_refl s, fun _ _ => rfl, fun _ => Iff.rfl⟩

theorem revealLike_trans {s t u : GameState}
    (h1 : RevealLike s t) (h2 : RevealLike t u) : RevealLike s u := by
  obtain ⟨hs1, hv1, hf1⟩ := h1
  obtain ⟨hs2, hv2, hf2⟩ := h2
  refine ⟨sameShell_trans hs1 hs2, ?_, ?_⟩
  · intro i hi
    rw [hv2 i (by rw [hv1 i hi]; exact hi), hv1 i hi]
  · intro i
    rw [hf2 i, hf1 i]

theorem RevealLike.visited_mono {s t : GameState} (h : RevealLike s t)
    (i : Int) (hi : s.grid i &&& 64 ≠ 0) : t.grid i &&& 64 ≠ 0 := by
  rw [h.2.1 i hi]; exact hi

theorem reveal_revealLike (s : GameState) (x y : Int) :
    RevealLike s (revealCellRecursive s x y) := by
  by_cases h : skipCell s x y
  · rw [reveal_skip h]; exact revealLike_refl s
  · have hvis : s.grid (cellIndex x y) &&& 64 = 0 := by
      unfold skipCell at h
      push_neg at h
      exact h.1
    have hflag : s.grid (cellIndex x y) &&& 31 ≠ 14 := by
      unfold skipCell at h
      push_neg at h
      exact h.2.2
    have hgrid : (revealCellRecursive s x y).grid =
        Function.update s.grid (cellIndex x y)
          (64 ||| countAdjacentMines s x y) := by
      by_cases hz : countAdjacentMines s x y = 0
      · rw [reveal_write_zero h hz]
      · rw [reveal_write h hz]
    have hshell : SameShell s (revealCellRecursive s x y) := by
      by_cases hz : countAdjacentMines s x y = 0
      · rw [reveal_write_zero h hz]; unfold SameShell; tauto
      · rw [reveal_write h hz]; unfold SameShell; tauto
    refine ⟨hshell, ?_, ?_⟩
    · intro i hi
      rw [hgrid]
      rcases eq_or_ne i (cellIndex x y) with rfl | hne
      · exact absurd hvis hi
      · exact Function.update_noteq hne _ _
    · intro i
      rw [hgrid]
      rcases eq_or_ne i (cellIndex x y) with rfl | hne
      · rw [Function.update_same,
          revealByte_data (cnt_le_nine s x y)]
        constructor
        · intro hc
          have h9 := cnt_le_nine s x y
          omega
        · intro hc
          exact absurd hc hflag
      · rw [Function.update_noteq hne]

theorem revealNeighbors_revealLike (s : GameState) (x y : Int) :
    RevealLike s (revealNeighbors s x y) := by
  simp only [revealNeighbors]
  refine revealLike_trans (reveal_revealLike s (x-1) (y-1)) ?_
  refine revealLike_trans (reveal_revealLike _ x (y-1)) ?_
  refine revealLike_trans (reveal_revealLike _ (x+1) (y-1)) ?_
  refine revealLike_trans (reveal_revealLike _ (x-1) y) ?_
  refine revealLike_trans (reveal_revealLike _ (x+1) y) ?_
  refine revealLike_trans (reveal_revealLike _ (x-1) (y+1)) ?_
  refine revealLike_trans (reveal_revealLike _ x (y+1)) ?_
  exact reveal_revealLike _ (x+1) (y+1)

theorem floodLoop_revealLike :
    ∀ (fuel : Nat) (s : GameState) (i : Nat), RevealLike s (floodLoop fuel s i)
  | 0, s, i => revealLike_refl s
  | fuel + 1, s, i => by
      unfold floodLoop
      by_cases h : i = s.queueSize
      · rw [if_pos h]; exact revealLike_refl s
      · rw [if_neg h]
        exact revealLike_trans (revealNeighbors_revealLike s _ _)
          (floodLoop_revealLike fuel _ _)

theorem floodFillReveal_revealLike (s : GameState) (x y : Int) :
    RevealLike s (floodFillReveal s x y) := by
  unfold floodFillReveal
  have h0 : RevealLike s { s with queueSize := 1 } := by
    refine ⟨?_, fun _ _ => rfl, fun _ => Iff.rfl⟩
    unfold SameShell; tauto
  exact revealLike_trans (revealLike_trans h0 (reveal_revealLike _ x y))
    (floodLoop_revealLike _ _ _)

/-! ### The flood-pass invariant -/

/-- A cell is settled for a flood pass when no further `RevealCellRecursive`
call can change it: it is visited, outside the playable area (border
sentinel), or flagged. -/
def settled (s0 s : GameState) (c : Coord) : Prop :=
  visitedB s c.1 c.2 = true ∨ ¬ IsValidPosition s0 c.1 c.2 ∨
  getCellType s c.1 c.2 = 14

/-- Grid-change soundness of a flood pass relative to the pre-pass state
`s0`: every byte is either untouched, or belongs to a playable, previously
unvisited, unflagged, mine-free cell of the reveal region and now holds
`MaskVisit | count`. -/
def ChangedOK (s0 : GameState) (x0 y0 : Int) (s : GameState) : Prop :=
  ∀ i : Int, s.grid i = s0.grid i ∨
    ∃ c : Coord, IsValidPosition s0 c.1 c.2 ∧ i = cellIndex c.1 c.2 ∧
      InRegion s0 x0 y0 c.1 c.2 ∧
      s0.grid i &&& 64 = 0 ∧ s0.grid i &&& 31 ≠ 14 ∧ s0.grid i &&& 128 = 0 ∧
      s.grid i = 64 ||| countAdjacentMines s0 c.1 c.2

/-- The invariant a flood pass maintains between `RevealCellRecursive`
calls. -/
structure PassInv (s0 : GameState) (x0 y0 : Int) (s : GameState) : Prop where
  shell : SameShell s0 s
  changed : ChangedOK s0 x0 y0 s
  revCount : s.revealedCells = s0.revealedCells + (newlyVisited s0 s).card
  qsEq : s.queueSize = 1 + (newZero s0 s).card
  queueMem : ∀ j : Nat, 1 ≤ j → j < s.queueSize →
    (s.queueX j, s.queueY j) ∈ newZero s0 s
  queueInj : ∀ j k : Nat, 1 ≤ j → j < s.queueSize → 1 ≤ k → k < s.queueSize →
    s.queueX j = s.queueX k → s.queueY j = s.queueY k → j = k
  queueSurj : ∀ c ∈ newZero s0 s, ∃ j : Nat, 1 ≤ j ∧ j < s.queueSize ∧
    s.queueX j = c.1 ∧ s.queueY j = c.2

theorem PassInv.mine_eq {s0 s : GameState} {x0 y0 : Int}
    (h : PassInv s0 x0 y0 s) (i : Int) :
    s.grid i &&& 128 = s0.grid i &&& 128 := by
  rcases h.changed i with hu | ⟨c, _, hidx, _, _, _, hm0, hb⟩
  · rw [hu]
  · rw [hb, revealByte_mine (cnt_le_nine s0 c.1 c.2), hm0]

theorem PassInv.hasMine_eq {s0 s : GameState} {x0 y0 : Int}
    (h : PassInv s0 x0 y0 s) (x y : Int) :
    hasMineB s x y = hasMineB s0 x y := by
  unfold hasMineB cellData
  rw [h.mine_eq (cellIndex x y)]

theorem PassInv.cnt_eq {s0 s : GameState} {x0 y0 : Int}
    (h : PassInv s0 x0 y0 s) (x y : Int) :
    countAdjacentMines s x y = countAdjacentMines s0 x y := by
  unfold countAdjacentMines
  apply List.countP_congr
  intro c _
  rw [h.hasMine_eq c.1 c.2]

theorem PassInv.visited_of_s0 {s0 s : GameState} {x0 y0 : Int}
    (h : PassInv s0 x0 y0 s) (i : Int) (hi : s0.grid i &&& 64 ≠ 0) :
    s.grid i = s0.grid i := by
  rcases h.changed i with hu | ⟨c, _, _, _, hv0, _, _, _⟩
  · exact hu
  · exact absurd hv0 hi

theorem PassInv.flag_iff {s0 s : GameState} {x0 y0 : Int}
    (h : PassInv s0 x0 y0 s) (i : Int) :
    (s.grid i &&& 31 = 14 ↔ s0.grid i &&& 31 = 14) := by
  rcases h.changed i with hu | ⟨c, _, _, _, _, hf0, _, hb⟩
  · rw [hu]
  · rw [hb, revealByte_data (cnt_le_nine s0 c.1 c.2)]
    constructor
    · intro hc
      have h9 := cnt_le_nine s0 c.1 c.2
      omega
    · intro hc
      exact absurd hc hf0

/-- Within the padded box, distinct coordinates have distinct array
indexes (the playable width never reaches the stride 32). -/
theorem cellIndex_inj_box {s0 : GameState} (hw : s0.gridWidth ≤ 30)
    {c d : Coord} (hc : inBox s0 c) (hd : inBox s0 d)
    (h : cellIndex c.1 c.2 = cellIndex d.1 d.2) : c = d := by
  obtain ⟨hc1, hc2, _, _⟩ := hc
  obtain ⟨hd1, hd2, _, _⟩ := hd
  have := @cellIndex_inj c.1 c.2 d.1 d.2
    hc1 (by omega) hd1 (by omega) h
  obtain ⟨h1, h2⟩ := this
  exact Prod.ext h1 h2

theorem playable_inBox {s0 : GameState} {c : Coord}
    (h : IsValidPosition s0 c.1 c.2) : inBox s0 c := by
  obtain ⟨h1, h2, h3, h4⟩ := h
  exact ⟨by omega, by omega, by omega, by omega⟩

/-- Bytes of non-playable box cells are untouched by the pass. -/
theorem PassInv.ring_unchanged {s0 s : GameState} {x0 y0 : Int}
    (hWF : WFGrid s0) (h : PassInv s0 x0 y0 s) {c : Coord}
    (hc : inBox s0 c) (hnp : ¬ IsValidPosition s0 c.1 c.2) :
    s.grid (cellIndex c.1 c.2) = s0.grid (cellIndex c.1 c.2) := by
  rcases h.changed (cellIndex c.1 c.2) with hu | ⟨d, hd, hidx, _, _, _, _, _⟩
  · exact hu
  · exact absurd (by
      rw [cellIndex_inj_box hWF.2.1 hc (playable_inBox hd) hidx]
      exact hd) hnp

/-- Ring cells keep the sentinel byte 16 throughout a pass. -/
theorem PassInv.ring_sixteen {s0 s : GameState} {x0 y0 : Int}
    (hWF : WFGrid s0) (h : PassInv s0 x0 y0 s) {c : Coord}
    (hc : inBox s0 c) (hnp : ¬ IsValidPosition s0 c.1 c.2) :
    s.grid (cellIndex c.1 c.2) = 16 := by
  rw [h.ring_unchanged hWF hc hnp]
  obtain ⟨hb1, hb2, hb3, hb4⟩ := hc
  have hring := (hWF.2.2.2.2 c.1 (Finset.mem_Icc.mpr ⟨hb1, hb2⟩)
    c.2 (Finset.mem_Icc.mpr ⟨hb3, hb4⟩)).1
  apply hring
  unfold IsValidPosition at hnp
  omega

/-- Playable cells never show the sentinel data value during a pass. -/
theorem PassInv.playable_ne16 {s0 s : GameState} {x0 y0 : Int}
    (hWF : WFGrid s0) (h : PassInv s0 x0 y0 s) {c : Coord}
    (hp : IsValidPosition s0 c.1 c.2) :
    s.grid (cellIndex c.1 c.2) &&& 31 ≠ 16 := by
  rcases h.changed (cellIndex c.1 c.2) with hu | ⟨d, _, _, _, _, _, _, hb⟩
  · rw [hu]
    obtain ⟨h1, h2, h3, h4⟩ := hp
    exact ((hWF.2.2.2.2 c.1 (Finset.mem_Icc.mpr ⟨by omega, by omega⟩)
      c.2 (Finset.mem_Icc.mpr ⟨by omega, by omega⟩)).2 ⟨h1, h3, h2, h4⟩).1
  · rw [hb, revealByte_data (cnt_le_nine s0 d.1 d.2)]
    have h9 := cnt_le_nine s0 d.1 d.2
    omega

/-- A newly visited cell satisfies the changed-cell facts of `ChangedOK`. -/
theorem PassInv.newly_changed {s0 s : GameState} {x0 y0 : Int}
    (hWF : WFGrid s0) (h : PassInv s0 x0 y0 s) {c : Coord}
    (hc : c ∈ newlyVisited s0 s) :
    IsValidPosition s0 c.1 c.2 ∧ InRegion s0 x0 y0 c.1 c.2 ∧
    s0.grid (cellIndex c.1 c.2) &&& 64 = 0 ∧
    s0.grid (cellIndex c.1 c.2) &&& 31 ≠ 14 ∧
    s0.grid (cellIndex c.1 c.2) &&& 128 = 0 ∧
    s.grid (cellIndex c.1 c.2) = 64 ||| countAdjacentMines s0 c.1 c.2 := by
  rw [newlyVisited, Finset.mem_filter] at hc
  obtain ⟨hcp, hv1, hv0⟩ := hc
  rw [mem_playFinset] at hcp
  rcases h.changed (cellIndex c.1 c.2) with hu | ⟨d, hd, hidx, hr, hf⟩
  · exfalso
    unfold visitedB cellData at hv1 hv0
    rw [hu] at hv1
    rw [hv1] at hv0
    simp at hv0
  · have hcd : c = d :=
      cellIndex_inj_box hWF.2.1 (playable_inBox hcp) (playable_inBox hd) hidx
    subst hcd
    exact ⟨hcp, hr, hf⟩

theorem settled_mono {s0 s t : GameState} (h : RevealLike s t) {c : Coord}
    (hc : settled s0 s c) : settled s0 t c := by
  rcases hc with hv | hnp | hf
  · left
    unfold visitedB cellData at *
    have hb : s.grid (cellIndex c.1 c.2) &&& 64 ≠ 0 := by
      simpa using hv
    rw [h.2.1 _ hb]
    exact hv
  · right; left; exact hnp
  · right; right
    unfold getCellType cellData at *
    rw [(h.2.2 (cellIndex c.1 c.2)).2 hf]

theorem mem_newlyVisited_visited {s0 s : GameState} {c : Coord}
    (h : c ∈ newlyVisited s0 s) : visitedB s c.1 c.2 = true := by
  rw [newlyVisited, Finset.mem_filter] at h
  exact h.2.1

theorem mem_newZero_newlyVisited {s0 s : GameState} {c : Coord}
    (h : c ∈ newZero s0 s) : c ∈ newlyVisited s0 s := by
  rw [newZero, Finset.mem_filter] at h
  exact h.1

theorem not_mem_newlyVisited {s0 s : GameState} {c : Coord}
    (h : visitedB s c.1 c.2 = false) : c ∉ newlyVisited s0 s := by
  intro hmem
  rw [mem_newlyVisited_visited hmem] at h
  simp at h

/-- Writing a visited byte into one playable cell inserts exactly that cell
into the newly-visited set. -/
theorem newlyVisited_update {s0 s t : GameState} (hw : s0.gridWidth ≤ 30)
    {cx cy : Int} {v : Nat} (hplay : IsValidPosition s0 cx cy)
    (hg : t.grid = Function.update s.grid (cellIndex cx cy) v)
    (hvbit : v &&& 64 ≠ 0)
    (hvs : visitedB s cx cy = false) (hv0 : visitedB s0 cx cy = false) :
    newlyVisited s0 t = insert (cx, cy) (newlyVisited s0 s) := by
  ext d
  rw [Finset.mem_insert, newlyVisited, newlyVisited, Finset.mem_filter,
    Finset.mem_filter]
  rcases eq_or_ne d (cx, cy) with rfl | hne
  · constructor
    · intro _; left; rfl
    · intro _
      refine ⟨mem_playFinset.mpr hplay, ?_, hv0⟩
      unfold visitedB cellData
      rw [hg, Function.update_same]
      simpa using hvbit
  · constructor
    · intro ⟨hdp, hdv, hdv0⟩
      right
      refine ⟨hdp, ?_, hdv0⟩
      unfold visitedB cellData at hdv ⊢
      rw [hg, Function.update_noteq ?_] at hdv
      · exact hdv
      · intro hidx
        exact hne (cellIndex_inj_box hw
          (playable_inBox (mem_playFinset.mp hdp))
          (playable_inBox hplay) hidx)
    · intro hmem
      rcases hmem with hdc | ⟨hdp, hdv, hdv0⟩
      · exact absurd hdc hne
      · refine ⟨hdp, ?_, hdv0⟩
        unfold visitedB cellData at hdv ⊢
        rw [hg, Function.update_noteq ?_]
        · exact hdv
        · intro hidx
          exact hne (cellIndex_inj_box hw
            (playable_inBox (mem_playFinset.mp hdp))
            (playable_inBox hplay) hidx)

/-- Extending the pass invariant over a reveal write with a nonzero count
(no enqueue).  The post-state `t` is abstract, pinned down by component
equations, so the lemma applies directly to the record produced by
`reveal_write`. -/
theorem passInv_extend {s0 : GameState} {x0 y0 : Int} (hWF : WFGrid s0)
    {s t : GameState} (hP : PassInv s0 x0 y0 s) {cx cy : Int}
    (hplay : IsValidPosition s0 cx cy)
    (hreg' : InRegion s0 x0 y0 cx cy)
    (hnv : s.grid (cellIndex cx cy) &&& 64 = 0)
    (h14 : s.grid (cellIndex cx cy) &&& 31 ≠ 14)
    (hm0 : s0.grid (cellIndex cx cy) &&& 128 = 0)
    (hbyte : s.grid (cellIndex cx cy) = s0.grid (cellIndex cx cy))
    (hz : countAdjacentMines s cx cy ≠ 0)
    (hshell : SameShell s t)
    (htg : t.grid = Function.update s.grid (cellIndex cx cy)
      (64 ||| countAdjacentMines s cx cy))
    (htr : t.revealedCells = s.revealedCells + 1)
    (htqx : t.queueX = s.queueX) (htqy : t.queueY = s.queueY)
    (htqs : t.queueSize = s.queueSize) :
    PassInv s0 x0 y0 t := by
  have hcnt := hP.cnt_eq cx cy
  have hvs : visitedB s cx cy = false := by
    unfold visitedB cellData; simp [hnv]
  have hv0 : visitedB s0 cx cy = false := by
    unfold visitedB cellData; rw [← hbyte]; simp [hnv]
  have hnotmem := @not_mem_newlyVisited s0 s (cx, cy) hvs
  have hNew : newlyVisited s0 t = insert (cx, cy) (newlyVisited s0 s) := by
    apply newlyVisited_update hWF.2.1 hplay htg ?_ hvs hv0
    rw [revealByte_vis (cnt_le_nine s cx cy)]; simp
  have hz0 : countAdjacentMines s0 cx cy ≠ 0 := by rw [← hcnt]; exact hz
  have hNewZ : newZero s0 t = newZero s0 s := by
    rw [newZero, hNew, Finset.filter_insert, if_neg hz0, newZero]
  refine ⟨sameShell_trans hP.shell hshell, ?_, ?_, ?_, ?_, ?_, ?_⟩
  · intro i
    rcases eq_or_ne i (cellIndex cx cy) with rfl | hne
    · right
      refine ⟨(cx, cy), hplay, rfl, hreg', by rw [← hbyte]; exact hnv,
        by rw [← hbyte]; exact h14, hm0, ?_⟩
      rw [htg, Function.update_same, hcnt]
    · rcases hP.changed i with hu | ⟨d, hd1, hd2, hd3, hd4, hd5, hd6, hd7⟩
      · left; rw [htg, Function.update_noteq hne, hu]
      · exact Or.inr ⟨d, hd1, hd2, hd3, hd4, hd5, hd6,
          by rw [htg, Function.update_noteq hne, hd7]⟩
  · rw [htr, hNew, Finset.card_insert_of_not_mem hnotmem, hP.revCount]
    push_cast
    ring
  · rw [htqs, hNewZ, hP.qsEq]
  · intro j hj1 hj2
    rw [htqx, htqy, hNewZ]
    rw [htqs] at hj2
    exact hP.queueMem j hj1 hj2
  · intro j k hj1 hj2 hk1 hk2 hxe hye
    rw [htqs] at hj2 hk2
    rw [htqx] at hxe
    rw [htqy] at hye
    exact hP.queueInj j k hj1 hj2 hk1 hk2 hxe hye
  · intro d hd
    rw [hNewZ] at hd
    obtain ⟨j, h1, h2, h3, h4⟩ := hP.queueSurj d hd
    exact ⟨j, h1, by rw [htqs]; exact h2, by rw [htqx]; exact h3,
      by rw [htqy]; exact h4⟩

/-- Extending the pass invariant over a reveal write with a zero count
(mark visited, then enqueue at the tail slot). -/
theorem passInv_extend_zero {s0 : GameState} {x0 y0 : Int} (hWF : WFGrid s0)
    {s t : GameState} (hP : PassInv s0 x0 y0 s) {cx cy : Int}
    (hplay : IsValidPosition s0 cx cy)
    (hreg' : InRegion s0 x0 y0 cx cy)
    (hnv : s.grid (cellIndex cx cy) &&& 64 = 0)
    (h14 : s.grid (cellIndex cx cy) &&& 31 ≠ 14)
    (hm0 : s0.grid (cellIndex cx cy) &&& 128 = 0)
    (hbyte : s.grid (cellIndex cx cy) = s0.grid (cellIndex cx cy))
    (hz : countAdjacentMines s cx cy = 0)
    (hshell : SameShell s t)
    (htg : t.grid = Function.update s.grid (cellIndex cx cy)
      (64 ||| countAdjacentMines s cx cy))
    (htr : t.revealedCells = s.revealedCells + 1)
    (htqx : t.queueX = Function.update s.queueX s.queueSize cx)
    (htqy : t.queueY = Function.update s.queueY s.queueSize cy)
    (htqs : t.queueSize = s.queueSize + 1) :
    PassInv s0 x0 y0 t := by
  have hcnt := hP.cnt_eq cx cy
  have hvs : visitedB s cx cy = false := by
    unfold visitedB cellData; simp [hnv]
  have hv0 : visitedB s0 cx cy = false := by
    unfold visitedB cellData; rw [← hbyte]; simp [hnv]
  have hnotmem := @not_mem_newlyVisited s0 s (cx, cy) hvs
  have hNew : newlyVisited s0 t = insert (cx, cy) (newlyVisited s0 s) := by
    apply newlyVisited_update hWF.2.1 hplay htg ?_ hvs hv0
    rw [revealByte_vis (cnt_le_nine s cx cy)]; simp
  have hz0 : countAdjacentMines s0 cx cy = 0 := by rw [← hcnt]; exact hz
  have hNewZ : newZero s0 t = insert (cx, cy) (newZero s0 s) := by
    rw [newZero, hNew, Finset.filter_insert, if_pos hz0, newZero]
  have hnotmemZ : (cx, cy) ∉ newZero s0 s := fun hmem =>
    hnotmem (mem_newZero_newlyVisited hmem)
  refine ⟨sameShell_trans hP.shell hshell, ?_, ?_, ?_, ?_, ?_, ?_⟩
  · intro i
    rcases eq_or_ne i (cellIndex cx cy) with rfl | hne
    · right
      refine ⟨(cx, cy), hplay, rfl, hreg', by rw [← hbyte]; exact hnv,
        by rw [← hbyte]; exact h14, hm0, ?_⟩
      rw [htg, Function.update_same, hcnt]
    · rcases hP.changed i with hu | ⟨d, hd1, hd2, hd3, hd4, hd5, hd6, hd7⟩
      · left; rw [htg, Function.update_noteq hne, hu]
      · exact Or.inr ⟨d, hd1, hd2, hd3, hd4, hd5, hd6,
          by rw [htg, Function.update_noteq hne, hd7]⟩
  · rw [htr, hNew, Finset.card_insert_of_not_mem hnotmem, hP.revCount]
    push_cast
    ring
  · rw [htqs, hNewZ, Finset.card_insert_of_not_mem hnotmemZ, hP.qsEq]
    omega
  · intro j hj1 hj2
    rw [htqx, htqy, hNewZ]
    rw [htqs] at hj2
    rcases eq_or_ne j s.queueSize with rfl | hne
    · rw [Function.update_same, Function.update_same]
      exact Finset.mem_insert_self _ _
    · rw [Function.update_noteq hne, Function.update_noteq hne]
      exact Finset.mem_insert_of_mem (hP.queueMem j hj1 (by omega))
  · intro j k hj1 hj2 hk1 hk2 hxe hye
    rw [htqs] at hj2 hk2
    rw [htqx] at hxe
    rw [htqy] at hye
    rcases eq_or_ne j s.queueSize with rfl | hnej
    · rcases eq_or_ne k s.queueSize with rfl | hnek
      · rfl
      · exfalso
        rw [Function.update_same, Function.update_noteq hnek] at hxe
        rw [Function.update_same, Function.update_noteq hnek] at hye
        have hkm := hP.queueMem k hk1 (by omega)
        have hkv := mem_newlyVisited_visited (mem_newZero_newlyVisited hkm)
        rw [← hxe, ← hye] at hkv
        rw [hvs] at hkv
        simp at hkv
    · rcases eq_or_ne k s.queueSize with rfl | hnek
      · exfalso
        rw [Function.update_noteq hnej, Function.update_same] at hxe
        rw [Function.update_noteq hnej, Function.update_same] at hye
        have hjm := hP.queueMem j hj1 (by omega)
        have hjv := mem_newlyVisited_visited (mem_newZero_newlyVisited hjm)
        rw [hxe, hye] at hjv
        rw [hvs] at hjv
        simp at hjv
      · rw [Function.update_noteq hnej] at hxe
        rw [Function.update_noteq hnej] at hye
        rw [Function.update_noteq hnek] at hxe
        rw [Function.update_noteq hnek] at hye
        exact hP.queueInj j k hj1 (by omega) hk1 (by omega) hxe hye
  · intro d hd
    rw [hNewZ, Finset.mem_insert] at hd
    rcases hd with rfl | hd
    · refine ⟨s.queueSize, by rw [hP.qsEq]; omega, by rw [htqs]; omega, ?_, ?_⟩
      · rw [htqx, Function.update_same]
      · rw [htqy, Function.update_same]
    · obtain ⟨j, h1, h2, h3, h4⟩ := hP.queueSurj d hd
      refine ⟨j, h1, by rw [htqs]; omega, ?_, ?_⟩
      · rw [htqx, Function.update_noteq (by omega)]; exact h3
      · rw [htqy, Function.update_noteq (by omega)]; exact h4

/-- The single-call step of the flood-pass invariant: revealing any cell of
the padded box that is in the region (when playable) preserves the
invariant, extends the queue monotonically and settles the cell. -/
theorem reveal_step {s0 : GameState} {x0 y0 : Int} (hWF : WFGrid s0)
    {s : GameState} (hP : PassInv s0 x0 y0 s) {cx cy : Int}
    (hbox : inBox s0 (cx, cy))
    (hreg : IsValidPosition s0 cx cy → InRegion s0 x0 y0 cx cy)
    (hmine : IsValidPosition s0 cx cy →
      s0.grid (cellIndex cx cy) &&& 128 = 0 ∨
      s0.grid (cellIndex cx cy) &&& 31 = 14) :
    PassInv s0 x0 y0 (revealCellRecursive s cx cy) ∧
    s.queueSize ≤ (revealCellRecursive s cx cy).queueSize ∧
    (∀ j : Nat, j < s.queueSize →
      (revealCellRecursive s cx cy).queueX j = s.queueX j ∧
      (revealCellRecursive s cx cy).queueY j = s.queueY j) ∧
    settled s0 (revealCellRecursive s cx cy) (cx, cy) := by
  by_cases hns : skipCell s cx cy
  · rw [reveal_skip hns]
    refine ⟨hP, le_refl _, fun j _ => ⟨rfl, rfl⟩, ?_⟩
    rcases hns with hv | h16 | h14
    · left
      unfold visitedB cellData
      simpa using hv
    · right; left
      intro hp
      exact hP.playable_ne16 hWF (c := (cx, cy)) hp h16
    · right; right
      unfold getCellType cellData
      exact h14
  · have hskip := hns
    unfold skipCell at hskip
    push_neg at hskip
    obtain ⟨hnv, h16, h14⟩ := hskip
    have hplay : IsValidPosition s0 cx cy := by
      by_contra hnp
      apply h16
      rw [hP.ring_sixteen hWF (c := (cx, cy)) hbox hnp]
      decide
    have hreg' := hreg hplay
    have hbyte : s.grid (cellIndex cx cy) = s0.grid (cellIndex cx cy) := by
      rcases hP.changed (cellIndex cx cy) with hu | ⟨d, _, _, _, _, _, _, hb⟩
      · exact hu
      · exfalso
        rw [hb, revealByte_vis (cnt_le_nine s0 d.1 d.2)] at hnv
        simp at hnv
    have hm0 : s0.grid (cellIndex cx cy) &&& 128 = 0 := by
      rcases hmine hplay with h | h
      · exact h
      · exfalso
        rw [← hbyte] at h
        exact h14 h
    have hZle : (newZero s0 s).card ≤ 720 := by
      calc (newZero s0 s).card ≤ (newlyVisited s0 s).card :=
            Finset.card_filter_le _ _
      _ ≤ (playFinset s0).card := Finset.card_filter_le _ _
      _ ≤ 720 := playFinset_card_le s0 hWF.2.1 hWF.2.2.2.1
    by_cases hz : countAdjacentMines s cx cy = 0
    · rw [reveal_write_zero hns hz]
      have hq : (if s.queueSize + 1 = iStepMax then 0 else s.queueSize + 1)
          = s.queueSize + 1 := by
        rw [if_neg]
        rw [hP.qsEq]
        unfold iStepMax cBlkMax
        omega
      refine ⟨passInv_extend_zero hWF hP hplay hreg' hnv h14 hm0 hbyte hz
        ⟨rfl, rfl, rfl, rfl, rfl, rfl, rfl, rfl, rfl, rfl, rfl, rfl, rfl, rfl⟩
        rfl rfl rfl rfl hq, ?_, ?_, ?_⟩
      · show s.queueSize ≤ if s.queueSize + 1 = iStepMax then 0
          else s.queueSize + 1
        rw [hq]
        omega
      · intro j hj
        exact ⟨Function.update_noteq (by omega) _ _,
          Function.update_noteq (by omega) _ _⟩
      · left
        show (Function.update s.grid (cellIndex cx cy)
          (64 ||| countAdjacentMines s cx cy) (cellIndex cx cy) &&& 64 != 0)
          = true
        rw [Function.update_same, revealByte_vis (cnt_le_nine s cx cy)]
        simp
    · rw [reveal_write hns hz]
      refine ⟨passInv_extend hWF hP hplay hreg' hnv h14 hm0 hbyte hz
        ⟨rfl, rfl, rfl, rfl, rfl, rfl, rfl, rfl, rfl, rfl, rfl, rfl, rfl, rfl⟩
        rfl rfl rfl rfl rfl, le_refl _, fun j _ => ⟨rfl, rfl⟩, ?_⟩
      left
      show (Function.update s.grid (cellIndex cx cy)
        (64 ||| countAdjacentMines s cx cy) (cellIndex cx cy) &&& 64 != 0)
        = true
      rw [Function.update_same, revealByte_vis (cnt_le_nine s cx cy)]
      simp

theorem newZero_card_le (s0 s : GameState) :
    (newZero s0 s).card ≤ (playFinset s0).card :=
  le_trans (Finset.card_filter_le _ _) (Finset.card_filter_le _ _)

theorem revealNeighbors_eq_fold (s : GameState) (x y : Int) :
    revealNeighbors s x y =
      (neighborsOf x y).foldl (fun st c => revealCellRecursive st c.1 c.2) s := rfl

theorem reveal_fold_revealLike (l : List Coord) :
    ∀ s : GameState,
      RevealLike s (l.foldl (fun st c => revealCellRecursive st c.1 c.2) s) := by
  induction l with
  | nil => intro s; exact revealLike_refl s
  | cons c l ih =>
      intro s
      exact revealLike_trans (reveal_revealLike s c.1 c.2) (ih _)

/-- Folding `RevealCellRecursive` over a list of box cells that are in the
region (whenever playable): the pass invariant is preserved, the queue only
grows at the tail, and every listed cell ends settled. -/
theorem reveal_fold {s0 : GameState} {x0 y0 : Int} (hWF : WFGrid s0)
    (l : List Coord) :
    ∀ s : GameState, PassInv s0 x0 y0 s →
    (∀ c ∈ l, inBox s0 c ∧
      (IsValidPosition s0 c.1 c.2 → InRegion s0 x0 y0 c.1 c.2) ∧
      (IsValidPosition s0 c.1 c.2 →
        s0.grid (cellIndex c.1 c.2) &&& 128 = 0 ∨
        s0.grid (cellIndex c.1 c.2) &&& 31 = 14)) →
    PassInv s0 x0 y0 (l.foldl (fun st c => revealCellRecursive st c.1 c.2) s) ∧
    s.queueSize ≤
      (l.foldl (fun st c => revealCellRecursive st c.1 c.2) s).queueSize ∧
    (∀ j : Nat, j < s.queueSize →
      (l.foldl (fun st c => revealCellRecursive st c.1 c.2) s).queueX j
        = s.queueX j ∧
      (l.foldl (fun st c => revealCellRecursive st c.1 c.2) s).queueY j
        = s.queueY j) ∧
    (∀ c ∈ l, settled s0
      (l.foldl (fun st c => revealCellRecursive st c.1 c.2) s) c) := by
  induction l with
  | nil =>
      intro s hP _
      exact ⟨hP, le_refl _, fun j _ => ⟨rfl, rfl⟩, fun c hc => absurd hc
        (List.not_mem_nil c)⟩
  | cons c l ih =>
      intro s hP hl
      obtain ⟨hcbox, hcreg, hcmine⟩ := hl c (List.mem_cons_self c l)
      have hbox' : inBox s0 (c.1, c.2) := hcbox
      obtain ⟨hP1, hq1, hpre1, hset1⟩ :=
        reveal_step hWF hP hbox' hcreg hcmine
      obtain ⟨hP2, hq2, hpre2, hset2⟩ := ih (revealCellRecursive s c.1 c.2) hP1
        (fun d hd => hl d (List.mem_cons_of_mem c hd))
      rw [List.foldl_cons]
      refine ⟨hP2, le_trans hq1 hq2, ?_, ?_⟩
      · intro j hj
        obtain ⟨ha, hb⟩ := hpre2 j (lt_of_lt_of_le hj hq1)
        obtain ⟨hc1, hc2⟩ := hpre1 j hj
        exact ⟨by rw [ha, hc1], by rw [hb, hc2]⟩
      · intro d hd
        rcases List.mem_cons.mp hd with rfl | hd'
        · exact settled_mono (reveal_fold_revealLike l _) hset1
        · exact hset2 d hd'

/-- The loop-level invariant of `floodLoop`: the pass invariant, the cursor
bounds, and the fact that all already-dequeued entries have had their 8
neighbors settled. -/
structure LoopInv (s0 : GameState) (x0 y0 : Int) (s : GameState) (i : Nat) :
    Prop where
  pass : PassInv s0 x0 y0 s
  i1 : 1 ≤ i
  iLe : i ≤ s.queueSize
  processed : ∀ j : Nat, 1 ≤ j → j < i →
    ∀ c ∈ neighborsOf (s.queueX j) (s.queueY j), settled s0 s c

/-- Running `floodLoop` to completion from any loop state: the pass
invariant holds at the end and every enqueued cell has all its neighbors
settled.  The fuel hypothesis is discharged with `iStepMax` = 1600, since
the cursor can never need more than `1 + width·height ≤ 721` steps. -/
theorem floodLoop_spec {s0 : GameState} {x0 y0 : Int} (hWF : WFGrid s0) :
    ∀ (fuel : Nat) (s : GameState) (i : Nat), LoopInv s0 x0 y0 s i →
    1 + (playFinset s0).card < i + fuel →
    PassInv s0 x0 y0 (floodLoop fuel s i) ∧
    (∀ c ∈ newZero s0 (floodLoop fuel s i), ∀ d ∈ neighborsOf c.1 c.2,
      settled s0 (floodLoop fuel s i) d) := by
  intro fuel
  induction fuel with
  | zero =>
      intro s i hL hfuel
      exfalso
      have h1 := hL.iLe
      have h2 := hL.pass.qsEq
      have h3 := newZero_card_le s0 s
      omega
  | succ fuel ih =>
      intro s i hL hfuel
      show PassInv s0 x0 y0 (floodLoop (fuel + 1) s i) ∧ _
      unfold floodLoop
      by_cases hqs : i = s.queueSize
      · rw [if_pos hqs]
        refine ⟨hL.pass, ?_⟩
        intro c hc d hd
        obtain ⟨j, hj1, hj2, hj3, hj4⟩ := hL.pass.queueSurj c hc
        have hproc := hL.processed j hj1 (by omega)
        rw [hj3, hj4] at hproc
        exact hproc d hd
      · rw [if_neg hqs]
        have hilt : i < s.queueSize := lt_of_le_of_ne hL.iLe hqs
        have hment : (s.queueX i, s.queueY i) ∈ newZero s0 s :=
          hL.pass.queueMem i hL.i1 hilt
        have hmentNV := mem_newZero_newlyVisited hment
        obtain ⟨hplay, hreg, _, _, _, _⟩ :=
          hL.pass.newly_changed hWF hmentNV
        have hz0 : countAdjacentMines s0 (s.queueX i) (s.queueY i) = 0 := by
          have := (Finset.mem_filter.mp hment).2
          exact this
        have hcond : ∀ c ∈ neighborsOf (s.queueX i) (s.queueY i),
            inBox s0 c ∧
            (IsValidPosition s0 c.1 c.2 → InRegion s0 x0 y0 c.1 c.2) ∧
            (IsValidPosition s0 c.1 c.2 →
              s0.grid (cellIndex c.1 c.2) &&& 128 = 0 ∨
              s0.grid (cellIndex c.1 c.2) &&& 31 = 14) := by
          intro c hc
          refine ⟨box3_inBox hplay (neighborsOf_sub_box3 hc), ?_, ?_⟩
          · intro hcp
            exact InRegion.step hreg hplay hz0 hc hcp
          · intro _
            left
            have := countP_box3_zero (s := s0) hz0 (neighborsOf_sub_box3 hc)
            unfold hasMineB cellData at this
            simpa using this
        obtain ⟨hP', hq', hpre', hset'⟩ :=
          reveal_fold hWF (neighborsOf (s.queueX i) (s.queueY i)) s hL.pass hcond
        rw [← revealNeighbors_eq_fold] at hP' hq' hpre' hset'
        have hZ720 : (newZero s0 s).card ≤ 720 :=
          le_trans (newZero_card_le s0 s)
            (playFinset_card_le s0 hWF.2.1 hWF.2.2.2.1)
        have hwrap : ¬ (i + 1 = iStepMax) := by
          have := hL.pass.qsEq
          unfold iStepMax cBlkMax
          omega
        rw [if_neg hwrap]
        apply ih (revealNeighbors s (s.queueX i) (s.queueY i)) (i + 1)
        · refine ⟨hP', by omega, by omega, ?_⟩
          intro j hj1 hj2 c hc
          have hjlt : j < s.queueSize := by omega
          obtain ⟨hxj, hyj⟩ := hpre' j hjlt
          rw [hxj, hyj] at hc
          rcases Nat.lt_or_ge j i with hji | hji
          · exact settled_mono (revealNeighbors_revealLike s _ _)
              (hL.processed j hj1 hji c hc)
          · have hj_eq : j = i := by omega
            subst hj_eq
            exact hset' c hc
        · have hcard := playFinset_card_le s0 hWF.2.1 hWF.2.2.2.1
          omega

theorem newlyVisited_same_grid {s0 t : GameState} (h : t.grid = s0.grid) :
    newlyVisited s0 t = ∅ := by
  ext c
  rw [newlyVisited, Finset.mem_filter]
  unfold visitedB cellData
  rw [h]
  simp

/-- The master flood-pass theorem: from a well-formed state, for any seed
in the padded box that is not an unflagged mine, `FloodFillReveal`
satisfies the pass invariant, settles the seed, and settles every neighbor
of every newly revealed zero-adjacency cell. -/
theorem floodFill_pass {s0 : GameState} {x0 y0 : Int} (hWF : WFGrid s0)
    (hbox : inBox s0 (x0, y0))
    (hmine : IsValidPosition s0 x0 y0 →
      s0.grid (cellIndex x0 y0) &&& 128 = 0 ∨
      s0.grid (cellIndex x0 y0) &&& 31 = 14) :
    PassInv s0 x0 y0 (floodFillReveal s0 x0 y0) ∧
    (∀ c ∈ newZero s0 (floodFillReveal s0 x0 y0), ∀ d ∈ neighborsOf c.1 c.2,
      settled s0 (floodFillReveal s0 x0 y0) d) ∧
    settled s0 (floodFillReveal s0 x0 y0) (x0, y0) := by
  have hnv0 : newlyVisited s0 ({ s0 with queueSize := 1 } : GameState) = ∅ :=
    newlyVisited_same_grid rfl
  have hP0 : PassInv s0 x0 y0 { s0 with queueSize := 1 } := by
    refine ⟨⟨rfl, rfl, rfl, rfl, rfl, rfl, rfl, rfl, rfl, rfl, rfl, rfl, rfl,
      rfl⟩, fun i => Or.inl rfl, ?_, ?_, ?_, ?_, ?_⟩
    · rw [hnv0]
      simp
    · rw [newZero, hnv0]
      simp
    · intro j hj1 hj2
      simp at hj2
      omega
    · intro j k hj1 hj2 hk1 hk2
      simp at hj2
      omega
    · intro c hc
      rw [newZero, hnv0] at hc
      simp at hc
  obtain ⟨hP1, hq1, hpre1, hset1⟩ :=
    reveal_step hWF hP0 hbox
      (fun _ => InRegion.seed) hmine
  have hL1 : LoopInv s0 x0 y0
      (revealCellRecursive { s0 with queueSize := 1 } x0 y0) 1 := by
    refine ⟨hP1, le_refl 1, ?_, ?_⟩
    · rw [hP1.qsEq]
      omega
    · intro j hj1 hj2
      omega
  have hcard := playFinset_card_le s0 hWF.2.1 hWF.2.2.2.1
  have hfuel : 1 + (playFinset s0).card < 1 + iStepMax := by
    unfold iStepMax cBlkMax
    omega
  obtain ⟨hPf, hsetf⟩ := floodLoop_spec hWF iStepMax
    (revealCellRecursive { s0 with queueSize := 1 } x0 y0) 1 hL1 hfuel
  refine ⟨hPf, hsetf, ?_⟩
  exact settled_mono (floodLoop_revealLike iStepMax _ 1) hset1

theorem playFinset_card_eq (s0 : GameState) (hw : 0 ≤ s0.gridWidth)
    (hh : 0 ≤ s0.gridHeight) :
    ((playFinset s0).card : Int) = s0.gridWidth * s0.gridHeight := by
  unfold playFinset
  rw [Finset.card_product, Int.card_Icc, Int.card_Icc]
  push_cast
  rw [Int.toNat_of_nonneg (by omega), Int.toNat_of_nonneg (by omega)]
  ring

theorem center_mem_box3 (x y : Int) : ((x, y) : Coord) ∈ box3 x y := by
  simp [box3]

/-- **C1** (amended): from a well-formed grid, flood-filling a playable
zero-adjacency seed whose connected region (zero cells, their playable
numbered border included) is entirely unvisited and unflagged marks visited
exactly that region on top of the previously visited cells, increments
`revealedCells` by exactly the number of newly visited cells, and the newly
revealed set has size at most `width · height`. -/
theorem floodFillReveal_region_exact (s0 : GameState) (x0 y0 : Int)
    (hWF : WFGrid s0)
    (hseed : IsValidPosition s0 x0 y0)
    (hzero : countAdjacentMines s0 x0 y0 = 0)
    (hfresh : ∀ c d : Int, InRegion s0 x0 y0 c d →
      visitedB s0 c d = false ∧ getCellType s0 c d ≠ 14) :
    (∀ c d : Int, IsValidPosition s0 c d →
      (visitedB (floodFillReveal s0 x0 y0) c d = true ↔
        (InRegion s0 x0 y0 c d ∨ visitedB s0 c d = true))) ∧
    (floodFillReveal s0 x0 y0).revealedCells =
      s0.revealedCells + (newlyVisited s0 (floodFillReveal s0 x0 y0)).card ∧
    ((newlyVisited s0 (floodFillReveal s0 x0 y0)).card : Int) ≤
      s0.gridWidth * s0.gridHeight := by
  have hmg : IsValidPosition s0 x0 y0 →
      s0.grid (cellIndex x0 y0) &&& 128 = 0 ∨
      s0.grid (cellIndex x0 y0) &&& 31 = 14 := by
    intro _
    left
    have := countP_box3_zero (s := s0) hzero (center_mem_box3 x0 y0)
    unfold hasMineB cellData at this
    simpa using this
  obtain ⟨hPf, hZset, hseedset⟩ :=
    floodFill_pass hWF (playable_inBox hseed) hmg
  have hflag := hPf.flag_iff
  have hcompl : ∀ c d : Int, InRegion s0 x0 y0 c d →
      visitedB (floodFillReveal s0 x0 y0) c d = true := by
    intro c d hr
    induction hr with
    | seed =>
        rcases hseedset with hv | hnp | hf
        · exact hv
        · exact absurd hseed hnp
        · exfalso
          unfold getCellType cellData at hf
          have := (hflag (cellIndex x0 y0)).mp hf
          exact (hfresh x0 y0 InRegion.seed).2 (by
            unfold getCellType cellData
            exact this)
    | @step a b c2 d2 hab hpab hzab hmem hpcd ihab =>
        have hv0ab : visitedB s0 a b = false := (hfresh a b hab).1
        have habNV : (a, b) ∈ newlyVisited s0 (floodFillReveal s0 x0 y0) := by
          rw [newlyVisited, Finset.mem_filter]
          exact ⟨mem_playFinset.mpr hpab, ihab, hv0ab⟩
        have habZ : (a, b) ∈ newZero s0 (floodFillReveal s0 x0 y0) := by
          rw [newZero, Finset.mem_filter]
          exact ⟨habNV, hzab⟩
        have hset := hZset (a, b) habZ (c2, d2) hmem
        rcases hset with hv | hnp | hf
        · exact hv
        · exact absurd hpcd hnp
        · exfalso
          unfold getCellType cellData at hf
          have := (hflag (cellIndex c2 d2)).mp hf
          refine (hfresh c2 d2 ?_).2 (by
            unfold getCellType cellData
            exact this)
          exact InRegion.step hab hpab hzab hmem hpcd
  refine ⟨?_, hPf.revCount, ?_⟩
  · intro c d hcd
    constructor
    · intro hv
      rcases hPf.changed (cellIndex c d) with hu | ⟨e, he1, he2, he3, he4, _⟩
      · right
        unfold visitedB cellData at hv ⊢
        rw [← hu]
        exact hv
      · left
        have : ((c, d) : Coord) = e :=
          cellIndex_inj_box hWF.2.1
            (playable_inBox (c := (c, d)) hcd) (playable_inBox he1) he2
        rw [show c = e.1 from congrArg Prod.fst this,
          show d = e.2 from congrArg Prod.snd this]
        exact he3
    · intro hv
      rcases hv with hr | hv0
      · exact hcompl c d hr
      · unfold visitedB cellData at hv0 ⊢
        have hbit : s0.grid (cellIndex c d) &&& 64 ≠ 0 := by
          simpa using hv0
        rw [hPf.visited_of_s0 (cellIndex c d) hbit]
        exact hv0
  · calc ((newlyVisited s0 (floodFillReveal s0 x0 y0)).card : Int)
        ≤ ((playFinset s0).card : Int) := by
          exact_mod_cast Finset.card_filter_le _ _
    _ = s0.gridWidth * s0.gridHeight :=
        playFinset_card_eq s0 (by have := hWF.1; omega)
          (by have := hWF.2.2.1; omega)

/-- A second `RevealCellRecursive` on the same cell is always a no-op: a
revealed cell carries the visited bit, and a skipped cell is skipped
again. -/
theorem reveal_idem (s : GameState) (x y : Int) :
    revealCellRecursive (revealCellRecursive s x y) x y
      = revealCellRecursive s x y := by
  by_cases h : skipCell s x y
  · rw [reveal_skip h, reveal_skip h]
  · apply reveal_skip
    left
    have hbyte : (revealCellRecursive s x y).grid (cellIndex x y)
        = 64 ||| countAdjacentMines s x y := by
      by_cases hz : countAdjacentMines s x y = 0
      · rw [reveal_write_zero h hz]
        exact Function.update_same _ _ _
      · rw [reveal_write h hz]
        exact Function.update_same _ _ _
    rw [hbyte, revealByte_vis (cnt_le_nine s x y)]
    simp

/-- **C2**: during a flood-fill pass from a well-formed state, a coordinate
is enqueued at most once (the final queue slots hold pairwise distinct
coordinates), only cells just marked visited with zero adjacency are ever
enqueued, the final queue size is exactly `1 +` the number of enqueues with
no ring-buffer wraparound (the count is bounded by the number of playable
cells, at most 720, far below the 1600-entry buffer), and revealing the
same cell twice never double-counts `revealedCells` nor double-enqueues
(the second call is the identity). -/
theorem floodFill_queue_once (s0 : GameState) (x0 y0 : Int)
    (hWF : WFGrid s0) (hbox : inBox s0 (x0, y0))
    (hmg : IsValidPosition s0 x0 y0 →
      s0.grid (cellIndex x0 y0) &&& 128 = 0 ∨
      s0.grid (cellIndex x0 y0) &&& 31 = 14) :
    (floodFillReveal s0 x0 y0).queueSize
      = 1 + (newZero s0 (floodFillReveal s0 x0 y0)).card ∧
    (newZero s0 (floodFillReveal s0 x0 y0)).card ≤ (playFinset s0).card ∧
    (playFinset s0).card ≤ 720 ∧
    (∀ j : Nat, 1 ≤ j → j < (floodFillReveal s0 x0 y0).queueSize →
      ((floodFillReveal s0 x0 y0).queueX j,
       (floodFillReveal s0 x0 y0).queueY j)
        ∈ newZero s0 (floodFillReveal s0 x0 y0)) ∧
    (∀ j k : Nat, 1 ≤ j → j < (floodFillReveal s0 x0 y0).queueSize →
      1 ≤ k → k < (floodFillReveal s0 x0 y0).queueSize →
      (floodFillReveal s0 x0 y0).queueX j = (floodFillReveal s0 x0 y0).queueX k →
      (floodFillReveal s0 x0 y0).queueY j = (floodFillReveal s0 x0 y0).queueY k →
      j = k) ∧
    (∀ (s : GameState) (x y : Int),
      revealCellRecursive (revealCellRecursive s x y) x y
        = revealCellRecursive s x y) := by
  obtain ⟨hPf, _, _⟩ := floodFill_pass hWF hbox hmg
  exact ⟨hPf.qsEq, newZero_card_le s0 _,
    playFinset_card_le s0 hWF.2.1 hWF.2.2.2.1,
    hPf.queueMem, hPf.queueInj, reveal_idem⟩

/-! ### Concrete states for witnesses and counterexamples -/

/-- A test grid byte map: a `width × height` playable area with border
sentinels, mines (byte 143 = bomb + hidden), flags (14; 142 when also
mined) and hidden blanks (15) elsewhere. -/
def mkGrid (w h : Int) (mines flags : List Coord) : Int → Nat :=
  fun i =>
    if 0 ≤ i ∧ i < 1600 then
      let x := i % 32
      let y := i / 32
      if x ≤ w + 1 ∧ y ≤ h + 1 then
        if x = 0 ∨ x = w + 1 ∨ y = 0 ∨ y = h + 1 then 16
        else if (x, y) ∈ mines ∧ (x, y) ∈ flags then 142
        else if (x, y) ∈ mines then 143
        else if (x, y) ∈ flags then 14
        else 15
      else 15
    else 15

/-- A default configuration record for test states. -/
def baseConfig : Pref :=
  { Width := 9, Height := 9, Mines := 10, fMark := true, wGameType := 0,
    rgTime := fun _ => 999 }

/-- A fresh test session over a `w × h` grid with the given mines and
flags. -/
def mkState (w h : Int) (mines flags : List Coord) : GameState :=
  { gameConfig := baseConfig, gridWidth := w, gridHeight := h,
    currentButton := 0, totalMines := 10, remainingMines := 10,
    revealedCells := 0, targetRevealed := 71, elapsedSeconds := 0,
    timerActive := false, oldTimerStatus := false,
    cursorX := -1, cursorY := -1, chordMode := false, gameStatus := 1,
    grid := mkGrid w h mines flags,
    queueX := fun _ => 0, queueY := fun _ => 0, queueSize := 0 }

/-- Ten mines walling off a small zero pocket at the top-left corner. -/
def pocketMines : List Coord :=
  [(4,1), (4,2), (4,3), (4,4), (1,4), (2,4), (3,4), (6,6), (7,7), (8,8)]

/-- The C1 witness state: a 9×9 grid, zero pocket at the corner, no
flags. -/
def c1Wit : GameState := mkState 9 9 pocketMines []

/-- The C1 counterexample state: the same grid with a flag on (2,2), a
zero-adjacency cell inside the region of seed (1,1). -/
def c1Cex : GameState := mkState 9 9 pocketMines [(2, 2)]

/-- **C1** (counterexample): the claim as frozen quantifies over every grid
state, but a flag inside the zero region blocks `FloodFillReveal` — on
`c1Cex` the cell (2,2) belongs to the maximal zero region of the playable
zero-adjacency seed (1,1), yet after the flood fill it is still not
visited, so the pass does not mark visited the whole region plus border. -/
theorem floodFill_flag_blocks_region :
    IsValidPosition c1Cex 1 1 ∧ countAdjacentMines c1Cex 1 1 = 0 ∧
    InRegion c1Cex 1 1 2 2 ∧
    visitedB (floodFillReveal c1Cex 1 1) 2 2 = false := by
  refine ⟨by decide, by decide, ?_, by decide⟩
  exact InRegion.step InRegion.seed (by decide) (by decide) (by decide)
    (by decide)

/-- **C1** (witness for the amended theorem), at the concrete state
`c1Wit` with seed (1,1). -/
theorem floodFill_region_exact_witness :
    WFGrid c1Wit ∧ IsValidPosition c1Wit 1 1 ∧
    countAdjacentMines c1Wit 1 1 = 0 ∧
    ((∀ c d : Int, IsValidPosition c1Wit c d →
      (visitedB (floodFillReveal c1Wit 1 1) c d = true ↔
        (InRegion c1Wit 1 1 c d ∨ visitedB c1Wit c d = true))) ∧
    (floodFillReveal c1Wit 1 1).revealedCells =
      c1Wit.revealedCells + (newlyVisited c1Wit (floodFillReveal c1Wit 1 1)).card ∧
    ((newlyVisited c1Wit (floodFillReveal c1Wit 1 1)).card : Int) ≤
      c1Wit.gridWidth * c1Wit.gridHeight) := by
  have hWF : WFGrid c1Wit := by decide
  have hseed : IsValidPosition c1Wit 1 1 := by decide
  have hzero : countAdjacentMines c1Wit 1 1 = 0 := by decide
  have hfr : ∀ c ∈ Finset.Icc (1 : Int) 9, ∀ d ∈ Finset.Icc (1 : Int) 9,
      visitedB c1Wit c d = false ∧ getCellType c1Wit c d ≠ 14 := by decide
  refine ⟨hWF, hseed, hzero,
    floodFillReveal_region_exact c1Wit 1 1 hWF hseed hzero ?_⟩
  intro c d hr
  have hp := hr.playable hseed
  obtain ⟨h1, h2, h3, h4⟩ := hp
  have hw : c1Wit.gridWidth = 9 := rfl
  have hh : c1Wit.gridHeight = 9 := rfl
  exact hfr c (Finset.mem_Icc.mpr (by omega)) d (Finset.mem_Icc.mpr (by omega))

/-- **C2** (witness), at the concrete state `c1Wit` with seed (1,1). -/
theorem floodFill_queue_once_witness :
    WFGrid c1Wit ∧ inBox c1Wit (1, 1) ∧
    ((floodFillReveal c1Wit 1 1).queueSize
      = 1 + (newZero c1Wit (floodFillReveal c1Wit 1 1)).card ∧
    (newZero c1Wit (floodFillReveal c1Wit 1 1)).card ≤ (playFinset c1Wit).card ∧
    (playFinset c1Wit).card ≤ 720 ∧
    (∀ j : Nat, 1 ≤ j → j < (floodFillReveal c1Wit 1 1).queueSize →
      ((floodFillReveal c1Wit 1 1).queueX j,
       (floodFillReveal c1Wit 1 1).queueY j)
        ∈ newZero c1Wit (floodFillReveal c1Wit 1 1)) ∧
    (∀ j k : Nat, 1 ≤ j → j < (floodFillReveal c1Wit 1 1).queueSize →
      1 ≤ k → k < (floodFillReveal c1Wit 1 1).queueSize →
      (floodFillReveal c1Wit 1 1).queueX j = (floodFillReveal c1Wit 1 1).queueX k →
      (floodFillReveal c1Wit 1 1).queueY j = (floodFillReveal c1Wit 1 1).queueY k →
      j = k) ∧
    (∀ (s : GameState) (x y : Int),
      revealCellRecursive (revealCellRecursive s x y) x y
        = revealCellRecursive s x y)) := by
  have hWF : WFGrid c1Wit := by decide
  have hbox : inBox c1Wit (1, 1) := by decide
  exact ⟨hWF, hbox, floodFill_queue_once c1Wit 1 1 hWF hbox
    (fun _ => Or.inl (by decide))⟩

/-! ### Visited-bit and flag-byte preservation across the operations -/

/-- `t` has the same visited bit as `s` at every array index. -/
def VisEq (s t : GameState) : Prop :=
  ∀ i : Int, t.grid i &&& 64 = s.grid i &&& 64

theorem visEq_refl (s : GameState) : VisEq s s := fun _ => rfl

theorem visEq_trans {s t u : GameState} (h1 : VisEq s t) (h2 : VisEq t u) :
    VisEq s u := fun i => (h2 i).trans (h1 i)

theorem small_and64 {blk : Nat} (h : blk < 64) : blk &&& 64 = 0 := by
  have h6 := Nat.and_two_pow blk 6
  norm_num at h6
  rw [h6, Nat.testBit_eq_false_of_lt h]
  rfl

theorem and31_lt (b : Nat) : b &&& 31 < 32 :=
  lt_of_le_of_lt (Nat.and_le_right) (by norm_num)

theorem setCellDataS_grid (s : GameState) (x y : Int) (blk : Nat) :
    (setCellDataS s x y blk).grid =
      Function.update s.grid (cellIndex x y)
        ((s.grid (cellIndex x y) &&& 224) ||| blk) := rfl

theorem setCellDataS_visEq (s : GameState) (x y : Int) {blk : Nat}
    (h : blk &&& 64 = 0) : VisEq s (setCellDataS s x y blk) := by
  intro i
  rw [setCellDataS_grid]
  rcases eq_or_ne i (cellIndex x y) with rfl | hne
  · rw [Function.update_same, setByte_vis, h, Nat.or_zero]
  · rw [Function.update_noteq hne]

theorem pressCellVisual_visEq (s : GameState) (x y : Int) :
    VisEq s (pressCellVisual s x y) := by
  unfold pressCellVisual
  apply setCellDataS_visEq
  apply small_and64
  split
  · norm_num
  · split
    · norm_num
    · exact lt_of_lt_of_le (and31_lt _) (by norm_num)

theorem releaseCellVisual_visEq (s : GameState) (x y : Int) :
    VisEq s (releaseCellVisual s x y) := by
  unfold releaseCellVisual
  apply setCellDataS_visEq
  apply small_and64
  split
  · norm_num
  · split
    · norm_num
    · exact lt_of_lt_of_le (and31_lt _) (by norm_num)

theorem foldl_visEq {α : Type} (f : GameState → α → GameState)
    (hf : ∀ st a, VisEq st (f st a)) (l : List α) :
    ∀ st : GameState, VisEq st (l.foldl f st) := by
  induction l with
  | nil => intro st; exact visEq_refl st
  | cons a l ih => intro st; exact visEq_trans (hf st a) (ih (f st a))

theorem visEq_ite {c : Prop} [Decidable c] {s t u : GameState}
    (h1 : VisEq s t) (h2 : VisEq s u) : VisEq s (if c then t else u) := by
  split
  · exact h1
  · exact h2

theorem updateCursorPosition_visEq (s : GameState) (xn yn : Int) :
    VisEq s (updateCursorPosition s xn yn) := by
  unfold updateCursorPosition
  split
  · exact visEq_refl s
  · dsimp only
    split
    · -- chord mode: a release 3x3 fold then a press 3x3 fold
      apply visEq_ite
      · refine visEq_trans ?_ (foldl_visEq _ ?_ _ _)
        · apply visEq_ite
          · refine visEq_trans (t := { s with cursorX := xn, cursorY := yn })
              (fun i => rfl) (foldl_visEq _ ?_ _ _)
            intro st a
            apply foldl_visEq
            intro st2 b
            apply visEq_ite
            · exact releaseCellVisual_visEq st2 _ _
            · exact visEq_refl st2
          · exact fun i => rfl
        · intro st a
          apply foldl_visEq
          intro st2 b
          apply visEq_ite
          · exact pressCellVisual_visEq st2 _ _
          · exact visEq_refl st2
      · apply visEq_ite
        · refine visEq_trans (t := { s with cursorX := xn, cursorY := yn })
            (fun i => rfl) (foldl_visEq _ ?_ _ _)
          intro st a
          apply foldl_visEq
          intro st2 b
          apply visEq_ite
          · exact releaseCellVisual_visEq st2 _ _
          · exact visEq_refl st2
        · exact fun i => rfl
    · -- single-cell mode
      apply visEq_ite
      · apply visEq_trans (u := pressCellVisual _ _ _) ?_
          (pressCellVisual_visEq _ _ _)
        apply visEq_ite
        · exact visEq_trans (t := { s with cursorX := xn, cursorY := yn })
            (fun i => rfl) (releaseCellVisual_visEq _ _ _)
        · exact fun i => rfl
      · apply visEq_ite
        · exact visEq_trans (t := { s with cursorX := xn, cursorY := yn })
            (fun i => rfl) (releaseCellVisual_visEq _ _ _)
        · exact fun i => rfl

theorem revealAllMines_visEq (s : GameState) {iBlk : Nat}
    (h : iBlk &&& 64 = 0) : VisEq s (revealAllMines s iBlk) := by
  unfold revealAllMines
  apply foldl_visEq
  intro st a
  split
  · exact visEq_refl st
  · split
    · split
      · exact visEq_refl st
      · exact setCellDataS_visEq st _ _ h
    · split
      · exact setCellDataS_visEq st _ _ (by decide)
      · exact visEq_refl st

theorem endGame_grid (s : GameState) (b : Bool) :
    (endGame s b).grid = (revealAllMines
      { s with timerActive := false, currentButton := if b then 3 else 2 }
      (if b then 14 else 10)).grid := by
  unfold endGame
  dsimp only
  generalize revealAllMines
      { s with timerActive := false, currentButton := if b then 3 else 2 }
      (if b then 14 else 10) = s2
  split <;> (first | rfl | (split <;> rfl))

theorem endGame_visEq (s : GameState) (b : Bool) : VisEq s (endGame s b) := by
  intro i
  rw [endGame_grid]
  exact @revealAllMines_visEq
    { s with timerActive := false, currentButton := if b then 3 else 2 }
    (if b then 14 else 10) (by split <;> decide) i

/-- A flagged byte (visual type 14) is completely untouched by a single
reveal call. -/
theorem reveal_flag_frozen {s : GameState} {x y : Int} {i : Int}
    (h : s.grid i &&& 31 = 14) :
    (revealCellRecursive s x y).grid i = s.grid i := by
  by_cases hns : skipCell s x y
  · rw [reveal_skip hns]
  · have hgrid : (revealCellRecursive s x y).grid =
        Function.update s.grid (cellIndex x y)
          (64 ||| countAdjacentMines s x y) := by
      by_cases hz : countAdjacentMines s x y = 0
      · rw [reveal_write_zero hns hz]
      · rw [reveal_write hns hz]
    rw [hgrid]
    rcases eq_or_ne i (cellIndex x y) with rfl | hne
    · exfalso
      apply hns
      right; right
      exact h
    · rw [Function.update_noteq hne]

theorem reveal_fold_flag_frozen (l : List Coord) :
    ∀ (st : GameState) (i : Int), st.grid i &&& 31 = 14 →
      (l.foldl (fun st c => revealCellRecursive st c.1 c.2) st).grid i
        = st.grid i := by
  induction l with
  | nil => intro st i h; rfl
  | cons c l ih =>
      intro st i h
      rw [List.foldl_cons, ih _ i (by rw [reveal_flag_frozen h]; exact h),
        reveal_flag_frozen h]

theorem floodLoop_flag_frozen :
    ∀ (fuel : Nat) (s : GameState) (k : Nat) (i : Int),
      s.grid i &&& 31 = 14 → (floodLoop fuel s k).grid i = s.grid i
  | 0, _, _, _, _ => rfl
  | fuel + 1, s, k, i, h => by
      unfold floodLoop
      split
      · rfl
      · have h8 : (revealNeighbors s (s.queueX k) (s.queueY k)).grid i
            = s.grid i := by
          rw [revealNeighbors_eq_fold]
          exact reveal_fold_flag_frozen _ _ _ h
        rw [floodLoop_flag_frozen fuel _ _ i (by rw [h8]; exact h), h8]

theorem floodFill_flag_frozen {s : GameState} {x0 y0 : Int} {i : Int}
    (h : s.grid i &&& 31 = 14) :
    (floodFillReveal s x0 y0).grid i = s.grid i := by
  unfold floodFillReveal
  have h1 : ({ s with queueSize := 1 } : GameState).grid i &&& 31 = 14 := h
  have h2 := reveal_flag_frozen (s := { s with queueSize := 1 })
    (x := x0) (y := y0) h1
  rw [floodLoop_flag_frozen _ _ _ i (by rw [h2]; exact h1), h2]

/-- The chord 3×3 loop leaves a flagged byte completely untouched: a
detonation target is checked unflagged first, and flood fill skips flagged
bytes. -/
theorem chordFold_flag_frozen (l : List Coord) :
    ∀ (p : GameState × Bool) (i : Int), p.1.grid i &&& 31 = 14 →
      (l.foldl (fun (a : GameState × Bool) c =>
        if !(flaggedB a.1 c.1 c.2) && hasMineB a.1 c.1 c.2 then
          (updateCellState a.1 c.1 c.2 (64 ||| 12), true)
        else (floodFillReveal a.1 c.1 c.2, a.2)) p).1.grid i = p.1.grid i := by
  induction l with
  | nil => intro p i h; rfl
  | cons c l ih =>
      intro p i h
      rw [List.foldl_cons]
      by_cases hg : (!(flaggedB p.1 c.1 c.2) && hasMineB p.1 c.1 c.2) = true
      · rw [if_pos hg]
        have hne : i ≠ cellIndex c.1 c.2 := by
          intro he
          rw [Bool.and_eq_true, Bool.not_eq_true'] at hg
          have hf := hg.1
          unfold flaggedB getCellType cellData at hf
          rw [← he, h] at hf
          simp at hf
        have hbyte : (updateCellState p.1 c.1 c.2 (64 ||| 12)).grid i
            = p.1.grid i := Function.update_noteq hne _ _
        rw [ih _ i (by rw [hbyte]; exact h), hbyte]
      · rw [if_neg hg]
        have hbyte : (floodFillReveal p.1 c.1 c.2).grid i = p.1.grid i :=
          floodFill_flag_frozen h
        rw [ih _ i (by rw [hbyte]; exact h), hbyte]

/-- **C7** (amended): `RevealCellRecursive` is a no-op exactly when the
target is already visited, a border sentinel (type 16), or flagged (type
14 = `iBlkBombUp`).  A mined cell is *not* among the skip conditions: the
code tests `iBlkBombUp`, the flag visual, not the bomb bit (callers keep
mines away from it). -/
theorem revealOne_noop_iff (s : GameState) (x y : Int) :
    revealCellRecursive s x y = s ↔
      (visitedB s x y = true ∨ getCellType s x y = 16 ∨
       getCellType s x y = 14) := by
  have htr : (visitedB s x y = true ∨ getCellType s x y = 16 ∨
      getCellType s x y = 14) ↔ skipCell s x y := by
    unfold skipCell visitedB getCellType cellData
    constructor
    · rintro (h | h | h)
      · left; simpa using h
      · right; left; exact h
      · right; right; exact h
    · rintro (h | h | h)
      · left; simpa using h
      · right; left; exact h
      · right; right; exact h
  rw [htr]
  constructor
  · intro he
    by_contra hns
    by_cases hz : countAdjacentMines s x y = 0
    · rw [reveal_write_zero hns hz] at he
      have h2 : s.revealedCells + 1 = s.revealedCells :=
        congrArg GameState.revealedCells he
      omega
    · rw [reveal_write hns hz] at he
      have h2 : s.revealedCells + 1 = s.revealedCells :=
        congrArg GameState.revealedCells he
      omega
  · exact reveal_skip

/-- The C7 counterexample state: a 9×9 grid with a hidden, unflagged mine
at (2,3). -/
def c7Cex : GameState := mkState 9 9 [(2, 3)] []

/-- **C7** (counterexample): the claim as frozen says a reveal of a mine
cell is a no-op, but the code only skips visited/border/flagged cells —
revealing the hidden unflagged mine at (2,3) increments `revealedCells`,
marks the cell visited, and even wipes its bomb bit (the byte is
overwritten with `MaskVisit | count`). -/
theorem revealOne_mine_not_noop :
    hasMineB c7Cex 2 3 = true ∧ visitedB c7Cex 2 3 = false ∧
    getCellType c7Cex 2 3 ≠ 16 ∧
    (revealCellRecursive c7Cex 2 3).revealedCells
      = c7Cex.revealedCells + 1 ∧
    hasMineB (revealCellRecursive c7Cex 2 3) 2 3 = false ∧
    visitedB (revealCellRecursive c7Cex 2 3) 2 3 = true := by
  refine ⟨by decide, by decide, by decide, by decide, by decide, by decide⟩

/-- **C10** (amended): a flagged cell is never revealed. A reveal call on a
flagged cell is the identity; a flood pass leaves a flagged byte untouched;
and a chord never marks a flagged cell visited (including through the
end-of-game overlay).  What the original claim missed: a detonating chord
ends the game, and the loss overlay re-marks a wrongly flagged non-mine
cell with the wrong-flag visual 11 — the cell stays unrevealed but does not
keep the flag visual 14. -/
theorem flag_never_revealed :
    (∀ (s : GameState) (x y : Int), getCellType s x y = 14 →
      revealCellRecursive s x y = s) ∧
    (∀ (s : GameState) (x0 y0 x y : Int), getCellType s x y = 14 →
      cellData (floodFillReveal s x0 y0) x y = cellData s x y) ∧
    (∀ (s : GameState) (xc yc x y : Int), getCellType s x y = 14 →
      visitedB s x y = false →
      visitedB (revealAdjacentCells s xc yc) x y = false) := by
  refine ⟨?_, ?_, ?_⟩
  · intro s x y h
    apply reveal_skip
    right; right
    exact h
  · intro s x0 y0 x y h
    unfold getCellType cellData at h
    unfold cellData
    exact floodFill_flag_frozen h
  · intro s xc yc x y h hv
    have hb : s.grid (cellIndex x y) &&& 31 = 14 := by
      unfold getCellType cellData at h
      exact h
    unfold revealAdjacentCells
    split
    · unfold visitedB cellData at hv ⊢
      rw [updateCursorPosition_visEq s (-2) (-2) (cellIndex x y)]
      exact hv
    · dsimp only
      have hfold := chordFold_flag_frozen (box3 xc yc) (s, false)
        (cellIndex x y) hb
      split
      · unfold visitedB cellData at hv ⊢
        rw [endGame_visEq _ false (cellIndex x y), hfold]
        exact hv
      · split
        · unfold visitedB cellData at hv ⊢
          rw [endGame_visEq _ true (cellIndex x y), hfold]
          exact hv
        · unfold visitedB cellData at hv ⊢
          rw [hfold]
          exact hv

/-- The C10 state: center (2,2) is a revealed "1", (1,1) carries a wrong
flag (no mine), and (3,1), (1,3), (3,3) are hidden unflagged mines. -/
def c10Cex : GameState :=
  { mkState 9 9 [(3, 1), (1, 3), (3, 3)] [(1, 1)] with
    grid := Function.update (mkGrid 9 9 [(3, 1), (1, 3), (3, 3)] [(1, 1)])
      (cellIndex 2 2) 65 }

set_option maxRecDepth 100000 in
/-- **C10** (counterexample): chording the satisfied "1" at (2,2) detonates
the unflagged mines and ends the game; the loss overlay then re-marks the
wrongly flagged non-mine (1,1) with the wrong-flag visual 11, so the cell
does not keep its flag visual — refuting the claim's "keeps its flag". -/
theorem chord_overlay_rewrites_wrong_flag :
    getCellType c10Cex 1 1 = 14 ∧ hasMineB c10Cex 1 1 = false ∧
    ¬ chordPrecondFail c10Cex 2 2 ∧
    getCellType (revealAdjacentCells c10Cex 2 2) 1 1 = 11 := by
  refine ⟨by decide, by decide, by decide, by decide⟩

set_option maxRecDepth 100000 in
/-- **C10** (witness): at the concrete chord state, the wrongly flagged
cell (1,1) stays unrevealed. -/
theorem flag_never_revealed_witness :
    getCellType c10Cex 1 1 = 14 ∧ visitedB c10Cex 1 1 = false ∧
    visitedB (revealAdjacentCells c10Cex 2 2) 1 1 = false :=
  ⟨by decide, by decide,
    flag_never_revealed.2.2 c10Cex 2 2 1 1 (by decide) (by decide)⟩

/-- **C9**: over any sequence of tick events, `elapsedSeconds` never
exceeds 999 (the increment is guarded by `< 999`), and a tick delivered
while the timer is inactive (the paused state) changes nothing. -/
theorem timer_cap_999 :
    (∀ s : GameState, s.timerActive = false → updateGameTimer s = s) ∧
    (∀ (s : GameState) (n : Nat), s.elapsedSeconds ≤ 999 →
      (updateGameTimer^[n] s).elapsedSeconds ≤ 999) := by
  constructor
  · intro s h
    unfold updateGameTimer
    rw [if_neg]
    rintro ⟨h1, _⟩
    rw [h] at h1
    simp at h1
  · intro s n
    induction n generalizing s with
    | zero => intro h; exact h
    | succ n ih =>
        intro h
        rw [Function.iterate_succ_apply]
        apply ih
        unfold updateGameTimer
        split
        · rename_i hcond
          have h2 := hcond.2
          show s.elapsedSeconds + 1 ≤ 999
          omega
        · exact h

/-- **C9** (witness): three ticks from a fresh state stay within the cap,
and a tick with the timer off is the identity. -/
theorem timer_cap_999_witness :
    c1Wit.timerActive = false ∧ c1Wit.elapsedSeconds ≤ 999 ∧
    updateGameTimer c1Wit = c1Wit ∧
    (updateGameTimer^[3] c1Wit).elapsedSeconds ≤ 999 :=
  ⟨by decide, by decide, timer_cap_999.1 c1Wit (by decide),
    timer_cap_999.2 c1Wit 3 (by decide)⟩

/-- **C5** (amended): the victory check run after a flag toggle is still
`revealedCells == targetRevealed`; while those counters differ — in
particular whenever some non-mine cell is still unrevealed — a toggle never
ends the game, no matter what is flagged.  Flagging exactly the mine set
does not by itself transition the session to Won. -/
theorem toggle_no_win_without_reveal (s : GameState) (x y : Int)
    (h : s.revealedCells ≠ s.targetRevealed) :
    (toggleCellMarker s x y).gameStatus = s.gameStatus ∧
    (toggleCellMarker s x y).currentButton = s.currentButton ∧
    (toggleCellMarker s x y).revealedCells = s.revealedCells := by
  unfold toggleCellMarker
  split
  · split
    · exact ⟨rfl, rfl, rfl⟩
    · dsimp only
      by_cases hf : flaggedB s x y = true
      · rw [if_pos hf]
        rw [if_neg]
        · exact ⟨rfl, rfl, rfl⟩
        · rintro ⟨_, hv⟩
          unfold checkVictoryB at hv
          simp at hv
          exact h hv
      · rw [if_neg hf]
        by_cases hm : markedB s x y = true
        · rw [if_pos hm]
          rw [if_neg]
          · exact ⟨rfl, rfl, rfl⟩
          · rintro ⟨_, hv⟩
            unfold checkVictoryB at hv
            simp at hv
            exact h hv
        · rw [if_neg hm]
          rw [if_neg]
          · exact ⟨rfl, rfl, rfl⟩
          · rintro ⟨_, hv⟩
            unfold checkVictoryB at hv
            simp at hv
            exact h hv
  · exact ⟨rfl, rfl, rfl⟩

/-- The C5 state: a single mine at (1,1), nothing revealed yet, in play. -/
def c5Cex : GameState :=
  { mkState 9 9 [(1, 1)] [] with
    totalMines := 1,
    remainingMines := 1,
    targetRevealed := 80 }

/-- **C5** (counterexample): after toggling a flag onto (1,1), the flags
coincide exactly with the mine set, yet the session is not Won: the status
word and the face button are unchanged (`EndGame` sets status 16 and button
3 on a win), because the victory macro compares `revealedCells` with
`targetRevealed` and ignores flags. -/
theorem all_mines_flagged_not_won :
    (∀ x ∈ Finset.Icc (1 : Int) 9, ∀ y ∈ Finset.Icc (1 : Int) 9,
      (hasMineB (toggleCellMarker c5Cex 1 1) x y = true ↔
       flaggedB (toggleCellMarker c5Cex 1 1) x y = true)) ∧
    (toggleCellMarker c5Cex 1 1).revealedCells ≠
      (toggleCellMarker c5Cex 1 1).targetRevealed ∧
    (toggleCellMarker c5Cex 1 1).gameStatus = 1 ∧
    (toggleCellMarker c5Cex 1 1).currentButton = 0 := by
  refine ⟨by decide, by decide, by decide, by decide⟩

/-- **C5** (witness for the amended theorem): at the concrete state. -/
theorem toggle_no_win_without_reveal_witness :
    c5Cex.revealedCells ≠ c5Cex.targetRevealed ∧
    ((toggleCellMarker c5Cex 1 1).gameStatus = c5Cex.gameStatus ∧
     (toggleCellMarker c5Cex 1 1).currentButton = c5Cex.currentButton ∧
     (toggleCellMarker c5Cex 1 1).revealedCells = c5Cex.revealedCells) :=
  ⟨by decide, toggle_no_win_without_reveal c5Cex 1 1 (by decide)⟩

/-! ### The row-major scan order and the first-click relocation -/

/-- Strict row-major precedence: an earlier row, or the same row further
left. -/
def rmLess (c a : Coord) : Prop := c.2 < a.2 ∨ (c.2 = a.2 ∧ c.1 < a.1)

theorem rmLess_asymm (c a : Coord) (h : rmLess c a) : ¬ rmLess a c := by
  unfold rmLess at *
  omega

/-- `find?` over a pairwise-ordered list: everything strictly before the
found element fails the predicate. -/
theorem find?_first_of_pairwise {α : Type} (p : α → Bool)
    (lt : α → α → Prop) (hasym : ∀ a b, lt a b → ¬ lt b a) :
    ∀ (l : List α) (a : α), List.Pairwise lt l → l.find? p = some a →
      ∀ c ∈ l, lt c a → p c = false := by
  intro l
  induction l with
  | nil => intro a _ hf; simp at hf
  | cons x xs ih =>
      intro a hpw hf c hc hlt
      by_cases hx : p x = true
      · rw [List.find?_cons_of_pos _ hx] at hf
        injection hf with hax
        subst hax
        rcases List.mem_cons.mp hc with rfl | hc'
        · exact absurd hlt (hasym _ _ hlt)
        · exact absurd hlt (hasym _ _ ((List.pairwise_cons.mp hpw).1 c hc'))
      · rw [List.find?_cons_of_neg _ hx] at hf
        rcases List.mem_cons.mp hc with rfl | hc'
        · simpa using hx
        · exact ih a (List.pairwise_cons.mp hpw).2 hf c hc' hlt

theorem rowCells_snd {w y : Int} {a : Coord} (h : a ∈ rowCells w y) :
    a.2 = y := by
  unfold rowCells at h
  rw [List.mem_map] at h
  obtain ⟨i, _, rfl⟩ := h
  rfl

theorem mem_rowCells {w : Int} (hw : 0 ≤ w) {y : Int} {c : Coord} :
    c ∈ rowCells w y ↔ (1 ≤ c.1 ∧ c.1 ≤ w ∧ c.2 = y) := by
  unfold rowCells
  rw [List.mem_map]
  constructor
  · rintro ⟨i, hi, rfl⟩
    rw [List.mem_range] at hi
    refine ⟨?_, ?_, rfl⟩
    · show (1 : Int) ≤ Int.ofNat i + 1
      simp only [Int.ofNat_eq_natCast]
      omega
    · show Int.ofNat i + 1 ≤ w
      simp only [Int.ofNat_eq_natCast]
      omega
  · rintro ⟨h1, h2, h3⟩
    refine ⟨(c.1 - 1).toNat, ?_, ?_⟩
    · rw [List.mem_range]
      omega
    · have hcast : (Int.ofNat (c.1 - 1).toNat) = c.1 - 1 :=
        Int.toNat_of_nonneg (by omega)
      rw [Prod.ext_iff]
      exact ⟨by omega, h3.symm⟩

theorem pairwise_rowCells (w y : Int) :
    List.Pairwise rmLess (rowCells w y) := by
  unfold rowCells
  rw [List.pairwise_map]
  apply List.Pairwise.imp ?_ (List.pairwise_lt_range w.toNat)
  intro i j hij
  right
  refine ⟨rfl, ?_⟩
  show Int.ofNat i + 1 < Int.ofNat j + 1
  simp only [Int.ofNat_eq_natCast]
  omega

theorem mem_rowMajorCells {w : Int} (hw : 0 ≤ w) :
    ∀ (n : Nat) (c : Coord), c ∈ rowMajorCells w n ↔
      (1 ≤ c.1 ∧ c.1 ≤ w ∧ 1 ≤ c.2 ∧ c.2 ≤ (n : Int)) := by
  intro n
  induction n with
  | zero =>
      intro c
      unfold rowMajorCells
      simp only [List.not_mem_nil, false_iff]
      push_neg
      intro _ _ h
      omega
  | succ n ih =>
      intro c
      show c ∈ rowMajorCells w n ++ rowCells w ((n : Nat) + 1 : Nat) ↔ _
      rw [List.mem_append, ih c, mem_rowCells hw]
      push_cast
      omega

theorem rowMajorCells_row_le (w : Int) :
    ∀ (n : Nat) {a : Coord}, a ∈ rowMajorCells w n → a.2 ≤ (n : Int) := by
  intro n
  induction n with
  | zero =>
      intro a ha
      simp [rowMajorCells] at ha
  | succ m ih =>
      intro a ha
      rcases List.mem_append.mp ha with h | h
      · have := ih h
        push_cast
        omega
      · have := rowCells_snd h
        push_cast
        omega

theorem pairwise_rowMajorCells (w : Int) :
    ∀ n : Nat, List.Pairwise rmLess (rowMajorCells w n) := by
  intro n
  induction n with
  | zero => exact List.Pairwise.nil
  | succ n ih =>
      show List.Pairwise rmLess (rowMajorCells w n ++ rowCells w ((n : Nat) + 1 : Nat))
      rw [List.pairwise_append]
      refine ⟨ih, pairwise_rowCells w _, ?_⟩
      intro a ha b hb
      left
      have h1 := rowMajorCells_row_le w n ha
      have h2 := rowCells_snd hb
      push_cast at h2
      omega

/-- The characterization of the relocation scan: it returns the row-major
first non-mine playable cell. -/
theorem findFirstNonMine_spec {s : GameState} (hw : 0 ≤ s.gridWidth)
    (hh : 0 ≤ s.gridHeight) {a : Coord}
    (hf : findFirstNonMine s = some a) :
    hasMineB s a.1 a.2 = false ∧ IsValidPosition s a.1 a.2 ∧
    ∀ c d : Int, IsValidPosition s c d →
      (d < a.2 ∨ (d = a.2 ∧ c < a.1)) → hasMineB s c d = true := by
  unfold findFirstNonMine at hf
  have hmem := List.mem_of_find?_eq_some hf
  have hmem' : IsValidPosition s a.1 a.2 := by
    unfold scanOrder at hmem
    rw [mem_rowMajorCells hw] at hmem
    rw [Int.toNat_of_nonneg hh] at hmem
    exact ⟨by omega, by omega, by omega, by omega⟩
  have hp := List.find?_some hf
  refine ⟨by simpa using hp, hmem', ?_⟩
  intro c d hcd hlt
  have hcmem : ((c, d) : Coord) ∈ scanOrder s := by
    unfold scanOrder
    rw [mem_rowMajorCells hw]
    rw [Int.toNat_of_nonneg hh]
    obtain ⟨h1, h2, h3, h4⟩ := hcd
    exact ⟨by omega, by omega, by omega, by omega⟩
  have := find?_first_of_pairwise _ rmLess rmLess_asymm (scanOrder s) a
    (pairwise_rowMajorCells _ _) hf (c, d) hcmem (by
      unfold rmLess
      exact hlt)
  simpa using this

/-- The number of mined playable cells. -/
def mineCount (s : GameState) : Nat :=
  ((playFinset s).filter (fun c => hasMineB s c.1 c.2 = true)).card

/-- The grid after the relocation write pair of `HandleCellClick`
(`CELL_DATA(x,y) = iBlkBlankUp` then `PlaceMine(a)`). -/
theorem reloc_grid (s : GameState) (x y : Int) (a : Coord) :
    (placeMineS (writeCell s x y 15) a.1 a.2).grid =
      Function.update (Function.update s.grid (cellIndex x y) 15)
        (cellIndex a.1 a.2)
        ((Function.update s.grid (cellIndex x y) 15) (cellIndex a.1 a.2)
          ||| 128) := rfl

/-- After the relocation write pair, the mine bit of a playable cell is:
set at the relocation target `a`, clear at the clicked `(x,y)` (when it is
not the target), and unchanged everywhere else. -/
theorem hasMineB_reloc {s : GameState} (hw : s.gridWidth ≤ 30)
    {x y : Int} {a : Coord}
    (hv : IsValidPosition s x y) (hav : IsValidPosition s a.1 a.2)
    {c : Coord} (hc : IsValidPosition s c.1 c.2) :
    hasMineB (placeMineS (writeCell s x y 15) a.1 a.2) c.1 c.2 =
      (if c = a then true
       else if c = (x, y) then false
       else hasMineB s c.1 c.2) := by
  obtain ⟨hv1, hv2, hv3, hv4⟩ := hv
  obtain ⟨ha1, ha2, ha3, ha4⟩ := hav
  obtain ⟨hc1, hc2, hc3, hc4⟩ := hc
  unfold hasMineB cellData
  rw [reloc_grid]
  rcases eq_or_ne (cellIndex c.1 c.2) (cellIndex a.1 a.2) with he | hne
  · have hceq : c = a := by
      obtain ⟨e1, e2⟩ := cellIndex_inj (by omega) (by omega) (by omega)
        (by omega) he
      exact Prod.ext_iff.mpr ⟨e1, e2⟩
    rw [he, Function.update_same, if_pos hceq, orByte_mine]
    rfl
  · have hca : c ≠ a := fun h => hne (by rw [h])
    rw [Function.update_noteq hne, if_neg hca]
    rcases eq_or_ne (cellIndex c.1 c.2) (cellIndex x y) with he2 | hne2
    · have hceq : c = (x, y) := by
        obtain ⟨e1, e2⟩ := cellIndex_inj (by omega) (by omega) (by omega)
          (by omega) he2
        exact Prod.ext_iff.mpr ⟨e1, e2⟩
      rw [he2, Function.update_same, if_pos hceq]
      rfl
    · have hcxy : c ≠ (x, y) := fun h => hne2 (by rw [h])
      rw [Function.update_noteq hne2, if_neg hcxy]

/-- The relocation moves exactly one mine: the total count of mined
playable cells is unchanged. -/
theorem mineCount_reloc {s : GameState} (hw : s.gridWidth ≤ 30)
    {x y : Int} {a : Coord}
    (hv : IsValidPosition s x y) (hav : IsValidPosition s a.1 a.2)
    (hm : hasMineB s x y = true) (hna : hasMineB s a.1 a.2 = false) :
    mineCount (placeMineS (writeCell s x y 15) a.1 a.2) = mineCount s := by
  have hps : playFinset (placeMineS (writeCell s x y 15) a.1 a.2) =
      playFinset s := rfl
  unfold mineCount
  rw [hps]
  have hset : (playFinset s).filter
      (fun c => hasMineB (placeMineS (writeCell s x y 15) a.1 a.2)
        c.1 c.2 = true)
      = insert a (((playFinset s).filter
          (fun c => hasMineB s c.1 c.2 = true)).erase ((x, y) : Coord)) := by
    ext c
    simp only [Finset.mem_filter, Finset.mem_insert, Finset.mem_erase]
    constructor
    · rintro ⟨hcmem, hcm⟩
      have hcv := mem_playFinset.mp hcmem
      rw [hasMineB_reloc hw hv hav hcv] at hcm
      by_cases h1 : c = a
      · exact Or.inl h1
      · rw [if_neg h1] at hcm
        by_cases h2 : c = ((x, y) : Coord)
        · rw [if_pos h2] at hcm
          exact Bool.noConfusion hcm
        · rw [if_neg h2] at hcm
          exact Or.inr ⟨h2, hcmem, hcm⟩
    · rintro (rfl | ⟨h2, hcmem, hcm⟩)
      · refine ⟨mem_playFinset.mpr hav, ?_⟩
        rw [hasMineB_reloc hw hv hav hav, if_pos rfl]
      · have hcv := mem_playFinset.mp hcmem
        have hca : c ≠ a := by
          intro h
          rw [h, hna] at hcm
          exact Bool.noConfusion hcm
        refine ⟨hcmem, ?_⟩
        rw [hasMineB_reloc hw hv hav hcv, if_neg hca, if_neg h2]
        exact hcm
  rw [hset]
  have hanotin : a ∉ ((playFinset s).filter
      (fun c => hasMineB s c.1 c.2 = true)).erase ((x, y) : Coord) := by
    intro h
    have h' := (Finset.mem_filter.mp (Finset.mem_erase.mp h).2).2
    rw [hna] at h'
    exact Bool.noConfusion h'
  rw [Finset.card_insert_of_not_mem hanotin]
  have hxyin : ((x, y) : Coord) ∈ (playFinset s).filter
      (fun c => hasMineB s c.1 c.2 = true) :=
    Finset.mem_filter.mpr ⟨mem_playFinset.mpr hv, hm⟩
  rw [Finset.card_erase_of_mem hxyin]
  have hpos : 0 < ((playFinset s).filter
      (fun c => hasMineB s c.1 c.2 = true)).card :=
    Finset.card_pos.mpr ⟨_, hxyin⟩
  omega

/-- **C3**: on a session with no cell yet revealed, a reveal click on a
mined playable cell (with at least one non-mine playable cell available)
finds the row-major-first non-mine cell `a`, clears the clicked cell's
byte (so its mine bit), places the mine at `a`, leaves the number of mined
cells unchanged, and proceeds as the flood-fill reveal of the original
(now safe) cell. -/
theorem firstClick_relocation (s : GameState) (x y : Int)
    (hwf : WFGrid s) (hv : IsValidPosition s x y)
    (hm : hasMineB s x y = true) (h0 : s.revealedCells = 0)
    (hex : ∃ c : Coord, IsValidPosition s c.1 c.2 ∧
      hasMineB s c.1 c.2 = false) :
    ∃ a : Coord,
      findFirstNonMine s = some a ∧
      hasMineB s a.1 a.2 = false ∧
      IsValidPosition s a.1 a.2 ∧
      (∀ c d : Int, IsValidPosition s c d →
        (d < a.2 ∨ (d = a.2 ∧ c < a.1)) → hasMineB s c d = true) ∧
      handleCellClick s x y =
        floodFillReveal (placeMineS (writeCell s x y 15) a.1 a.2) x y ∧
      hasMineB (placeMineS (writeCell s x y 15) a.1 a.2) x y = false ∧
      hasMineB (placeMineS (writeCell s x y 15) a.1 a.2) a.1 a.2 = true ∧
      mineCount (placeMineS (writeCell s x y 15) a.1 a.2) = mineCount s := by
  obtain ⟨hw9, hw30, hh9, hh24, _⟩ := hwf
  obtain ⟨e, hev, hem⟩ := hex
  have hmem : e ∈ scanOrder s := by
    unfold scanOrder
    rw [mem_rowMajorCells (by omega)]
    rw [Int.toNat_of_nonneg (by omega)]
    obtain ⟨h1, h2, h3, h4⟩ := hev
    exact ⟨by omega, by omega, by omega, by omega⟩
  have hsome : (findFirstNonMine s).isSome = true := by
    unfold findFirstNonMine
    exact List.find?_isSome.mpr ⟨e, hmem, by simp [hem]⟩
  obtain ⟨a, hf⟩ := Option.isSome_iff_exists.mp hsome
  obtain ⟨hna, hav, hfirst⟩ := findFirstNonMine_spec (by omega) (by omega) hf
  have hnexy : ((x, y) : Coord) ≠ a := by
    intro h
    have h' := hna
    rw [← h] at h'
    exact Bool.noConfusion (hm.symm.trans h')
  refine ⟨a, hf, hna, hav, hfirst, ?_, ?_, ?_, ?_⟩
  · unfold handleCellClick
    rw [hm, h0, hf]
    rw [if_pos rfl, if_pos rfl]
  · have h1 := hasMineB_reloc (s := s) (by omega) hv hav
      (c := ((x, y) : Coord)) hv
    rw [if_neg hnexy, if_pos rfl] at h1
    exact h1
  · have h2 := hasMineB_reloc (s := s) (by omega) hv hav (c := a) hav
    rw [if_pos rfl] at h2
    exact h2
  · exact mineCount_reloc (by omega) hv hav hm hna

set_option maxRecDepth 100000 in
/-- Witness for C3: on the concrete pocket board, a first click on the
mine at (4,1) relocates it and flood fills. -/
theorem firstClick_relocation_witness :
    (WFGrid c1Wit ∧ IsValidPosition c1Wit 4 1 ∧
      hasMineB c1Wit 4 1 = true ∧ c1Wit.revealedCells = 0 ∧
      IsValidPosition c1Wit 1 1 ∧ hasMineB c1Wit 1 1 = false) ∧
    (∃ a : Coord,
      findFirstNonMine c1Wit = some a ∧
      hasMineB c1Wit a.1 a.2 = false ∧
      IsValidPosition c1Wit a.1 a.2 ∧
      (∀ c d : Int, IsValidPosition c1Wit c d →
        (d < a.2 ∨ (d = a.2 ∧ c < a.1)) → hasMineB c1Wit c d = true) ∧
      handleCellClick c1Wit 4 1 =
        floodFillReveal (placeMineS (writeCell c1Wit 4 1 15) a.1 a.2) 4 1 ∧
      hasMineB (placeMineS (writeCell c1Wit 4 1 15) a.1 a.2) 4 1 = false ∧
      hasMineB (placeMineS (writeCell c1Wit 4 1 15) a.1 a.2) a.1 a.2
        = true ∧
      mineCount (placeMineS (writeCell c1Wit 4 1 15) a.1 a.2)
        = mineCount c1Wit) :=
  ⟨⟨by decide, by decide, by decide, rfl, by decide, by decide⟩,
   firstClick_relocation c1Wit 4 1 (by decide) (by decide) (by decide) rfl
     ⟨((1, 1) : Coord), by decide, by decide⟩⟩

/-! ### New-game initialization (C6) -/

/-- A fold whose step keeps the dimensions and the configuration keeps
them across the whole list. -/
theorem foldl_keeps {α : Type} (f : GameState → α → GameState)
    (hf : ∀ st a, (f st a).gridWidth = st.gridWidth ∧
      (f st a).gridHeight = st.gridHeight ∧
      (f st a).gameConfig = st.gameConfig) :
    ∀ (l : List α) (st : GameState),
      (l.foldl f st).gridWidth = st.gridWidth ∧
      (l.foldl f st).gridHeight = st.gridHeight ∧
      (l.foldl f st).gameConfig = st.gameConfig := by
  intro l
  induction l with
  | nil => intro st; exact ⟨rfl, rfl, rfl⟩
  | cons a l ih =>
      intro st
      obtain ⟨h1, h2, h3⟩ := hf st a
      obtain ⟨g1, g2, g3⟩ := ih (f st a)
      simp only [List.foldl_cons]
      exact ⟨g1.trans h1, g2.trans h2, g3.trans h3⟩

/-- A fold over known-dimension states whose members do not touch the
grid at index `j` leaves that byte unchanged. -/
theorem foldl_keeps_grid (f : GameState → Nat → GameState) (w h : Int)
    (j : Int) :
    ∀ (l : List Nat),
      (∀ st : GameState, st.gridWidth = w → st.gridHeight = h → ∀ a ∈ l,
        (f st a).gridWidth = st.gridWidth ∧
        (f st a).gridHeight = st.gridHeight ∧
        (f st a).gameConfig = st.gameConfig ∧
        (f st a).grid j = st.grid j) →
      ∀ st : GameState, st.gridWidth = w → st.gridHeight = h →
        (l.foldl f st).gridWidth = w ∧ (l.foldl f st).gridHeight = h ∧
        (l.foldl f st).gameConfig = st.gameConfig ∧
        (l.foldl f st).grid j = st.grid j := by
  intro l
  induction l with
  | nil =>
      intro _ st hw hh
      exact ⟨hw, hh, rfl, rfl⟩
  | cons a l ih =>
      intro hf st hw hh
      obtain ⟨h1, h2, h3, h4⟩ := hf st hw hh a (List.mem_cons_self a l)
      have hf' : ∀ st : GameState, st.gridWidth = w → st.gridHeight = h →
          ∀ b ∈ l, (f st b).gridWidth = st.gridWidth ∧
            (f st b).gridHeight = st.gridHeight ∧
            (f st b).gameConfig = st.gameConfig ∧
            (f st b).grid j = st.grid j :=
        fun st hw hh b hb => hf st hw hh b (List.mem_cons_of_mem a hb)
      obtain ⟨g1, g2, g3, g4⟩ := ih hf' (f st a) (h1.trans hw) (h2.trans hh)
      simp only [List.foldl_cons]
      exact ⟨g1, g2, g3.trans h3, g4.trans h4⟩

/-- The state of `ResetGameGrid` after the blank pass and the top/bottom
border pass, before the left/right border pass. -/
def resetInner (s : GameState) : GameState :=
  (List.range (s.gridWidth + 2).toNat).foldl
    (fun st i => writeCell (writeCell st (Int.ofNat i) 0 16) (Int.ofNat i)
      (st.gridHeight + 1) 16)
    { s with grid := fun i =>
        if 0 ≤ i ∧ i < (cBlkMax : Int) then 15 else s.grid i }

theorem resetGameGrid_eq (s : GameState) :
    resetGameGrid s =
      (List.range ((resetInner s).gridHeight + 2).toNat).foldl
        (fun st i => writeCell (writeCell st 0 (Int.ofNat i) 16)
          (st.gridWidth + 1) (Int.ofNat i) 16)
        (resetInner s) := rfl

theorem resetInner_keeps (s : GameState) :
    (resetInner s).gridWidth = s.gridWidth ∧
    (resetInner s).gridHeight = s.gridHeight ∧
    (resetInner s).gameConfig = s.gameConfig :=
  foldl_keeps
    (fun st i => writeCell (writeCell st (Int.ofNat i) 0 16) (Int.ofNat i)
      (st.gridHeight + 1) 16)
    (fun _ _ => ⟨rfl, rfl, rfl⟩)
    (List.range (s.gridWidth + 2).toNat)
    { s with grid := fun i =>
        if 0 ≤ i ∧ i < (cBlkMax : Int) then 15 else s.grid i }

/-- `ResetGameGrid` keeps the dimensions and the configuration. -/
theorem resetGameGrid_keeps (s : GameState) :
    (resetGameGrid s).gridWidth = s.gridWidth ∧
    (resetGameGrid s).gridHeight = s.gridHeight ∧
    (resetGameGrid s).gameConfig = s.gameConfig := by
  rw [resetGameGrid_eq]
  obtain ⟨a1, a2, a3⟩ := foldl_keeps
    (fun st i => writeCell (writeCell st 0 (Int.ofNat i) 16)
      (st.gridWidth + 1) (Int.ofNat i) 16)
    (fun _ _ => ⟨rfl, rfl, rfl⟩)
    (List.range ((resetInner s).gridHeight + 2).toNat) (resetInner s)
  obtain ⟨b1, b2, b3⟩ := resetInner_keeps s
  exact ⟨a1.trans b1, a2.trans b2, a3.trans b3⟩

theorem resetInner_cell {s : GameState} (hw : s.gridWidth ≤ 30)
    (hh : s.gridHeight ≤ 24) {x y : Int} (hv : IsValidPosition s x y) :
    (resetInner s).grid (cellIndex x y) = 15 := by
  obtain ⟨hx1, hy1, hx2, hy2⟩ := hv
  have hf : ∀ st : GameState, st.gridWidth = s.gridWidth →
      st.gridHeight = s.gridHeight →
      ∀ a ∈ List.range (s.gridWidth + 2).toNat,
        (writeCell (writeCell st (Int.ofNat a) 0 16) (Int.ofNat a)
          (st.gridHeight + 1) 16).gridWidth = st.gridWidth ∧
        (writeCell (writeCell st (Int.ofNat a) 0 16) (Int.ofNat a)
          (st.gridHeight + 1) 16).gridHeight = st.gridHeight ∧
        (writeCell (writeCell st (Int.ofNat a) 0 16) (Int.ofNat a)
          (st.gridHeight + 1) 16).gameConfig = st.gameConfig ∧
        (writeCell (writeCell st (Int.ofNat a) 0 16) (Int.ofNat a)
          (st.gridHeight + 1) 16).grid (cellIndex x y) =
          st.grid (cellIndex x y) := by
    intro st hstw hsth a ha
    rw [List.mem_range] at ha
    refine ⟨rfl, rfl, rfl, ?_⟩
    have hne1 : cellIndex x y ≠ cellIndex (Int.ofNat a) 0 := by
      unfold cellIndex
      simp only [Int.ofNat_eq_natCast]
      omega
    have hne2 : cellIndex x y ≠ cellIndex (Int.ofNat a) (st.gridHeight + 1) := by
      unfold cellIndex
      simp only [Int.ofNat_eq_natCast]
      omega
    show Function.update
        (Function.update st.grid (cellIndex (Int.ofNat a) 0) 16)
        (cellIndex (Int.ofNat a) (st.gridHeight + 1)) 16 (cellIndex x y) =
      st.grid (cellIndex x y)
    rw [Function.update_noteq hne2, Function.update_noteq hne1]
  have hcore := foldl_keeps_grid
    (fun st i => writeCell (writeCell st (Int.ofNat i) 0 16) (Int.ofNat i)
      (st.gridHeight + 1) 16)
    s.gridWidth s.gridHeight (cellIndex x y)
    (List.range (s.gridWidth + 2).toNat) hf
    { s with grid := fun i =>
        if 0 ≤ i ∧ i < (cBlkMax : Int) then 15 else s.grid i }
    rfl rfl
  have hcond : 0 ≤ cellIndex x y ∧ cellIndex x y < (cBlkMax : Int) := by
    unfold cellIndex cBlkMax
    push_cast
    constructor <;> omega
  have hbase : ({ s with grid := fun i =>
      if 0 ≤ i ∧ i < (cBlkMax : Int) then 15 else s.grid i } :
        GameState).grid (cellIndex x y) = 15 := by
    show (if 0 ≤ cellIndex x y ∧ cellIndex x y < (cBlkMax : Int) then 15
      else s.grid (cellIndex x y)) = 15
    rw [if_pos hcond]
  exact (hcore.2.2.2).trans hbase

/-- After `ResetGameGrid`, every playable cell byte is the hidden blank
`iBlkBlankUp` (15). -/
theorem resetGameGrid_cell {s : GameState} (hw : s.gridWidth ≤ 30)
    (hh : s.gridHeight ≤ 24) {x y : Int} (hv : IsValidPosition s x y) :
    cellData (resetGameGrid s) x y = 15 := by
  obtain ⟨hx1, hy1, hx2, hy2⟩ := hv
  obtain ⟨k1, k2, k3⟩ := resetInner_keeps s
  have hg : ∀ st : GameState, st.gridWidth = s.gridWidth →
      st.gridHeight = s.gridHeight →
      ∀ a ∈ List.range ((resetInner s).gridHeight + 2).toNat,
        (writeCell (writeCell st 0 (Int.ofNat a) 16)
          (st.gridWidth + 1) (Int.ofNat a) 16).gridWidth = st.gridWidth ∧
        (writeCell (writeCell st 0 (Int.ofNat a) 16)
          (st.gridWidth + 1) (Int.ofNat a) 16).gridHeight = st.gridHeight ∧
        (writeCell (writeCell st 0 (Int.ofNat a) 16)
          (st.gridWidth + 1) (Int.ofNat a) 16).gameConfig = st.gameConfig ∧
        (writeCell (writeCell st 0 (Int.ofNat a) 16)
          (st.gridWidth + 1) (Int.ofNat a) 16).grid (cellIndex x y) =
          st.grid (cellIndex x y) := by
    intro st hstw hsth a ha
    refine ⟨rfl, rfl, rfl, ?_⟩
    have hne1 : cellIndex x y ≠ cellIndex 0 (Int.ofNat a) := by
      unfold cellIndex
      simp only [Int.ofNat_eq_natCast]
      omega
    have hne2 : cellIndex x y ≠ cellIndex (st.gridWidth + 1) (Int.ofNat a) := by
      unfold cellIndex
      simp only [Int.ofNat_eq_natCast]
      omega
    show Function.update
        (Function.update st.grid (cellIndex 0 (Int.ofNat a)) 16)
        (cellIndex (st.gridWidth + 1) (Int.ofNat a)) 16 (cellIndex x y) =
      st.grid (cellIndex x y)
    rw [Function.update_noteq hne2, Function.update_noteq hne1]
  have hcore := foldl_keeps_grid
    (fun st i => writeCell (writeCell st 0 (Int.ofNat i) 16)
      (st.gridWidth + 1) (Int.ofNat i) 16)
    s.gridWidth s.gridHeight (cellIndex x y)
    (List.range ((resetInner s).gridHeight + 2).toNat) hg
    (resetInner s) k1 k2
  unfold cellData
  rw [resetGameGrid_eq]
  exact (hcore.2.2.2).trans (resetInner_cell hw hh ⟨hx1, hy1, hx2, hy2⟩)

theorem initBoardPre_dims (s : GameState) :
    (initBoardPre s).gridWidth = s.gameConfig.Width ∧
    (initBoardPre s).gridHeight = s.gameConfig.Height ∧
    (initBoardPre s).gameConfig = s.gameConfig ∧
    (initBoardPre s).totalMines = s.gameConfig.Mines := by
  obtain ⟨k1, k2, k3⟩ := resetGameGrid_keeps (initDims s)
  exact ⟨k1, k2, k3, rfl⟩

/-- At the top of the placement loop no playable cell is mined. -/
theorem mineCount_initBoardPre (s : GameState)
    (hW : s.gameConfig.Width ≤ 30) (hH : s.gameConfig.Height ≤ 24) :
    mineCount (initBoardPre s) = 0 := by
  unfold mineCount
  rw [Finset.card_eq_zero, Finset.filter_eq_empty_iff]
  intro c hcmem
  obtain ⟨a1, a2, a3, a4⟩ := mem_playFinset.mp hcmem
  obtain ⟨d1, d2, d3, d4⟩ := initBoardPre_dims s
  rw [d1] at a3
  rw [d2] at a4
  have hvd : IsValidPosition (initDims s) c.1 c.2 := ⟨a1, a2, a3, a4⟩
  have hcell : cellData (resetGameGrid (initDims s)) c.1 c.2 = 15 :=
    resetGameGrid_cell hW hH hvd
  intro hcontra
  have h15 : hasMineB (initBoardPre s) c.1 c.2 = false := by
    unfold hasMineB
    rw [show cellData (initBoardPre s) c.1 c.2 = 15 from hcell]
    decide
  rw [h15] at hcontra
  exact Bool.noConfusion hcontra

theorem placeMine_grid (s : GameState) (x y : Int) :
    (placeMineS s x y).grid =
      Function.update s.grid (cellIndex x y)
        (s.grid (cellIndex x y) ||| 128) := rfl

/-- `PlaceMine` sets the mine bit at its target and nowhere else. -/
theorem hasMineB_placeMine {s : GameState} (hw : s.gridWidth ≤ 30)
    {x y : Int} (hv : IsValidPosition s x y)
    {c : Coord} (hc : IsValidPosition s c.1 c.2) :
    hasMineB (placeMineS s x y) c.1 c.2 =
      (if c = (x, y) then true else hasMineB s c.1 c.2) := by
  obtain ⟨hv1, hv2, hv3, hv4⟩ := hv
  obtain ⟨hc1, hc2, hc3, hc4⟩ := hc
  unfold hasMineB cellData
  rw [placeMine_grid]
  rcases eq_or_ne (cellIndex c.1 c.2) (cellIndex x y) with he | hne
  · have hceq : c = (x, y) := by
      obtain ⟨e1, e2⟩ := cellIndex_inj (by omega) (by omega) (by omega)
        (by omega) he
      exact Prod.ext_iff.mpr ⟨e1, e2⟩
    rw [he, Function.update_same, if_pos hceq, orByte_mine]
    rfl
  · have hcne : c ≠ (x, y) := fun h => hne (by rw [h])
    rw [Function.update_noteq hne, if_neg hcne]

/-- Placing a mine on an unmined playable cell raises the mined-cell
count by exactly one. -/
theorem mineCount_placeMine {s : GameState} (hw : s.gridWidth ≤ 30)
    {x y : Int} (hv : IsValidPosition s x y)
    (hnm : hasMineB s x y = false) :
    mineCount (placeMineS s x y) = mineCount s + 1 := by
  have hps : playFinset (placeMineS s x y) = playFinset s := rfl
  unfold mineCount
  rw [hps]
  have hset : (playFinset s).filter
      (fun c => hasMineB (placeMineS s x y) c.1 c.2 = true)
      = insert ((x, y) : Coord)
          ((playFinset s).filter (fun c => hasMineB s c.1 c.2 = true)) := by
    ext c
    simp only [Finset.mem_filter, Finset.mem_insert]
    constructor
    · rintro ⟨hcmem, hcm⟩
      rw [hasMineB_placeMine hw hv (mem_playFinset.mp hcmem)] at hcm
      by_cases h1 : c = ((x, y) : Coord)
      · exact Or.inl h1
      · rw [if_neg h1] at hcm
        exact Or.inr ⟨hcmem, hcm⟩
    · rintro (rfl | ⟨hcmem, hcm⟩)
      · refine ⟨mem_playFinset.mpr hv, ?_⟩
        rw [hasMineB_placeMine hw hv (c := ((x, y) : Coord)) hv, if_pos rfl]
      · have hcne : c ≠ ((x, y) : Coord) := by
          intro h
          rw [h] at hcm
          exact Bool.noConfusion (hnm.symm.trans hcm)
        refine ⟨hcmem, ?_⟩
        rw [hasMineB_placeMine hw hv (mem_playFinset.mp hcmem), if_neg hcne]
        exact hcm
  rw [hset]
  have hnotin : ((x, y) : Coord) ∉
      (playFinset s).filter (fun c => hasMineB s c.1 c.2 = true) := by
    intro hmem
    have h' := (Finset.mem_filter.mp hmem).2
    exact Bool.noConfusion (hnm.symm.trans h')
  rw [Finset.card_insert_of_not_mem hnotin]

/-- The rejection-sampling loop: when it returns, it has placed exactly
`count` new mines on previously unmined playable cells, and the shell of
the session is unchanged. -/
theorem mineLoop_spec (rng : Nat → Nat) :
    ∀ (fuel : Nat) (s : GameState) (k : Nat) (count : Int) (t : GameState),
      9 ≤ s.gridWidth → s.gridWidth ≤ 30 →
      9 ≤ s.gridHeight → s.gridHeight ≤ 24 →
      1 ≤ count →
      mineLoop rng fuel s k count = some t →
      t.gridWidth = s.gridWidth ∧ t.gridHeight = s.gridHeight ∧
      t.gameConfig = s.gameConfig ∧
      mineCount t = mineCount s + count.toNat := by
  intro fuel
  induction fuel with
  | zero =>
      intro s k count t _ _ _ _ _ ht
      simp [mineLoop] at ht
  | succ fuel ih =>
      intro s k count t hw9 hw hh9 hh hc ht
      simp only [mineLoop] at ht
      have hxb : rng k % s.gridWidth.toNat < s.gridWidth.toNat :=
        Nat.mod_lt _ (by omega)
      have hyb : rng (k + 1) % s.gridHeight.toNat < s.gridHeight.toNat :=
        Nat.mod_lt _ (by omega)
      split at ht
      · exact ih s (k + 2) count t hw9 hw hh9 hh hc ht
      · rename_i hmine
        have hnm : hasMineB s
            (((rng k % s.gridWidth.toNat : Nat) : Int) + 1)
            (((rng (k + 1) % s.gridHeight.toNat : Nat) : Int) + 1)
            = false := by
          simpa using hmine
        have hvxy : IsValidPosition s
            (((rng k % s.gridWidth.toNat : Nat) : Int) + 1)
            (((rng (k + 1) % s.gridHeight.toNat : Nat) : Int) + 1) :=
          ⟨by omega, by omega, by omega, by omega⟩
        split at ht
        · rename_i hcnt
          injection ht with hteq
          subst hteq
          refine ⟨rfl, rfl, rfl, ?_⟩
          rw [mineCount_placeMine hw hvxy hnm]
          omega
        · rename_i hcnt
          obtain ⟨m1, m2, m3, m4⟩ := ih (placeMineS s _ _) (k + 2)
            (count - 1) t hw9 hw hh9 hh (by omega) ht
          refine ⟨m1, m2, m3, ?_⟩
          rw [m4, mineCount_placeMine hw hvxy hnm]
          omega

set_option maxHeartbeats 1000000 in
/-- **C6**: for every valid configuration, when `InitializeGameBoard`
completes (its rejection-sampling loop finishing within the fuel), the
fresh session has `revealedCells = 0`, `remainingMines = Mines`,
`totalMines = Mines`, `targetRevealed = Width * Height - Mines`, a zeroed
timer, playing status, and exactly `Mines` distinct playable cells
carrying the mine bit. -/
theorem initializeGameBoard_spec (s : GameState) (rng : Nat → Nat)
    (fuel : Nat) (t : GameState)
    (hW9 : 9 ≤ s.gameConfig.Width) (hW : s.gameConfig.Width ≤ 30)
    (hH9 : 9 ≤ s.gameConfig.Height) (hH : s.gameConfig.Height ≤ 24)
    (hM : 10 ≤ s.gameConfig.Mines)
    (hM' : s.gameConfig.Mines ≤
      (s.gameConfig.Width - 1) * (s.gameConfig.Height - 1))
    (ht : initializeGameBoard s rng fuel = some t) :
    t.revealedCells = 0 ∧
    t.remainingMines = s.gameConfig.Mines ∧
    t.totalMines = s.gameConfig.Mines ∧
    t.targetRevealed =
      s.gameConfig.Width * s.gameConfig.Height - s.gameConfig.Mines ∧
    t.elapsedSeconds = 0 ∧
    t.gameStatus = 1 ∧
    mineCount t = s.gameConfig.Mines.toNat := by
  obtain ⟨d1, d2, d3, d4⟩ := initBoardPre_dims s
  unfold initializeGameBoard at ht
  rw [d4] at ht
  split at ht
  · exact Option.noConfusion ht
  · rename_i s' heq
    injection ht with hteq
    subst hteq
    obtain ⟨m1, m2, m3, m4⟩ := mineLoop_spec rng fuel (initBoardPre s) 0
      s.gameConfig.Mines s' (by rw [d1]; exact hW9) (by rw [d1]; exact hW)
      (by rw [d2]; exact hH9) (by rw [d2]; exact hH) (by omega) heq
    have hmc0 := mineCount_initBoardPre s hW hH
    refine ⟨rfl, ?_, ?_, ?_, rfl, rfl, ?_⟩
    · show s'.gameConfig.Mines = s.gameConfig.Mines
      rw [m3, d3]
    · show s'.gameConfig.Mines = s.gameConfig.Mines
      rw [m3, d3]
    · show s'.gridWidth * s'.gridHeight - s'.gameConfig.Mines = _
      rw [m1, m2, m3, d1, d2, d3]
    · show mineCount s' = s.gameConfig.Mines.toNat
      rw [m4, hmc0]
      omega

/-- A deterministic draw stream for the witness game: the placement loop
reads x-draws at even indices and y-draws at odd ones; this stream deals
out the ten distinct cells (1,1) … (9,1), (1,2) with no rejection. -/
def c6Rng : Nat → Nat := fun k => if k % 2 = 0 then (k / 2) % 9 else k / 18

def c6Start : GameState := mkState 9 9 [] []

def c6T : GameState := (initializeGameBoard c6Start c6Rng 16).getD c6Start

set_option maxRecDepth 100000 in
theorem c6ht : initializeGameBoard c6Start c6Rng 16 = some c6T := by rfl

set_option maxRecDepth 100000 in
/-- Witness for C6: a concrete 9×9, 10-mine new game. -/
theorem initializeGameBoard_spec_witness :
    (9 ≤ c6Start.gameConfig.Width ∧ c6Start.gameConfig.Width ≤ 30 ∧
     9 ≤ c6Start.gameConfig.Height ∧ c6Start.gameConfig.Height ≤ 24 ∧
     10 ≤ c6Start.gameConfig.Mines ∧
     c6Start.gameConfig.Mines ≤
       (c6Start.gameConfig.Width - 1) * (c6Start.gameConfig.Height - 1)) ∧
    (c6T.revealedCells = 0 ∧
     c6T.remainingMines = c6Start.gameConfig.Mines ∧
     c6T.totalMines = c6Start.gameConfig.Mines ∧
     c6T.targetRevealed =
       c6Start.gameConfig.Width * c6Start.gameConfig.Height -
         c6Start.gameConfig.Mines ∧
     c6T.elapsedSeconds = 0 ∧
     c6T.gameStatus = 1 ∧
     mineCount c6T = c6Start.gameConfig.Mines.toNat) :=
  ⟨⟨by decide, by decide, by decide, by decide, by decide, by decide⟩,
   initializeGameBoard_spec c6Start c6Rng 16 c6T (by decide) (by decide)
     (by decide) (by decide) (by decide) (by decide) c6ht⟩

/-! ### Chording (C4) -/

/-- The session counters and statuses a precondition-failed chord must
not touch. -/
def CountersEq (s t : GameState) : Prop :=
  t.revealedCells = s.revealedCells ∧ t.remainingMines = s.remainingMines ∧
  t.gameStatus = s.gameStatus ∧ t.currentButton = s.currentButton

theorem countersEq_refl (s : GameState) : CountersEq s s :=
  ⟨rfl, rfl, rfl, rfl⟩

theorem countersEq_trans {s t u : GameState} (h1 : CountersEq s t)
    (h2 : CountersEq t u) : CountersEq s u :=
  ⟨h2.1.trans h1.1, h2.2.1.trans h1.2.1, h2.2.2.1.trans h1.2.2.1,
   h2.2.2.2.trans h1.2.2.2⟩

theorem foldl_countersEq {α : Type} (f : GameState → α → GameState)
    (hf : ∀ st a, CountersEq st (f st a)) (l : List α) :
    ∀ st : GameState, CountersEq st (l.foldl f st) := by
  induction l with
  | nil => intro st; exact countersEq_refl st
  | cons a l ih =>
      intro st
      exact countersEq_trans (hf st a) (ih (f st a))

theorem countersEq_ite {c : Prop} [Decidable c] {s t u : GameState}
    (h1 : CountersEq s t) (h2 : CountersEq s u) :
    CountersEq s (if c then t else u) := by
  split
  · exact h1
  · exact h2

theorem pressCellVisual_counters (s : GameState) (x y : Int) :
    CountersEq s (pressCellVisual s x y) := ⟨rfl, rfl, rfl, rfl⟩

theorem releaseCellVisual_counters (s : GameState) (x y : Int) :
    CountersEq s (releaseCellVisual s x y) := ⟨rfl, rfl, rfl, rfl⟩

/-- `UpdateCursorPosition` never touches the session counters: it moves
the cursor and restores or presses visuals only. -/
theorem updateCursorPosition_counters (s : GameState) (xn yn : Int) :
    CountersEq s (updateCursorPosition s xn yn) := by
  unfold updateCursorPosition
  split
  · exact countersEq_refl s
  · dsimp only
    split
    · apply countersEq_ite
      · refine countersEq_trans ?_ (foldl_countersEq _ ?_ _ _)
        · apply countersEq_ite
          · refine countersEq_trans
              (t := { s with cursorX := xn, cursorY := yn })
              ⟨rfl, rfl, rfl, rfl⟩ (foldl_countersEq _ ?_ _ _)
            intro st a
            apply foldl_countersEq
            intro st2 b
            apply countersEq_ite
            · exact releaseCellVisual_counters st2 _ _
            · exact countersEq_refl st2
          · exact ⟨rfl, rfl, rfl, rfl⟩
        · intro st a
          apply foldl_countersEq
          intro st2 b
          apply countersEq_ite
          · exact pressCellVisual_counters st2 _ _
          · exact countersEq_refl st2
      · apply countersEq_ite
        · refine countersEq_trans
            (t := { s with cursorX := xn, cursorY := yn })
            ⟨rfl, rfl, rfl, rfl⟩ (foldl_countersEq _ ?_ _ _)
          intro st a
          apply foldl_countersEq
          intro st2 b
          apply countersEq_ite
          · exact releaseCellVisual_counters st2 _ _
          · exact countersEq_refl st2
        · exact ⟨rfl, rfl, rfl, rfl⟩
    · apply countersEq_ite
      · apply countersEq_trans (u := pressCellVisual _ _ _) ?_
          (pressCellVisual_counters _ _ _)
        apply countersEq_ite
        · exact countersEq_trans
            (t := { s with cursorX := xn, cursorY := yn })
            ⟨rfl, rfl, rfl, rfl⟩ (releaseCellVisual_counters _ _ _)
        · exact ⟨rfl, rfl, rfl, rfl⟩
      · apply countersEq_ite
        · exact countersEq_trans
            (t := { s with cursorX := xn, cursorY := yn })
            ⟨rfl, rfl, rfl, rfl⟩ (releaseCellVisual_counters _ _ _)
        · exact ⟨rfl, rfl, rfl, rfl⟩

theorem revealAllMines_counters (s : GameState) (iBlk : Nat) :
    CountersEq s (revealAllMines s iBlk) := by
  unfold revealAllMines
  apply foldl_countersEq
  intro st a
  split
  · exact countersEq_refl st
  · split
    · split
      · exact countersEq_refl st
      · exact ⟨rfl, rfl, rfl, rfl⟩
    · split
      · exact ⟨rfl, rfl, rfl, rfl⟩
      · exact countersEq_refl st

/-- Losing the game sets the demo status (16) and the dead button (2). -/
theorem endGame_lose_fields (s : GameState) :
    (endGame s false).gameStatus = 16 ∧
    (endGame s false).currentButton = 2 := by
  constructor
  · rfl
  · have heq : (endGame s false).currentButton =
        (revealAllMines { s with timerActive := false, currentButton := 2 }
          10).currentButton := rfl
    rw [heq]
    exact (revealAllMines_counters _ 10).2.2.2

/-- The 3×3 chord pass of `RevealAdjacentCells`: the walked state plus
the game-over flag. -/
def chordFoldP (s : GameState) (xc yc : Int) : GameState × Bool :=
  (box3 xc yc).foldl
    (fun (a : GameState × Bool) c =>
      if !(flaggedB a.1 c.1 c.2) && hasMineB a.1 c.1 c.2 then
        (updateCellState a.1 c.1 c.2 (64 ||| 12), true)
      else
        (floodFillReveal a.1 c.1 c.2, a.2))
    (s, false)

/-- **C4** (amended): chording with a failed precondition is not a grid
no-op — it pops the pressed visuals back up via
`UpdateCursorPosition(-2,-2)` — but it reveals nothing (every visited bit
is unchanged) and touches no counter or status.  When the precondition
holds, the 3×3 pass runs; if it detonated, the game ends as a loss (demo
status 16, dead button) regardless of the victory check, and only
otherwise is the victory check consulted. -/
theorem revealAdjacentCells_spec (s : GameState) (xc yc : Int) :
    (chordPrecondFail s xc yc →
      revealAdjacentCells s xc yc = updateCursorPosition s (-2) (-2) ∧
      CountersEq s (revealAdjacentCells s xc yc) ∧
      VisEq s (revealAdjacentCells s xc yc)) ∧
    (¬ chordPrecondFail s xc yc →
      ((chordFoldP s xc yc).2 = true →
        revealAdjacentCells s xc yc = endGame (chordFoldP s xc yc).1 false ∧
        (revealAdjacentCells s xc yc).gameStatus = 16 ∧
        (revealAdjacentCells s xc yc).currentButton = 2) ∧
      ((chordFoldP s xc yc).2 = false →
        revealAdjacentCells s xc yc =
          (if checkVictoryB (chordFoldP s xc yc).1 then
            endGame (chordFoldP s xc yc).1 true
          else (chordFoldP s xc yc).1))) := by
  constructor
  · intro h
    have he : revealAdjacentCells s xc yc =
        updateCursorPosition s (-2) (-2) := by
      unfold revealAdjacentCells
      rw [if_pos h]
    refine ⟨he, ?_, ?_⟩
    · rw [he]
      exact updateCursorPosition_counters s (-2) (-2)
    · rw [he]
      exact updateCursorPosition_visEq s (-2) (-2)
  · intro h
    have he : revealAdjacentCells s xc yc =
        (if (chordFoldP s xc yc).2 then endGame (chordFoldP s xc yc).1 false
         else if checkVictoryB (chordFoldP s xc yc).1 then
           endGame (chordFoldP s xc yc).1 true
         else (chordFoldP s xc yc).1) := by
      unfold revealAdjacentCells
      rw [if_neg h]
      rfl
    constructor
    · intro hp2
      rw [hp2] at he
      rw [if_pos rfl] at he
      exact ⟨he, he ▸ (endGame_lose_fields _).1, he ▸ (endGame_lose_fields _).2⟩
    · intro hp2
      rw [hp2] at he
      rw [if_neg (by decide : ¬ (false = true))] at he
      exact he

/-- A chord-mode session with a pressed blank (type 0) next to the old
cursor. -/
def c4Cex : GameState :=
  { mkState 9 9 [] [] with
      chordMode := true,
      cursorX := 2,
      cursorY := 2,
      grid := Function.update (mkGrid 9 9 [] []) (cellIndex 1 1) 0 }

set_option maxRecDepth 100000 in
/-- Counterexample to C4 as stated: a precondition-failed chord changes
the grid — the pressed blank at (1,1) pops back up to hidden (15). -/
theorem chord_precond_fail_changes_grid :
    chordPrecondFail c4Cex 3 3 ∧
    (revealAdjacentCells c4Cex 3 3).grid (cellIndex 1 1) ≠
      c4Cex.grid (cellIndex 1 1) := by
  constructor
  · decide
  · decide

set_option maxRecDepth 100000 in
/-- Witness for C4 at the concrete failed-precondition chord. -/
theorem revealAdjacentCells_spec_witness :
    chordPrecondFail c4Cex 3 3 ∧
    (revealAdjacentCells c4Cex 3 3 = updateCursorPosition c4Cex (-2) (-2) ∧
     CountersEq c4Cex (revealAdjacentCells c4Cex 3 3) ∧
     VisEq c4Cex (revealAdjacentCells c4Cex 3 3)) :=
  ⟨by decide, (revealAdjacentCells_spec c4Cex 3 3).1 (by decide)⟩

/-! ### The mine-counter invariant (C8) -/

/-- The number of playable cells currently showing the flag visual. -/
def flaggedCount (s : GameState) : Nat :=
  ((playFinset s).filter (fun c => flaggedB s c.1 c.2 = true)).card

/-- The session invariant: in-range width (for cell addressing) and,
whenever the play bit is set, `remainingMines = totalMines − flags`. -/
def MineInv (s : GameState) : Prop :=
  s.gridWidth ≤ 30 ∧
  (fStatusPlayP s →
    s.remainingMines = s.totalMines - (flaggedCount s : Int))

/-- The fields a cosmetic (visual-only) operation leaves intact. -/
def TameEq (s t : GameState) : Prop :=
  t.gridWidth = s.gridWidth ∧ t.gridHeight = s.gridHeight ∧
  t.totalMines = s.totalMines ∧ t.remainingMines = s.remainingMines ∧
  t.gameStatus = s.gameStatus ∧
  (∀ i : Int, (t.grid i &&& 31 = 14 ↔ s.grid i &&& 31 = 14))

theorem tameEq_refl (s : GameState) : TameEq s s :=
  ⟨rfl, rfl, rfl, rfl, rfl, fun _ => Iff.rfl⟩

theorem tameEq_trans {s t u : GameState} (h1 : TameEq s t)
    (h2 : TameEq t u) : TameEq s u :=
  ⟨h2.1.trans h1.1, h2.2.1.trans h1.2.1, h2.2.2.1.trans h1.2.2.1,
   h2.2.2.2.1.trans h1.2.2.2.1, h2.2.2.2.2.1.trans h1.2.2.2.2.1,
   fun i => (h2.2.2.2.2.2 i).trans (h1.2.2.2.2.2 i)⟩

theorem tameEq_ite {c : Prop} [Decidable c] {s t u : GameState}
    (h1 : TameEq s t) (h2 : TameEq s u) : TameEq s (if c then t else u) := by
  split
  · exact h1
  · exact h2

theorem foldl_tameEq {α : Type} (f : GameState → α → GameState)
    (hf : ∀ st a, TameEq st (f st a)) (l : List α) :
    ∀ st : GameState, TameEq st (l.foldl f st) := by
  induction l with
  | nil => intro st; exact tameEq_refl st
  | cons a l ih => intro st; exact tameEq_trans (hf st a) (ih (f st a))

theorem tameEq_of_revealLike {s t : GameState} (h : RevealLike s t) :
    TameEq s t := by
  obtain ⟨⟨a1, a2, a3, a4, a5, a6, a7, a8, a9, a10, a11, a12, a13, a14⟩,
    hv, hflag⟩ := h
  exact ⟨a2, a3, a5, a6, a14, hflag⟩

theorem flaggedB_iff (s : GameState) (x y : Int) :
    flaggedB s x y = true ↔ s.grid (cellIndex x y) &&& 31 = 14 := by
  unfold flaggedB getCellType cellData
  exact beq_iff_eq

theorem flaggedCount_congr {s t : GameState} (hw : t.gridWidth = s.gridWidth)
    (hh : t.gridHeight = s.gridHeight)
    (hg : ∀ i : Int, (t.grid i &&& 31 = 14 ↔ s.grid i &&& 31 = 14)) :
    flaggedCount t = flaggedCount s := by
  unfold flaggedCount
  have hps : playFinset t = playFinset s := by
    unfold playFinset
    rw [hw, hh]
  rw [hps]
  refine congrArg Finset.card (Finset.filter_congr ?_)
  intro c hc
  rw [flaggedB_iff, flaggedB_iff]
  exact hg _

theorem mineInv_tame {s t : GameState} (h : MineInv s) (ht : TameEq s t) :
    MineInv t := by
  obtain ⟨hw, hh, htm, hrm, hst, hfl⟩ := ht
  refine ⟨by rw [hw]; exact h.1, ?_⟩
  intro hp
  have hp' : fStatusPlayP s := by
    unfold fStatusPlayP at hp ⊢
    rw [hst] at hp
    exact hp
  rw [hrm, htm, flaggedCount_congr hw hh hfl]
  exact h.2 hp'

theorem pressCellVisual_tame (s : GameState) (x y : Int) :
    TameEq s (pressCellVisual s x y) := by
  refine ⟨rfl, rfl, rfl, rfl, rfl, ?_⟩
  intro i
  show (Function.update s.grid (cellIndex x y)
      ((cellData s x y &&& 224) |||
        (if getCellType s x y = 13 then 9
         else if getCellType s x y = 15 then 0 else getCellType s x y)) i
      &&& 31 = 14) ↔ (s.grid i &&& 31 = 14)
  rcases eq_or_ne i (cellIndex x y) with rfl | hne
  · rw [Function.update_same, setByte_data]
    split
    · rename_i h13
      constructor
      · intro hcc; exact absurd hcc (by decide)
      · intro hcc
        have h13' : s.grid (cellIndex x y) &&& 31 = 13 := h13
        omega
    · split
      · rename_i h15
        constructor
        · intro hcc; exact absurd hcc (by decide)
        · intro hcc
          have h15' : s.grid (cellIndex x y) &&& 31 = 15 := h15
          omega
      · have hid : getCellType s x y &&& 31 = s.grid (cellIndex x y) &&& 31 := by
          show (s.grid (cellIndex x y) &&& 31) &&& 31 =
            s.grid (cellIndex x y) &&& 31
          rw [Nat.and_assoc, Nat.and_self]
        rw [hid]
  · rw [Function.update_noteq hne]

theorem releaseCellVisual_tame (s : GameState) (x y : Int) :
    TameEq s (releaseCellVisual s x y) := by
  refine ⟨rfl, rfl, rfl, rfl, rfl, ?_⟩
  intro i
  show (Function.update s.grid (cellIndex x y)
      ((cellData s x y &&& 224) |||
        (if getCellType s x y = 9 then 13
         else if getCellType s x y = 0 then 15 else getCellType s x y)) i
      &&& 31 = 14) ↔ (s.grid i &&& 31 = 14)
  rcases eq_or_ne i (cellIndex x y) with rfl | hne
  · rw [Function.update_same, setByte_data]
    split
    · rename_i h9
      constructor
      · intro hcc; exact absurd hcc (by decide)
      · intro hcc
        have h9' : s.grid (cellIndex x y) &&& 31 = 9 := h9
        omega
    · split
      · rename_i h0
        constructor
        · intro hcc; exact absurd hcc (by decide)
        · intro hcc
          have h0' : s.grid (cellIndex x y) &&& 31 = 0 := h0
          omega
      · have hid : getCellType s x y &&& 31 = s.grid (cellIndex x y) &&& 31 := by
          show (s.grid (cellIndex x y) &&& 31) &&& 31 =
            s.grid (cellIndex x y) &&& 31
          rw [Nat.and_assoc, Nat.and_self]
        rw [hid]
  · rw [Function.update_noteq hne]

/-- The cursor tracker is a purely cosmetic operation. -/
theorem updateCursorPosition_tame (s : GameState) (xn yn : Int) :
    TameEq s (updateCursorPosition s xn yn) := by
  unfold updateCursorPosition
  split
  · exact tameEq_refl s
  · dsimp only
    split
    · apply tameEq_ite
      · refine tameEq_trans ?_ (foldl_tameEq _ ?_ _ _)
        · apply tameEq_ite
          · refine tameEq_trans
              (t := { s with cursorX := xn, cursorY := yn })
              ⟨rfl, rfl, rfl, rfl, rfl, fun _ => Iff.rfl⟩
              (foldl_tameEq _ ?_ _ _)
            intro st a
            apply foldl_tameEq
            intro st2 b
            apply tameEq_ite
            · exact releaseCellVisual_tame st2 _ _
            · exact tameEq_refl st2
          · exact ⟨rfl, rfl, rfl, rfl, rfl, fun _ => Iff.rfl⟩
        · intro st a
          apply foldl_tameEq
          intro st2 b
          apply tameEq_ite
          · exact pressCellVisual_tame st2 _ _
          · exact tameEq_refl st2
      · apply tameEq_ite
        · refine tameEq_trans
            (t := { s with cursorX := xn, cursorY := yn })
            ⟨rfl, rfl, rfl, rfl, rfl, fun _ => Iff.rfl⟩
            (foldl_tameEq _ ?_ _ _)
          intro st a
          apply foldl_tameEq
          intro st2 b
          apply tameEq_ite
          · exact releaseCellVisual_tame st2 _ _
          · exact tameEq_refl st2
        · exact ⟨rfl, rfl, rfl, rfl, rfl, fun _ => Iff.rfl⟩
    · apply tameEq_ite
      · apply tameEq_trans (u := pressCellVisual _ _ _) ?_
          (pressCellVisual_tame _ _ _)
        apply tameEq_ite
        · exact tameEq_trans
            (t := { s with cursorX := xn, cursorY := yn })
            ⟨rfl, rfl, rfl, rfl, rfl, fun _ => Iff.rfl⟩
            (releaseCellVisual_tame _ _ _)
        · exact ⟨rfl, rfl, rfl, rfl, rfl, fun _ => Iff.rfl⟩
      · apply tameEq_ite
        · exact tameEq_trans
            (t := { s with cursorX := xn, cursorY := yn })
            ⟨rfl, rfl, rfl, rfl, rfl, fun _ => Iff.rfl⟩
            (releaseCellVisual_tame _ _ _)
        · exact ⟨rfl, rfl, rfl, rfl, rfl, fun _ => Iff.rfl⟩

theorem updateGameTimer_tame (s : GameState) :
    TameEq s (updateGameTimer s) := by
  unfold updateGameTimer
  apply tameEq_ite
  · exact ⟨rfl, rfl, rfl, rfl, rfl, fun _ => Iff.rfl⟩
  · exact tameEq_refl s

theorem flaggedB_update_self (s : GameState) (x y : Int) (blk : Nat) :
    flaggedB (updateCellState s x y blk) x y = true ↔ blk &&& 31 = 14 := by
  unfold flaggedB getCellType cellData updateCellState setCellDataS writeCell
  show ((Function.update s.grid (cellIndex x y)
      ((s.grid (cellIndex x y) &&& 224) ||| blk) (cellIndex x y) &&& 31)
      == 14) = true ↔ blk &&& 31 = 14
  rw [Function.update_same, setByte_data]
  exact beq_iff_eq

theorem flaggedB_update_other {s : GameState} (hw : s.gridWidth ≤ 30)
    {x y : Int} (hv : IsValidPosition s x y) (blk : Nat)
    {c : Coord} (hc : IsValidPosition s c.1 c.2) (hne : c ≠ (x, y)) :
    flaggedB (updateCellState s x y blk) c.1 c.2 = flaggedB s c.1 c.2 := by
  obtain ⟨hv1, hv2, hv3, hv4⟩ := hv
  obtain ⟨hc1, hc2, hc3, hc4⟩ := hc
  have hnei : cellIndex c.1 c.2 ≠ cellIndex x y := by
    intro he
    obtain ⟨e1, e2⟩ := cellIndex_inj (by omega) (by omega) (by omega)
      (by omega) he
    exact hne (Prod.ext_iff.mpr ⟨e1, e2⟩)
  unfold flaggedB getCellType cellData updateCellState setCellDataS writeCell
  show ((Function.update s.grid (cellIndex x y)
      ((s.grid (cellIndex x y) &&& 224) ||| blk) (cellIndex c.1 c.2) &&& 31)
      == 14) = (s.grid (cellIndex c.1 c.2) &&& 31 == 14)
  rw [Function.update_noteq hnei]

/-- Writing a flag visual onto an unflagged playable cell raises the flag
count by one. -/
theorem flaggedCount_update_flag {s : GameState} (hw : s.gridWidth ≤ 30)
    {x y : Int} (hv : IsValidPosition s x y) {blk : Nat}
    (hb : blk &&& 31 = 14) (hfl : flaggedB s x y = false) :
    flaggedCount (updateCellState s x y blk) = flaggedCount s + 1 := by
  unfold flaggedCount
  have hps : playFinset (updateCellState s x y blk) = playFinset s := rfl
  rw [hps]
  have hset : (playFinset s).filter
      (fun c => flaggedB (updateCellState s x y blk) c.1 c.2 = true)
      = insert ((x, y) : Coord)
          ((playFinset s).filter (fun c => flaggedB s c.1 c.2 = true)) := by
    ext c
    simp only [Finset.mem_filter, Finset.mem_insert]
    constructor
    · rintro ⟨hcm, hcf⟩
      by_cases hcx : c = ((x, y) : Coord)
      · exact Or.inl hcx
      · rw [flaggedB_update_other hw hv blk (mem_playFinset.mp hcm) hcx]
          at hcf
        exact Or.inr ⟨hcm, hcf⟩
    · rintro (rfl | ⟨hcm, hcf⟩)
      · exact ⟨mem_playFinset.mpr hv, (flaggedB_update_self s x y blk).mpr hb⟩
      · have hcx : c ≠ ((x, y) : Coord) := by
          intro hh
          rw [hh] at hcf
          exact Bool.noConfusion (hfl.symm.trans hcf)
        refine ⟨hcm, ?_⟩
        rw [flaggedB_update_other hw hv blk (mem_playFinset.mp hcm) hcx]
        exact hcf
  have hnm : ((x, y) : Coord) ∉
      (playFinset s).filter (fun c => flaggedB s c.1 c.2 = true) := by
    intro hm
    have := (Finset.mem_filter.mp hm).2
    exact Bool.noConfusion (hfl.symm.trans this)
  rw [hset, Finset.card_insert_of_not_mem hnm]

/-- Clearing the flag visual of a flagged playable cell lowers the flag
count by one. -/
theorem flaggedCount_update_unflag {s : GameState} (hw : s.gridWidth ≤ 30)
    {x y : Int} (hv : IsValidPosition s x y) {blk : Nat}
    (hb : blk &&& 31 ≠ 14) (hfl : flaggedB s x y = true) :
    flaggedCount (updateCellState s x y blk) = flaggedCount s - 1 ∧
    1 ≤ flaggedCount s := by
  have hmem : ((x, y) : Coord) ∈
      (playFinset s).filter (fun c => flaggedB s c.1 c.2 = true) :=
    Finset.mem_filter.mpr ⟨mem_playFinset.mpr hv, hfl⟩
  constructor
  · unfold flaggedCount
    have hps : playFinset (updateCellState s x y blk) = playFinset s := rfl
    rw [hps]
    have hset : (playFinset s).filter
        (fun c => flaggedB (updateCellState s x y blk) c.1 c.2 = true)
        = ((playFinset s).filter
            (fun c => flaggedB s c.1 c.2 = true)).erase ((x, y) : Coord) := by
      ext c
      simp only [Finset.mem_filter, Finset.mem_erase]
      constructor
      · rintro ⟨hcm, hcf⟩
        by_cases hcx : c = ((x, y) : Coord)
        · subst hcx
          exact absurd ((flaggedB_update_self s x y blk).mp hcf) hb
        · rw [flaggedB_update_other hw hv blk (mem_playFinset.mp hcm) hcx]
            at hcf
          exact ⟨hcx, hcm, hcf⟩
      · rintro ⟨hcx, hcm, hcf⟩
        refine ⟨hcm, ?_⟩
        rw [flaggedB_update_other hw hv blk (mem_playFinset.mp hcm) hcx]
        exact hcf
    rw [hset, Finset.card_erase_of_mem hmem]
  · exact Finset.card_pos.mpr ⟨_, hmem⟩

/-- Rewriting a non-flag visual onto an unflagged cell leaves the flag
count unchanged. -/
theorem flaggedCount_update_neutral {s : GameState} (hw : s.gridWidth ≤ 30)
    {x y : Int} (hv : IsValidPosition s x y) {blk : Nat}
    (hb : blk &&& 31 ≠ 14) (hfl : flaggedB s x y = false) :
    flaggedCount (updateCellState s x y blk) = flaggedCount s := by
  unfold flaggedCount
  have hps : playFinset (updateCellState s x y blk) = playFinset s := rfl
  rw [hps]
  refine congrArg Finset.card (Finset.filter_congr ?_)
  intro c hcm
  by_cases hcx : c = ((x, y) : Coord)
  · subst hcx
    constructor
    · intro hcf
      exact absurd ((flaggedB_update_self s x y blk).mp hcf) hb
    · intro hcf
      exact absurd (hfl.symm.trans hcf) Bool.noConfusion
  · rw [flaggedB_update_other hw hv blk (mem_playFinset.mp hcm) hcx]

theorem suspendGameState_fields (s : GameState) :
    (suspendGameState s).gridWidth = s.gridWidth ∧
    (suspendGameState s).gridHeight = s.gridHeight ∧
    (suspendGameState s).totalMines = s.totalMines ∧
    (suspendGameState s).remainingMines = s.remainingMines ∧
    (suspendGameState s).gameStatus = s.gameStatus ||| 2 ∧
    (suspendGameState s).grid = s.grid := by
  unfold suspendGameState
  dsimp only
  split <;> split <;> exact ⟨rfl, rfl, rfl, rfl, rfl, rfl⟩

theorem restoreGameState_fields (s : GameState) :
    (restoreGameState s).gridWidth = s.gridWidth ∧
    (restoreGameState s).gridHeight = s.gridHeight ∧
    (restoreGameState s).totalMines = s.totalMines ∧
    (restoreGameState s).remainingMines = s.remainingMines ∧
    (restoreGameState s).gameStatus = s.gameStatus &&& 253 ∧
    (restoreGameState s).grid = s.grid := by
  unfold restoreGameState
  dsimp only
  split <;> exact ⟨rfl, rfl, rfl, rfl, rfl, rfl⟩

theorem suspend_mineInv {s : GameState} (h : MineInv s) :
    MineInv (suspendGameState s) := by
  obtain ⟨f1, f2, f3, f4, f5, f6⟩ := suspendGameState_fields s
  refine ⟨by rw [f1]; exact h.1, ?_⟩
  intro hps
  have hbit : (s.gameStatus ||| 2) &&& 1 = s.gameStatus &&& 1 := by
    rw [and_or_right, (by decide : (2 &&& 1 : Nat) = 0), Nat.or_zero]
  have hps' : fStatusPlayP s := by
    unfold fStatusPlayP at hps ⊢
    rw [f5, hbit] at hps
    exact hps
  rw [f4, f3, flaggedCount_congr f1 f2 (fun i => by rw [f6])]
  exact h.2 hps'

theorem restore_mineInv {s : GameState} (h : MineInv s) :
    MineInv (restoreGameState s) := by
  obtain ⟨f1, f2, f3, f4, f5, f6⟩ := restoreGameState_fields s
  refine ⟨by rw [f1]; exact h.1, ?_⟩
  intro hps
  have hbit : (s.gameStatus &&& 253) &&& 1 = s.gameStatus &&& 1 := by
    rw [Nat.and_assoc, (by decide : (253 &&& 1 : Nat) = 1)]
  have hps' : fStatusPlayP s := by
    unfold fStatusPlayP at hps ⊢
    rw [f5, hbit] at hps
    exact hps
  rw [f4, f3, flaggedCount_congr f1 f2 (fun i => by rw [f6])]
  exact h.2 hps'

theorem revealAllMines_keeps (s : GameState) (iBlk : Nat) :
    (revealAllMines s iBlk).gridWidth = s.gridWidth ∧
    (revealAllMines s iBlk).gridHeight = s.gridHeight := by
  unfold revealAllMines
  have hk := foldl_keeps
    (fun st (c : Coord) =>
      if visitedB st c.1 c.2 then st
      else if hasMineB st c.1 c.2 then
        (if flaggedB st c.1 c.2 then st else setCellDataS st c.1 c.2 iBlk)
      else if flaggedB st c.1 c.2 then setCellDataS st c.1 c.2 11
      else st)
    (fun st a => by
      dsimp only
      split
      · exact ⟨rfl, rfl, rfl⟩
      · split
        · split
          · exact ⟨rfl, rfl, rfl⟩
          · exact ⟨rfl, rfl, rfl⟩
        · split
          · exact ⟨rfl, rfl, rfl⟩
          · exact ⟨rfl, rfl, rfl⟩)
    (scanOrder s) s
  exact ⟨hk.1, hk.2.1⟩

/-- `EndGame` always lands in the demo status 16 and keeps the width. -/
theorem endGame_dims (s : GameState) (b : Bool) :
    (endGame s b).gridWidth = s.gridWidth ∧
    (endGame s b).gameStatus = 16 := by
  cases b with
  | false =>
    obtain ⟨hr1, hr2⟩ := revealAllMines_keeps
      { s with timerActive := false, currentButton := 2 } 10
    exact ⟨hr1, rfl⟩
  | true =>
    obtain ⟨hr1, hr2⟩ := revealAllMines_keeps
      { s with timerActive := false, currentButton := 3 } 14
    unfold endGame
    dsimp only
    simp only [reduceIte]
    constructor
    · repeat' split
      all_goals exact hr1
    · repeat' split
      all_goals rfl

/-- The placement loop never changes a cell's visual type. -/
theorem mineLoop_data (rng : Nat → Nat) :
    ∀ (fuel : Nat) (s : GameState) (k : Nat) (count : Int) (t : GameState),
      mineLoop rng fuel s k count = some t →
      ∀ i : Int, t.grid i &&& 31 = s.grid i &&& 31 := by
  have hpm : ∀ (u : GameState) (x y i : Int),
      (placeMineS u x y).grid i &&& 31 = u.grid i &&& 31 := by
    intro u x y i
    rw [placeMine_grid]
    rcases eq_or_ne i (cellIndex x y) with rfl | hne
    · rw [Function.update_same, orByte_data]
    · rw [Function.update_noteq hne]
  intro fuel
  induction fuel with
  | zero =>
      intro s k count t ht
      simp [mineLoop] at ht
  | succ fuel ih =>
      intro s k count t ht
      simp only [mineLoop] at ht
      split at ht
      · exact ih s (k + 2) count t ht
      · split at ht
        · injection ht with hteq
          subst hteq
          intro i
          exact hpm s _ _ i
        · intro i
          exact (ih _ (k + 2) (count - 1) t ht i).trans (hpm s _ _ i)

theorem flaggedCount_initBoardPre (s : GameState)
    (hW : s.gameConfig.Width ≤ 30) (hH : s.gameConfig.Height ≤ 24) :
    flaggedCount (initBoardPre s) = 0 := by
  unfold flaggedCount
  rw [Finset.card_eq_zero, Finset.filter_eq_empty_iff]
  intro c hcmem
  obtain ⟨a1, a2, a3, a4⟩ := mem_playFinset.mp hcmem
  obtain ⟨d1, d2, d3, d4⟩ := initBoardPre_dims s
  rw [d1] at a3
  rw [d2] at a4
  have hvd : IsValidPosition (initDims s) c.1 c.2 := ⟨a1, a2, a3, a4⟩
  have hcell : cellData (resetGameGrid (initDims s)) c.1 c.2 = 15 :=
    resetGameGrid_cell hW hH hvd
  intro hcontra
  have h14 := (flaggedB_iff (initBoardPre s) c.1 c.2).mp hcontra
  rw [show (initBoardPre s).grid (cellIndex c.1 c.2) = 15 from hcell] at h14
  exact absurd h14 (by decide)

/-- The 3×3 chord walk only writes explosion visuals on unflagged cells
and flood fills: it never touches the counters, the status or any flag. -/
theorem chordFold_tame :
    ∀ (l : List Coord) (p : GameState × Bool),
      TameEq p.1 ((l.foldl
        (fun (a : GameState × Bool) c =>
          if !(flaggedB a.1 c.1 c.2) && hasMineB a.1 c.1 c.2 then
            (updateCellState a.1 c.1 c.2 (64 ||| 12), true)
          else
            (floodFillReveal a.1 c.1 c.2, a.2)) p).1) := by
  intro l
  induction l with
  | nil => intro p; exact tameEq_refl p.1
  | cons c l ih =>
      intro p
      simp only [List.foldl_cons]
      refine tameEq_trans ?_ (ih _)
      dsimp only
      split
      · rename_i hguard
        refine ⟨rfl, rfl, rfl, rfl, rfl, ?_⟩
        intro i
        show (Function.update p.1.grid (cellIndex c.1 c.2)
            ((cellData p.1 c.1 c.2 &&& 224) ||| (64 ||| 12)) i &&& 31 = 14)
          ↔ (p.1.grid i &&& 31 = 14)
        rcases eq_or_ne i (cellIndex c.1 c.2) with rfl | hne
        · rw [Function.update_same, setByte_data]
          constructor
          · intro hcc
            exact absurd hcc (by decide)
          · intro hcc
            have hfl : flaggedB p.1 c.1 c.2 = false := by
              have hpair := hguard
              simp only [Bool.and_eq_true, Bool.not_eq_true'] at hpair
              exact hpair.1
            have := (flaggedB_iff p.1 c.1 c.2).mpr hcc
            rw [hfl] at this
            exact Bool.noConfusion this
        · rw [Function.update_noteq hne]
      · exact tameEq_of_revealLike (floodFillReveal_revealLike p.1 c.1 c.2)

/-- A chord preserves the session invariant: a failed precondition is a
cosmetic pop-up, a detonation or a victory ends the game (status 16), and
a quiet pass is reveal-like. -/
theorem revealAdjacentCells_mineInv {s : GameState} (h : MineInv s)
    (xc yc : Int) : MineInv (revealAdjacentCells s xc yc) := by
  unfold revealAdjacentCells
  split
  · exact mineInv_tame h (updateCursorPosition_tame s (-2) (-2))
  · dsimp only
    have htame := chordFold_tame (box3 xc yc) (s, false)
    split
    · refine ⟨?_, ?_⟩
      · rw [(endGame_dims _ false).1, htame.1]
        exact h.1
      · intro hps
        unfold fStatusPlayP at hps
        rw [(endGame_dims _ false).2] at hps
        exact absurd (by decide : (16 : Nat) &&& 1 = 0) hps
    · split
      · refine ⟨?_, ?_⟩
        · rw [(endGame_dims _ true).1, htame.1]
          exact h.1
        · intro hps
          unfold fStatusPlayP at hps
          rw [(endGame_dims _ true).2] at hps
          exact absurd (by decide : (16 : Nat) &&& 1 = 0) hps
      · exact mineInv_tame h htame

/-- A click preserves the session invariant (the clicked cell is never
flagged: the caller checks `fValidStep`). -/
theorem handleCellClick_mineInv {s : GameState} (h : MineInv s) (x y : Int)
    (hflg : flaggedB s x y = false) :
    MineInv (handleCellClick s x y) := by
  unfold handleCellClick
  split
  · split
    · split
      · rename_i c hfind
        refine mineInv_tame h ?_
        refine tameEq_trans ?_
          (tameEq_of_revealLike (floodFillReveal_revealLike _ x y))
        refine ⟨rfl, rfl, rfl, rfl, rfl, ?_⟩
        intro i
        show (Function.update (Function.update s.grid (cellIndex x y) 15)
            (cellIndex c.1 c.2)
            ((Function.update s.grid (cellIndex x y) 15) (cellIndex c.1 c.2)
              ||| 128) i &&& 31 = 14) ↔ (s.grid i &&& 31 = 14)
        rcases eq_or_ne i (cellIndex c.1 c.2) with rfl | hne
        · rw [Function.update_same, orByte_data]
          rcases eq_or_ne (cellIndex c.1 c.2) (cellIndex x y) with he | hne2
          · rw [he, Function.update_same]
            constructor
            · intro hcc
              exact absurd hcc (by decide)
            · intro hcc
              have := (flaggedB_iff s x y).mpr hcc
              rw [hflg] at this
              exact Bool.noConfusion this
          · rw [Function.update_noteq hne2]
        · rw [Function.update_noteq hne]
          rcases eq_or_ne i (cellIndex x y) with rfl | hne3
          · rw [Function.update_same]
            constructor
            · intro hcc
              exact absurd hcc (by decide)
            · intro hcc
              have := (flaggedB_iff s x y).mpr hcc
              rw [hflg] at this
              exact Bool.noConfusion this
          · rw [Function.update_noteq hne3]
      · exact h
    · refine ⟨?_, ?_⟩
      · rw [(endGame_dims _ false).1]
        exact h.1
      · intro hps
        unfold fStatusPlayP at hps
        rw [(endGame_dims _ false).2] at hps
        exact absurd (by decide : (16 : Nat) &&& 1 = 0) hps
  · dsimp only
    split
    · refine ⟨?_, ?_⟩
      · rw [(endGame_dims _ true).1]
        have hsh := (floodFillReveal_revealLike s x y).1
        rw [hsh.2.1]
        exact h.1
      · intro hps
        unfold fStatusPlayP at hps
        rw [(endGame_dims _ true).2] at hps
        exact absurd (by decide : (16 : Nat) &&& 1 = 0) hps
    · exact mineInv_tame h
        (tameEq_of_revealLike (floodFillReveal_revealLike s x y))

/-- A flag toggle keeps `remainingMines = totalMines − flags`: the two
counters move in lockstep, and a toggle-triggered win leaves play. -/
theorem toggleCellMarker_mineInv {s : GameState} (h : MineInv s)
    (x y : Int) : MineInv (toggleCellMarker s x y) := by
  unfold toggleCellMarker
  split
  · rename_i hv
    split
    · exact h
    · rename_i hnv
      dsimp only
      by_cases hfl : flaggedB s x y = true
      · rw [if_pos hfl]
        dsimp only
        generalize hblk : (if s.gameConfig.fMark = true then (13 : Nat)
          else 15) = blk
        have hblk14 : blk &&& 31 ≠ 14 := by
          rw [← hblk]
          split <;> decide
        split
        · rename_i hcond
          exact absurd ((flaggedB_update_self (updateMineCount s 1) x y
            blk).mp hcond.1) hblk14
        · refine ⟨h.1, ?_⟩
          intro hps
          have hps' : fStatusPlayP s := hps
          have heq := h.2 hps'
          obtain ⟨hfc, hge⟩ := flaggedCount_update_unflag
            (s := updateMineCount s 1) h.1 hv hblk14 hfl
          have hfcs : flaggedCount (updateMineCount s 1) = flaggedCount s :=
            rfl
          show s.remainingMines + 1 = s.totalMines -
            (flaggedCount (updateCellState (updateMineCount s 1) x y
              blk) : Int)
          rw [hfc, hfcs]
          rw [hfcs] at hge
          omega
      · rw [if_neg hfl]
        by_cases hmk : markedB s x y = true
        · rw [if_pos hmk]
          dsimp only
          split
          · rename_i hcond
            exact absurd ((flaggedB_update_self s x y 15).mp hcond.1)
              (by decide)
          · refine ⟨h.1, ?_⟩
            intro hps
            have hps' : fStatusPlayP s := hps
            have heq := h.2 hps'
            have hfl' : flaggedB s x y = false := by
              simp only [Bool.not_eq_true] at hfl
              exact hfl
            have hfc := flaggedCount_update_neutral h.1 hv
              (by decide : (15 : Nat) &&& 31 ≠ 14) hfl'
            show s.remainingMines = s.totalMines -
              (flaggedCount (updateCellState s x y 15) : Int)
            rw [hfc]
            exact heq
        · rw [if_neg hmk]
          dsimp only
          split
          · rename_i hcond
            refine ⟨?_, ?_⟩
            · rw [(endGame_dims _ true).1]
              exact h.1
            · intro hps
              unfold fStatusPlayP at hps
              rw [(endGame_dims _ true).2] at hps
              exact absurd (by decide : (16 : Nat) &&& 1 = 0) hps
          · refine ⟨h.1, ?_⟩
            intro hps
            have hps' : fStatusPlayP s := hps
            have heq := h.2 hps'
            have hfl' : flaggedB s x y = false := by
              simp only [Bool.not_eq_true] at hfl
              exact hfl
            have hfc := flaggedCount_update_flag
              (s := updateMineCount s (-1)) h.1 hv
              (by decide : (14 : Nat) &&& 31 = 14) hfl'
            have hfcs : flaggedCount (updateMineCount s (-1)) =
              flaggedCount s := rfl
            show s.remainingMines + (-1) = s.totalMines -
              (flaggedCount (updateCellState (updateMineCount s (-1)) x y
                14) : Int)
            rw [hfc, hfcs]
            omega
  · exact h

/-- A flag placed on a hidden cell (no toggle-win) lowers the counter by
one. -/
theorem toggle_delta_flag {s : GameState} (x y : Int)
    (hv : IsValidPosition s x y) (hnv : visitedB s x y = false)
    (hfl : flaggedB s x y = false) (hmk : markedB s x y = false)
    (hcv : checkVictoryB s = false) :
    (toggleCellMarker s x y).remainingMines = s.remainingMines - 1 := by
  unfold toggleCellMarker
  rw [if_pos hv, if_neg (by simp [hnv])]
  dsimp only
  have hfl' : ¬ (flaggedB s x y = true) := by simp [hfl]
  have hmk' : ¬ (markedB s x y = true) := by simp [hmk]
  rw [if_neg hfl', if_neg hmk']
  dsimp only
  split
  · rename_i hcond
    have hcv' : checkVictoryB (updateCellState (updateMineCount s (-1)) x y
      14) = false := hcv
    rw [hcv'] at hcond
    exact Bool.noConfusion hcond.2
  · show s.remainingMines + (-1) = s.remainingMines - 1
    omega

/-- A flag removed from a cell raises the counter by one. -/
theorem toggle_delta_unflag {s : GameState} (x y : Int)
    (hv : IsValidPosition s x y) (hnv : visitedB s x y = false)
    (hfl : flaggedB s x y = true) :
    (toggleCellMarker s x y).remainingMines = s.remainingMines + 1 := by
  unfold toggleCellMarker
  rw [if_pos hv, if_neg (by simp [hnv])]
  dsimp only
  rw [if_pos hfl]
  dsimp only
  generalize hblk : (if s.gameConfig.fMark = true then (13 : Nat)
    else 15) = blk
  have hblk14 : blk &&& 31 ≠ 14 := by
    rw [← hblk]
    split <;> decide
  split
  · rename_i hcond
    exact absurd ((flaggedB_update_self (updateMineCount s 1) x y blk).mp
      hcond.1) hblk14
  · rfl

/-- The left-button release handler preserves the session invariant. -/
theorem handleLeftButtonRelease_mineInv {s : GameState} (h : MineInv s) :
    MineInv (handleLeftButtonRelease s) := by
  unfold handleLeftButtonRelease
  split
  · dsimp only
    have hY : MineInv (if s.revealedCells = 0 ∧ s.elapsedSeconds = 0 then
        { s with elapsedSeconds := s.elapsedSeconds + 1,
                 timerActive := true }
      else s) := by
      split
      · exact mineInv_tame h ⟨rfl, rfl, rfl, rfl, rfl, fun _ => Iff.rfl⟩
      · exact h
    generalize hYe : (if s.revealedCells = 0 ∧ s.elapsedSeconds = 0 then
        { s with elapsedSeconds := s.elapsedSeconds + 1,
                 timerActive := true }
      else s) = Y at hY ⊢
    have hX : MineInv (if ¬ fStatusPlayP Y then
        { Y with cursorX := -2, cursorY := -2 } else Y) := by
      split
      · exact mineInv_tame hY ⟨rfl, rfl, rfl, rfl, rfl, fun _ => Iff.rfl⟩
      · exact hY
    generalize hXe : (if ¬ fStatusPlayP Y then
        { Y with cursorX := -2, cursorY := -2 } else Y) = X at hX ⊢
    split
    · exact revealAdjacentCells_mineInv hX _ _
    · split
      · rename_i hvs
        have hflg : flaggedB X X.cursorX X.cursorY = false := by
          unfold fValidStepB at hvs
          simp only [Bool.not_eq_true', Bool.or_eq_false_iff] at hvs
          exact hvs.2
        exact handleCellClick_mineInv hX _ _ hflg
      · exact hX
  · exact h

/-- One observable transition of the message loop, gated exactly as
`WindowMessageHandler` gates the corresponding call. -/
inductive Step : GameState → GameState → Prop where
  | newGame {s t : GameState} (rng : Nat → Nat) (fuel : Nat)
      (hW9 : 9 ≤ s.gameConfig.Width) (hW : s.gameConfig.Width ≤ 30)
      (hH9 : 9 ≤ s.gameConfig.Height) (hH : s.gameConfig.Height ≤ 24)
      (hM : 10 ≤ s.gameConfig.Mines)
      (ht : initializeGameBoard s rng fuel = some t) : Step s t
  | toggle {s : GameState} (x y : Int) (hp : fStatusPlayP s) :
      Step s (toggleCellMarker s x y)
  | click {s : GameState} (hp : fStatusPlayP s) :
      Step s (handleLeftButtonRelease s)
  | cursor {s : GameState} (x y : Int) : Step s (updateCursorPosition s x y)
  | tick {s : GameState} : Step s (updateGameTimer s)
  | pause {s : GameState} : Step s (suspendGameState s)
  | resume {s : GameState} : Step s (restoreGameState s)

/-- Reachability under the message-loop transitions. -/
def Reachable : GameState → GameState → Prop := Relation.ReflTransGen Step

/-- Every single transition preserves the invariant. -/
theorem step_mineInv {s t : GameState} (h : MineInv s) (hs : Step s t) :
    MineInv t := by
  cases hs with
  | newGame rng fuel hW9 hW hH9 hH hM ht =>
      obtain ⟨d1, d2, d3, d4⟩ := initBoardPre_dims s
      unfold initializeGameBoard at ht
      rw [d4] at ht
      split at ht
      · exact Option.noConfusion ht
      · rename_i s' heq
        injection ht with hteq
        subst hteq
        obtain ⟨m1, m2, m3, m4⟩ := mineLoop_spec rng fuel (initBoardPre s) 0
          s.gameConfig.Mines s' (by rw [d1]; exact hW9) (by rw [d1]; exact hW)
          (by rw [d2]; exact hH9) (by rw [d2]; exact hH) (by omega) heq
        have hdata := mineLoop_data rng fuel (initBoardPre s) 0
          s.gameConfig.Mines s' heq
        constructor
        · show s'.gridWidth ≤ 30
          rw [m1, d1]
          exact hW
        · intro _
          have hfc0 : flaggedCount s' = 0 := by
            have hfc1 : flaggedCount s' = flaggedCount (initBoardPre s) :=
              flaggedCount_congr m1 m2 (fun i => by rw [hdata i])
            rw [hfc1, flaggedCount_initBoardPre s hW hH]
          show s'.gameConfig.Mines =
            s'.gameConfig.Mines - (flaggedCount s' : Int)
          rw [hfc0]
          omega
  | toggle x y hp => exact toggleCellMarker_mineInv h x y
  | click hp => exact handleLeftButtonRelease_mineInv h
  | cursor x y => exact mineInv_tame h (updateCursorPosition_tame s x y)
  | tick => exact mineInv_tame h (updateGameTimer_tame s)
  | pause => exact suspend_mineInv h
  | resume => exact restore_mineInv h

/-- **C8**: from any session satisfying the invariant, every reachable
state during play has `remainingMines = totalMines − flaggedCount`, with
no clamping (it is negative as soon as flags outnumber mines); a toggle
into the flagged state decrements the counter by one and a toggle out of
it increments it by one. -/
theorem mine_counter_invariant (s0 t : GameState) (h0 : MineInv s0)
    (hr : Reachable s0 t) :
    (fStatusPlayP t →
      t.remainingMines = t.totalMines - (flaggedCount t : Int) ∧
      (t.totalMines < (flaggedCount t : Int) → t.remainingMines < 0)) ∧
    (∀ x y : Int, IsValidPosition t x y → visitedB t x y = false →
      (flaggedB t x y = false → markedB t x y = false →
        checkVictoryB t = false →
        (toggleCellMarker t x y).remainingMines = t.remainingMines - 1) ∧
      (flaggedB t x y = true →
        (toggleCellMarker t x y).remainingMines = t.remainingMines + 1)) := by
  have hi : MineInv t := by
    induction hr with
    | refl => exact h0
    | tail hab hbc ih => exact step_mineInv ih hbc
  refine ⟨?_, ?_⟩
  · intro hps
    have heq := hi.2 hps
    exact ⟨heq, fun hlt => by omega⟩
  · intro x y hv hnv
    exact ⟨fun hfl hmk hcv => toggle_delta_flag x y hv hnv hfl hmk hcv,
           fun hfl => toggle_delta_unflag x y hv hnv hfl⟩

def c8Wit : GameState := mkState 9 9 [(4, 4)] []

instance (s : GameState) : Decidable (MineInv s) := by
  unfold MineInv
  infer_instance

set_option maxRecDepth 100000 in
/-- Witness for C8 at a fresh playing session (zero steps taken). -/
theorem mine_counter_invariant_witness :
    MineInv c8Wit ∧
    ((fStatusPlayP c8Wit →
       c8Wit.remainingMines = c8Wit.totalMines - (flaggedCount c8Wit : Int) ∧
       (c8Wit.totalMines < (flaggedCount c8Wit : Int) →
         c8Wit.remainingMines < 0)) ∧
     (∀ x y : Int, IsValidPosition c8Wit x y → visitedB c8Wit x y = false →
       (flaggedB c8Wit x y = false → markedB c8Wit x y = false →
         checkVictoryB c8Wit = false →
         (toggleCellMarker c8Wit x y).remainingMines =
           c8Wit.remainingMines - 1) ∧
       (flaggedB c8Wit x y = true →
         (toggleCellMarker c8Wit x y).remainingMines =
           c8Wit.remainingMines + 1))) :=
  ⟨by decide,
   mine_counter_invariant c8Wit c8Wit (by decide) Relation.ReflTransGen.refl⟩

end Minesweeper
